import Mathlib

/-!
Shallow embedding of the pylox interpreter (src/app of the repository):
scanner, parser, environments, resolver and tree-walking evaluator,
together with the driver loop of `Pylox.run`.

Python conventions modelled explicitly:
* dictionaries become insertion-ordered association lists;
* Python object identity (`is`) is modelled with identity counters
  allocated at construction where the source relies on identity;
* exceptions become an explicit result sum (`Res`): `RuntimeException`,
  the `Return` control signal (module `app.returner`, absent from src,
  is an exception that carries the returned value, per the spec), and
  Python-level crashes such as TypeError/KeyError/ZeroDivisionError;
* unbounded recursion and loops take an explicit fuel argument; running
  out of fuel is the artificial outcome `Res.fuelOut`;
* Python numbers keep the int/float distinction of the source; float
  arithmetic is modelled over the rationals (the claims under study do
  not depend on IEEE-754 rounding).
-/

namespace Pylox

/-- An apostrophe character, used to build the exact error messages of the
source without apostrophe literals. -/
def sq : String := String.mk [Char.ofNat 39]

/-- Python numbers as used by the interpreter: `int` or `float`.
Floats are modelled as rationals. -/
inductive PyNum where
  | int (n : Int)
  | float (q : ℚ)
  deriving DecidableEq, Repr

namespace PyNum

def toRat : PyNum → ℚ
  | int n => (n : ℚ)
  | float q => q

/-- Python `float.is_integer`. -/
def isIntegerFloat : PyNum → Bool
  | int _ => false
  | float q => q.den = 1

/-- Python `+` on numbers: int+int is int, anything with a float is float. -/
def add : PyNum → PyNum → PyNum
  | int n, int m => int (n + m)
  | a, b => float (a.toRat + b.toRat)

def sub : PyNum → PyNum → PyNum
  | int n, int m => int (n - m)
  | a, b => float (a.toRat - b.toRat)

def mul : PyNum → PyNum → PyNum
  | int n, int m => int (n * m)
  | a, b => float (a.toRat * b.toRat)

/-- Python true division: always a float. -/
def div (a b : PyNum) : PyNum := float (a.toRat / b.toRat)

/-- Python unary minus. -/
def neg : PyNum → PyNum
  | int n => int (-n)
  | float q => float (-q)

end PyNum

/-- Token kinds.  The enum of src/app/scanner.py stops after `EOF`; the
keyword kinds below it are referenced by the parser, the resolver and the
test-suite although they are missing from that enum.
Modelled from the spec: the sixteen keyword kinds (spec section 3,
"Token kinds"), absent from the `TokenType` enum in src/app/scanner.py. -/
inductive TokenType where
  | LEFT_PAREN | RIGHT_PAREN | LEFT_BRACE | RIGHT_BRACE
  | COMMA | DOT | MINUS | PLUS | SEMICOLON | STAR | SLASH
  | BANG | BANG_EQUAL | EQUAL | EQUAL_EQUAL
  | GREATER | GREATER_EQUAL | LESS | LESS_EQUAL
  | STRING | NUMBER | IDENTIFIER
  | EOF
  | AND | CLASS | ELSE | FALSE | FUN | FOR | IF | NIL | OR
  | PRINT | RETURN | SUPER | THIS | TRUE | VAR | WHILE
  deriving DecidableEq, Repr

/-- A Python literal payload stored in tokens and `Literal` AST nodes
(`object` in the source: `None`, a float, a str, or a bool). -/
inductive PyLit where
  | none
  | num (n : PyNum)
  | str (s : String)
  | bool (b : Bool)
  deriving DecidableEq, Repr

structure Token where
  token_type : TokenType
  lexeme : String
  literal : PyLit
  line : Nat
  deriving DecidableEq, Repr

/-- Expressions (src/app/expr.py).  The repository assigns identity to
expression nodes through Python object identity (`VariableRef` hashes by
`id(...)`); the embedding gives the four node kinds wrapped by
`VariableRef` an explicit identity `eid` allocated at construction.
The `get`/`set`/`thisE`/`superE` variants are referenced by the
interpreter and resolver but missing from src/app/expr.py.
Modelled from the spec: `Get{object, name}`, `Set{object, name, value}`,
`This{keyword}`, `Super{keyword, method}` (spec section 3). -/
inductive Expr where
  | assign (eid : Nat) (name : Token) (value : Expr)
  | binary (left : Expr) (operator : Token) (right : Expr)
  | call (callee : Expr) (paren : Token) (arguments : List Expr)
  | grouping (expression : Expr)
  | literal (value : PyLit)
  | logical (left : Expr) (operator : Token) (right : Expr)
  | unary (operator : Token) (right : Expr)
  | variableE (eid : Nat) (name : Token)
  | get (object : Expr) (name : Token)
  | set (object : Expr) (name : Token) (value : Expr)
  | thisE (eid : Nat) (keyword : Token)
  | superE (eid : Nat) (keyword : Token) (method : Token)

/-- Statements (src/app/stmt.py).  The `classS` variant is referenced by
the interpreter and resolver but missing from src/app/stmt.py.
Modelled from the spec: `Class{name, superclass?, methods}` where the
superclass is a `Variable` expression (spec sections 3 and 4.6). -/
inductive Stmt where
  | block (statements : List Stmt)
  | expression (expression : Expr)
  | function (name : Token) (params : List Token) (body : List Stmt)
  | ifS (condition : Expr) (then_branch : Stmt) (else_branch : Option Stmt)
  | print (expression : Expr)
  | whileS (condition : Expr) (body : Stmt)
  | returnS (keyword : Token) (value : Option Expr)
  | var (name : Token) (initializer : Option Expr)
  | classS (name : Token) (superclass : Option Expr) (methods : List Stmt)

/-- A user function value (src/app/lox_function.py).  `fid` models Python
object identity (`is`); the dataclass equality of the source ignores it.
`closure` is a reference into the environment store. -/
structure LoxFunctionV where
  fid : Nat
  name : Token
  params : List Token
  body : List Stmt
  closure : Nat
  is_initializer : Bool

/-- A class value (src/app/lox_class.py).  `cid` models object identity. -/
inductive LoxClassV where
  | mk (cid : Nat) (name : String) (superclass : Option LoxClassV)
      (methods : List (String × LoxFunctionV))

def LoxClassV.cid : LoxClassV → Nat
  | .mk c _ _ _ => c

def LoxClassV.name : LoxClassV → String
  | .mk _ n _ _ => n

def LoxClassV.superclass : LoxClassV → Option LoxClassV
  | .mk _ _ s _ => s

def LoxClassV.methods : LoxClassV → List (String × LoxFunctionV)
  | .mk _ _ _ m => m

/-- Runtime values: `None`, bools, numbers, strings, the single native
`Clock` callable, user functions, classes and instances.  Instances are
mutable and live in the instance store, referenced by index. -/
inductive Value where
  | nil
  | bool (b : Bool)
  | num (n : PyNum)
  | str (s : String)
  | clock
  | fn (f : LoxFunctionV)
  | klass (c : LoxClassV)
  | inst (iid : Nat)

/-- The key actually passed to a Python dict operation.  The environment
maps are keyed by `str`; `LoxFunction._get_this` nevertheless passes a
`Token` object, which CPython rejects (the Token dataclass is unhashable),
so a `tok` key never retrieves anything. -/
inductive PyKey where
  | s (v : String)
  | tok (t : Token)

/-- One environment (src/app/environment.py): an insertion-ordered map
from name to value plus an optional enclosing reference into the store. -/
structure EnvData where
  values : List (String × Value)
  enclosing : Option Nat

/-- One instance (src/app/lox_instance.py). -/
structure InstData where
  klass : LoxClassV
  fields : List (String × Value)

/-- Observable side effects: writes to stdout (`print`) and the stderr
reports of the driver. -/
inductive Effect where
  | out (s : String)
  | err (s : String)
  deriving DecidableEq, Repr

/-- Interpreter state: the environment store (globals at index 0), the
instance store, the current environment, the resolution table `_locals`
(expression identity to distance), an identity counter, the value the
native clock would return, and the effect log. -/
structure InterpState where
  envs : List EnvData
  insts : List InstData
  environment : Nat
  locals : List (Nat × Nat)
  nextId : Nat
  clockTime : ℚ
  effects : List Effect

/-- Outcomes of evaluation: normal result, `RuntimeException` (token and
message), the `Return` control signal, a Python-level crash
(TypeError / KeyError / ZeroDivisionError / RecursionError /
AssertionError), or fuel exhaustion (artificial). -/
inductive Res (α : Type) where
  | ok (a : α)
  | rte (tok : Token) (msg : String)
  | ret (v : Value)
  | pyErr (msg : String)
  | fuelOut

/-- Replace-or-append update of an insertion-ordered association list,
matching the update behaviour of a Python dict. -/
def dictSet (l : List (String × Value)) (k : String) (v : Value) :
    List (String × Value) :=
  match l with
  | [] => [(k, v)]
  | (k0, v0) :: rest =>
      if k0 = k then (k0, v) :: rest else (k0, v0) :: dictSet rest k v

def dictGet (l : List (String × Value)) (k : String) : Option Value :=
  match l with
  | [] => Option.none
  | (k0, v0) :: rest => if k0 = k then some v0 else dictGet rest k

def dictHasKey (l : List (String × Value)) (k : String) : Bool :=
  match l with
  | [] => false
  | (k0, _) :: rest => k0 = k || dictHasKey rest k

/-- `Interpreter._is_truthy` (src/app/interpreter.py): an object is falsy
iff it is `None`, the boolean `False`, or compares equal to the string
`"nil"` (among runtime values only the string `"nil"` itself does). -/
def isTruthy (v : Value) : Bool :=
  match v with
  | .nil => false
  | .bool false => false
  | .str s => !(s = "nil")
  | _ => true

/-! ## Scanner (src/app/scanner.py) -/

structure ScanState where
  source : List Char
  start : Nat
  current : Nat
  line : Nat
  tokens : List Token
  errors : List (Nat × String)

namespace Scanner

def isAtEnd (s : ScanState) : Bool := s.source.length ≤ s.current

/-- Character at the cursor; only read when not at end. -/
def charAt (s : ScanState) (i : Nat) : Char := s.source.getD i (Char.ofNat 0)

def advance (s : ScanState) : Char × ScanState :=
  (charAt s s.current, { s with current := s.current + 1 })

def matchC (s : ScanState) (expected : Char) : Bool × ScanState :=
  if isAtEnd s then (false, s)
  else if charAt s s.current ≠ expected then (false, s)
  else (true, { s with current := s.current + 1 })

def peek (s : ScanState) : Char :=
  if isAtEnd s then Char.ofNat 10 else charAt s s.current

def peekNext (s : ScanState) : Char :=
  if s.source.length ≤ s.current + 1 then Char.ofNat 10
  else charAt s (s.current + 1)

def lexemeOf (s : ScanState) : String :=
  String.mk ((s.source.drop s.start).take (s.current - s.start))

def addToken (s : ScanState) (tt : TokenType) (lit : PyLit := PyLit.none) :
    ScanState :=
  { s with tokens := s.tokens ++ [⟨tt, lexemeOf s, lit, s.line⟩] }

def report (s : ScanState) (msg : String) : ScanState :=
  { s with errors := s.errors ++ [(s.line, msg)] }

def isDigit (c : Char) : Bool := ('0' ≤ c) && (c ≤ '9')

def isAlpha (c : Char) : Bool :=
  (('a' ≤ c) && (c ≤ 'z')) || (('A' ≤ c) && (c ≤ 'Z')) || (c = '_')

def isAlphanumeric (c : Char) : Bool := isDigit c || isAlpha c

/-- Skip to the end of the line after `//`. -/
def commentLoop : Nat → ScanState → ScanState
  | 0, s => s
  | fuel + 1, s =>
      if peek s ≠ Char.ofNat 10 then commentLoop fuel (advance s).2 else s

/-- The body loop of `Scanner._string`. -/
def stringLoop : Nat → ScanState → ScanState
  | 0, s => s
  | fuel + 1, s =>
      if peek s ≠ '"' && !isAtEnd s then
        let s := if peek s = Char.ofNat 10 then { s with line := s.line + 1 } else s
        stringLoop fuel (advance s).2
      else s

def stringTok (fuel : Nat) (s : ScanState) : ScanState :=
  let s := stringLoop fuel s
  if isAtEnd s then report s "Unterminated string."
  else
    let s := (advance s).2
    let value := String.mk (((s.source.drop (s.start + 1)).take
      (s.current - 1 - (s.start + 1))))
    addToken s TokenType.STRING (PyLit.str value)

def digitLoop : Nat → ScanState → ScanState
  | 0, s => s
  | fuel + 1, s =>
      if isDigit (peek s) then digitLoop fuel (advance s).2 else s

def digitsToNat (cs : List Char) : Nat :=
  cs.foldl (fun a c => a * 10 + (c.toNat - 48)) 0

/-- Python `float(...)` on a numeric lexeme `[0-9]+(.[0-9]+)?`, over ℚ. -/
def lexemeToFloat (cs : List Char) : ℚ :=
  let ip := cs.takeWhile (fun c => c ≠ '.')
  let rest := cs.dropWhile (fun c => c ≠ '.')
  match rest with
  | [] => (digitsToNat ip : ℚ)
  | _ :: fp =>
      (digitsToNat ip : ℚ) + (digitsToNat fp : ℚ) / ((10 : ℚ) ^ fp.length)

def numberTok (fuel : Nat) (s : ScanState) : ScanState :=
  let s := digitLoop fuel s
  let s :=
    if peek s = '.' && isDigit (peekNext s) then
      digitLoop fuel (advance s).2
    else s
  let value := lexemeToFloat ((s.source.drop s.start).take (s.current - s.start))
  addToken s TokenType.NUMBER (PyLit.num (PyNum.float value))

def identLoop : Nat → ScanState → ScanState
  | 0, s => s
  | fuel + 1, s =>
      if isAlphanumeric (peek s) then identLoop fuel (advance s).2 else s

/-- `Scanner._identifier`: always emits IDENTIFIER — there is no keyword
table in src/app/scanner.py. -/
def identifier (fuel : Nat) (s : ScanState) : ScanState :=
  addToken (identLoop fuel s) TokenType.IDENTIFIER

def scanToken (fuel : Nat) (s : ScanState) : ScanState :=
  let (c, s) := advance s
  if c = '(' then addToken s .LEFT_PAREN
  else if c = ')' then addToken s .RIGHT_PAREN
  else if c = '{' then addToken s .LEFT_BRACE
  else if c = '}' then addToken s .RIGHT_BRACE
  else if c = ',' then addToken s .COMMA
  else if c = '.' then addToken s .DOT
  else if c = '-' then addToken s .MINUS
  else if c = '+' then addToken s .PLUS
  else if c = ';' then addToken s .SEMICOLON
  else if c = '*' then addToken s .STAR
  else if c = '!' then
    let (m, s) := matchC s '='
    addToken s (if m then .BANG_EQUAL else .BANG)
  else if c = '=' then
    let (m, s) := matchC s '='
    addToken s (if m then .EQUAL_EQUAL else .EQUAL)
  else if c = '>' then
    let (m, s) := matchC s '='
    addToken s (if m then .GREATER_EQUAL else .GREATER)
  else if c = '<' then
    let (m, s) := matchC s '='
    addToken s (if m then .LESS_EQUAL else .LESS)
  else if c = '/' then
    let (m, s) := matchC s '/'
    if m then commentLoop fuel s else addToken s .SLASH
  else if c = '"' then stringTok fuel s
  else if c = ' ' || c = Char.ofNat 13 || c = Char.ofNat 9 then s
  else if c = Char.ofNat 10 then { s with line := s.line + 1 }
  else if isDigit c then numberTok fuel s
  else if isAlpha c then identifier fuel s
  else report s ("Unexpected character: " ++ String.mk [c])

def scanLoop : Nat → ScanState → ScanState
  | 0, s => s
  | fuel + 1, s =>
      if !isAtEnd s then
        scanLoop fuel (scanToken fuel { s with start := s.current })
      else s

/-- `Scanner.scan_tokens`: scan the whole source and append the EOF token. -/
def scanTokens (source : String) : List Token × List (Nat × String) :=
  let cs := source.toList
  let s := scanLoop (cs.length + 1)
    ⟨cs, 0, 0, 1, [], []⟩
  (s.tokens ++ [⟨TokenType.EOF, "", PyLit.none, s.line⟩], s.errors)

end Scanner

/-! ## Parser (src/app/parser.py)

Recursive descent.  `ParseError` raising/catching becomes the `perr`
variant; `crash` models Python-level failures (e.g. the UnboundLocalError
reachable in `_for_statement` with an empty condition).  Each mutually
recursive function consumes one unit of fuel. -/

inductive PRes (α : Type) where
  | ok (a : α)
  | perr
  | crash (msg : String)
  | fuelOut

structure PState where
  tokens : List Token
  current : Nat
  errors : List (Token × String)
  nextEid : Nat

namespace Parser

def eofDefault : Token := ⟨TokenType.EOF, "", PyLit.none, 0⟩

def peekT (s : PState) : Token := s.tokens.getD s.current eofDefault

def previousT (s : PState) : Token := s.tokens.getD (s.current - 1) eofDefault

def isAtEndT (s : PState) : Bool := (peekT s).token_type = TokenType.EOF

def advanceT (s : PState) : Token × PState :=
  let s := if !isAtEndT s then { s with current := s.current + 1 } else s
  (previousT s, s)

def checkT (s : PState) (tt : TokenType) : Bool :=
  if isAtEndT s then false else (peekT s).token_type = tt

def matchT (s : PState) (types : List TokenType) : Bool × PState :=
  match types with
  | [] => (false, s)
  | t :: rest => if checkT s t then (true, (advanceT s).2) else matchT s rest

def reportP (s : PState) (tok : Token) (msg : String) : PState :=
  { s with errors := s.errors ++ [(tok, msg)] }

/-- `Parser._error`: report and hand back a ParseError (raised or not at
the call site). -/
def errorP (s : PState) (tok : Token) (msg : String) : PState :=
  reportP s tok msg

def consumeT (s : PState) (tt : TokenType) (msg : String) :
    PRes Token × PState :=
  if checkT s tt then
    let (t, s) := advanceT s
    (.ok t, s)
  else (.perr, errorP s (peekT s) msg)

def freshEid (s : PState) : Nat × PState :=
  (s.nextEid, { s with nextEid := s.nextEid + 1 })

def synchronizeLoop : Nat → PState → PState
  | 0, s => s
  | fuel + 1, s =>
      if !isAtEndT s then
        if (previousT s).token_type = TokenType.SEMICOLON then s
        else
          match (peekT s).token_type with
          | .CLASS | .FUN | .VAR | .FOR | .IF | .WHILE | .PRINT | .RETURN => s
          | _ => synchronizeLoop fuel (advanceT s).2
      else s

def synchronize (fuel : Nat) (s : PState) : PState :=
  synchronizeLoop fuel (advanceT s).2

mutual

def pExpression : Nat → PState → PRes Expr × PState
  | 0, s => (.fuelOut, s)
  | fuel + 1, s => pAssignment fuel s

def pAssignment : Nat → PState → PRes Expr × PState
  | 0, s => (.fuelOut, s)
  | fuel + 1, s =>
    match pOr fuel s with
    | (.ok expr, s) =>
        let (m, s) := matchT s [TokenType.EQUAL]
        if m then
          let equals := previousT s
          match pAssignment fuel s with
          | (.ok value, s) =>
              match expr with
              | .variableE _ name =>
                  let (eid, s) := freshEid s
                  (.ok (.assign eid name value), s)
              | _ => (.ok expr, errorP s equals "Invalid assignment target.")
          | r => r
        else (.ok expr, s)
    | r => r

def pOr : Nat → PState → PRes Expr × PState
  | 0, s => (.fuelOut, s)
  | fuel + 1, s =>
    match pAnd fuel s with
    | (.ok expr, s) => pOrLoop fuel expr s
    | r => r

def pOrLoop : Nat → Expr → PState → PRes Expr × PState
  | 0, _, s => (.fuelOut, s)
  | fuel + 1, expr, s =>
    let (m, s) := matchT s [TokenType.OR]
    if m then
      let operator := previousT s
      match pAnd fuel s with
      | (.ok right, s) => pOrLoop fuel (.logical expr operator right) s
      | r => r
    else (.ok expr, s)

def pAnd : Nat → PState → PRes Expr × PState
  | 0, s => (.fuelOut, s)
  | fuel + 1, s =>
    match pEquality fuel s with
    | (.ok expr, s) => pAndLoop fuel expr s
    | r => r

def pAndLoop : Nat → Expr → PState → PRes Expr × PState
  | 0, _, s => (.fuelOut, s)
  | fuel + 1, expr, s =>
    let (m, s) := matchT s [TokenType.AND]
    if m then
      let operator := previousT s
      match pEquality fuel s with
      | (.ok right, s) => pAndLoop fuel (.logical expr operator right) s
      | r => r
    else (.ok expr, s)

def pEquality : Nat → PState → PRes Expr × PState
  | 0, s => (.fuelOut, s)
  | fuel + 1, s =>
    match pComparison fuel s with
    | (.ok expr, s) => pEqualityLoop fuel expr s
    | r => r

def pEqualityLoop : Nat → Expr → PState → PRes Expr × PState
  | 0, _, s => (.fuelOut, s)
  | fuel + 1, expr, s =>
    let (m, s) := matchT s [TokenType.BANG_EQUAL, TokenType.EQUAL_EQUAL]
    if m then
      let operator := previousT s
      match pComparison fuel s with
      | (.ok right, s) => pEqualityLoop fuel (.binary expr operator right) s
      | r => r
    else (.ok expr, s)

def pComparison : Nat → PState → PRes Expr × PState
  | 0, s => (.fuelOut, s)
  | fuel + 1, s =>
    match pTerm fuel s with
    | (.ok expr, s) => pComparisonLoop fuel expr s
    | r => r

def pComparisonLoop : Nat → Expr → PState → PRes Expr × PState
  | 0, _, s => (.fuelOut, s)
  | fuel + 1, expr, s =>
    let (m, s) := matchT s [TokenType.GREATER, TokenType.GREATER_EQUAL,
      TokenType.LESS, TokenType.LESS_EQUAL]
    if m then
      let operator := previousT s
      match pTerm fuel s with
      | (.ok right, s) => pComparisonLoop fuel (.binary expr operator right) s
      | r => r
    else (.ok expr, s)

def pTerm : Nat → PState → PRes Expr × PState
  | 0, s => (.fuelOut, s)
  | fuel + 1, s =>
    match pFactor fuel s with
    | (.ok expr, s) => pTermLoop fuel expr s
    | r => r

def pTermLoop : Nat → Expr → PState → PRes Expr × PState
  | 0, _, s => (.fuelOut, s)
  | fuel + 1, expr, s =>
    let (m, s) := matchT s [TokenType.PLUS, TokenType.MINUS]
    if m then
      let operator := previousT s
      match pFactor fuel s with
      | (.ok right, s) => pTermLoop fuel (.binary expr operator right) s
      | r => r
    else (.ok expr, s)

def pFactor : Nat → PState → PRes Expr × PState
  | 0, s => (.fuelOut, s)
  | fuel + 1, s =>
    match pUnary fuel s with
    | (.ok expr, s) => pFactorLoop fuel expr s
    | r => r

def pFactorLoop : Nat → Expr → PState → PRes Expr × PState
  | 0, _, s => (.fuelOut, s)
  | fuel + 1, expr, s =>
    let (m, s) := matchT s [TokenType.SLASH, TokenType.STAR]
    if m then
      let operator := previousT s
      match pUnary fuel s with
      | (.ok right, s) => pFactorLoop fuel (.binary expr operator right) s
      | r => r
    else (.ok expr, s)

def pUnary : Nat → PState → PRes Expr × PState
  | 0, s => (.fuelOut, s)
  | fuel + 1, s =>
    let (m, s) := matchT s [TokenType.BANG, TokenType.MINUS]
    if m then
      let operator := previousT s
      match pUnary fuel s with
      | (.ok right, s) => (.ok (.unary operator right), s)
      | r => r
    else pCall fuel s

def pCall : Nat → PState → PRes Expr × PState
  | 0, s => (.fuelOut, s)
  | fuel + 1, s =>
    match pPrimary fuel s with
    | (.ok expr, s) => pCallLoop fuel expr s
    | r => r

def pCallLoop : Nat → Expr → PState → PRes Expr × PState
  | 0, _, s => (.fuelOut, s)
  | fuel + 1, expr, s =>
    let (m, s) := matchT s [TokenType.LEFT_PAREN]
    if m then
      match pFinishCall fuel expr s with
      | (.ok expr, s) => pCallLoop fuel expr s
      | r => r
    else (.ok expr, s)

def pFinishCall : Nat → Expr → PState → PRes Expr × PState
  | 0, _, s => (.fuelOut, s)
  | fuel + 1, callee, s =>
    let argsRes : PRes (List Expr) × PState :=
      if !checkT s TokenType.RIGHT_PAREN then pArgsLoop fuel [] s
      else (.ok [], s)
    match argsRes with
    | (.ok arguments, s) =>
        match consumeT s TokenType.RIGHT_PAREN "Expect ')' after arguments." with
        | (.ok paren, s) => (.ok (.call callee paren arguments), s)
        | (.perr, s) => (.perr, s)
        | (.crash m, s) => (.crash m, s)
        | (.fuelOut, s) => (.fuelOut, s)
    | (.perr, s) => (.perr, s)
    | (.crash m, s) => (.crash m, s)
    | (.fuelOut, s) => (.fuelOut, s)

def pArgsLoop : Nat → List Expr → PState → PRes (List Expr) × PState
  | 0, _, s => (.fuelOut, s)
  | fuel + 1, acc, s =>
    let s := if 255 < acc.length then
        errorP s (peekT s) ("Can" ++ sq ++ "t have more than 255 arguments.")
      else s
    match pExpression fuel s with
    | (.ok arg, s) =>
        let acc := acc ++ [arg]
        let (m, s) := matchT s [TokenType.COMMA]
        if m then pArgsLoop fuel acc s else (.ok acc, s)
    | (.perr, s) => (.perr, s)
    | (.crash m, s) => (.crash m, s)
    | (.fuelOut, s) => (.fuelOut, s)

def pPrimary : Nat → PState → PRes Expr × PState
  | 0, s => (.fuelOut, s)
  | fuel + 1, s =>
    match matchT s [TokenType.FALSE] with
    | (true, s) => (.ok (.literal (PyLit.str "false")), s)
    | (false, s) =>
    match matchT s [TokenType.TRUE] with
    | (true, s) => (.ok (.literal (PyLit.str "true")), s)
    | (false, s) =>
    match matchT s [TokenType.NIL] with
    | (true, s) => (.ok (.literal (PyLit.str "nil")), s)
    | (false, s) =>
    match matchT s [TokenType.NUMBER, TokenType.STRING] with
    | (true, s) => (.ok (.literal (previousT s).literal), s)
    | (false, s) =>
    match matchT s [TokenType.IDENTIFIER] with
    | (true, s) =>
        let name := previousT s
        let (eid, s) := freshEid s
        (.ok (.variableE eid name), s)
    | (false, s) =>
    match matchT s [TokenType.LEFT_PAREN] with
    | (true, s) =>
        (match pExpression fuel s with
         | (.ok expr, s) =>
             match consumeT s TokenType.RIGHT_PAREN
                 "Expect ')' after expression." with
             | (.ok _, s) => (.ok (.grouping expr), s)
             | (.perr, s) => (.perr, s)
             | (.crash m, s) => (.crash m, s)
             | (.fuelOut, s) => (.fuelOut, s)
         | r => r)
    | (false, s) => (.perr, errorP s (peekT s) "Expect expression.")

end

mutual

def pDeclaration : Nat → PState → PRes (Option Stmt) × PState
  | 0, s => (.fuelOut, s)
  | fuel + 1, s =>
    let run : PRes Stmt × PState :=
      let (m, s) := matchT s [TokenType.FUN]
      if m then pFunction fuel "function" s
      else
        let (m, s) := matchT s [TokenType.VAR]
        if m then pVarDeclaration fuel s
        else pStatement fuel s
    match run with
    | (.ok st, s) => (.ok (some st), s)
    | (.perr, s) => (.ok Option.none, synchronize fuel s)
    | (.crash m, s) => (.crash m, s)
    | (.fuelOut, s) => (.fuelOut, s)

def pStatement : Nat → PState → PRes Stmt × PState
  | 0, s => (.fuelOut, s)
  | fuel + 1, s =>
    match matchT s [TokenType.PRINT] with
    | (true, s) => pPrintStatement fuel s
    | (false, s) =>
    match matchT s [TokenType.IF] with
    | (true, s) => pIfStatement fuel s
    | (false, s) =>
    match matchT s [TokenType.WHILE] with
    | (true, s) => pWhileStatement fuel s
    | (false, s) =>
    match matchT s [TokenType.FOR] with
    | (true, s) => pForStatement fuel s
    | (false, s) =>
    match matchT s [TokenType.LEFT_BRACE] with
    | (true, s) =>
        (match pBlock fuel s with
         | (.ok stmts, s) => (.ok (.block stmts), s)
         | (.perr, s) => (.perr, s)
         | (.crash m, s) => (.crash m, s)
         | (.fuelOut, s) => (.fuelOut, s))
    | (false, s) => pExpressionStatement fuel s

def pPrintStatement : Nat → PState → PRes Stmt × PState
  | 0, s => (.fuelOut, s)
  | fuel + 1, s =>
    match pExpression fuel s with
    | (.ok val, s) =>
        match consumeT s TokenType.SEMICOLON "Expect ';' after value." with
        | (.ok _, s) => (.ok (.print val), s)
        | (.perr, s) => (.perr, s)
        | (.crash m, s) => (.crash m, s)
        | (.fuelOut, s) => (.fuelOut, s)
    | (.perr, s) => (.perr, s)
    | (.crash m, s) => (.crash m, s)
    | (.fuelOut, s) => (.fuelOut, s)

def pIfStatement : Nat → PState → PRes Stmt × PState
  | 0, s => (.fuelOut, s)
  | fuel + 1, s =>
    match consumeT s TokenType.LEFT_PAREN "Expect '(' after 'if'." with
    | (.ok _, s) =>
        match pExpression fuel s with
        | (.ok condition, s) =>
            match consumeT s TokenType.RIGHT_PAREN
                "Expect ')' after if condition." with
            | (.ok _, s) =>
                match pStatement fuel s with
                | (.ok then_branch, s) =>
                    let (m, s) := matchT s [TokenType.ELSE]
                    if m then
                      match pStatement fuel s with
                      | (.ok else_branch, s) =>
                          (.ok (.ifS condition then_branch (some else_branch)), s)
                      | (.perr, s) => (.perr, s)
                      | (.crash m, s) => (.crash m, s)
                      | (.fuelOut, s) => (.fuelOut, s)
                    else (.ok (.ifS condition then_branch Option.none), s)
                | (.perr, s) => (.perr, s)
                | (.crash m, s) => (.crash m, s)
                | (.fuelOut, s) => (.fuelOut, s)
            | (.perr, s) => (.perr, s)
            | (.crash m, s) => (.crash m, s)
            | (.fuelOut, s) => (.fuelOut, s)
        | (.perr, s) => (.perr, s)
        | (.crash m, s) => (.crash m, s)
        | (.fuelOut, s) => (.fuelOut, s)
    | (.perr, s) => (.perr, s)
    | (.crash m, s) => (.crash m, s)
    | (.fuelOut, s) => (.fuelOut, s)

def pWhileStatement : Nat → PState → PRes Stmt × PState
  | 0, s => (.fuelOut, s)
  | fuel + 1, s =>
    match consumeT s TokenType.LEFT_PAREN "Expect '(' after 'while'." with
    | (.ok _, s) =>
        match pExpression fuel s with
        | (.ok condition, s) =>
            match consumeT s TokenType.RIGHT_PAREN
                "Expect ')' after while condition." with
            | (.ok _, s) =>
                match pStatement fuel s with
                | (.ok body, s) => (.ok (.whileS condition body), s)
                | (.perr, s) => (.perr, s)
                | (.crash m, s) => (.crash m, s)
                | (.fuelOut, s) => (.fuelOut, s)
            | (.perr, s) => (.perr, s)
            | (.crash m, s) => (.crash m, s)
            | (.fuelOut, s) => (.fuelOut, s)
        | (.perr, s) => (.perr, s)
        | (.crash m, s) => (.crash m, s)
        | (.fuelOut, s) => (.fuelOut, s)
    | (.perr, s) => (.perr, s)
    | (.crash m, s) => (.crash m, s)
    | (.fuelOut, s) => (.fuelOut, s)

def pForStatement : Nat → PState → PRes Stmt × PState
  | 0, s => (.fuelOut, s)
  | fuel + 1, s =>
    match consumeT s TokenType.LEFT_PAREN "Expect '(' after 'for'." with
    | (.ok _, s) =>
        let initRes : PRes (Option Stmt) × PState :=
          let (m, s) := matchT s [TokenType.SEMICOLON]
          if m then (.ok Option.none, s)
          else
            let (m, s) := matchT s [TokenType.VAR]
            if m then
              match pVarDeclaration fuel s with
              | (.ok st, s) => (.ok (some st), s)
              | (.perr, s) => (.perr, s)
              | (.crash m, s) => (.crash m, s)
              | (.fuelOut, s) => (.fuelOut, s)
            else
              match pExpressionStatement fuel s with
              | (.ok st, s) => (.ok (some st), s)
              | (.perr, s) => (.perr, s)
              | (.crash m, s) => (.crash m, s)
              | (.fuelOut, s) => (.fuelOut, s)
        match initRes with
        | (.ok initializer, s) =>
            let condRes : PRes (Option Expr) × PState :=
              if !checkT s TokenType.SEMICOLON then
                match pExpression fuel s with
                | (.ok c, s) => (.ok (some c), s)
                | (.perr, s) => (.perr, s)
                | (.crash m, s) => (.crash m, s)
                | (.fuelOut, s) => (.fuelOut, s)
              else (.ok Option.none, s)
            match condRes with
            | (.ok condition, s) =>
                match consumeT s TokenType.SEMICOLON
                    "Expect ';' after loop condition." with
                | (.ok _, s) =>
                    let incrRes : PRes (Option Expr) × PState :=
                      if !checkT s TokenType.RIGHT_PAREN then
                        match pExpression fuel s with
                        | (.ok e, s) => (.ok (some e), s)
                        | (.perr, s) => (.perr, s)
                        | (.crash m, s) => (.crash m, s)
                        | (.fuelOut, s) => (.fuelOut, s)
                      else (.ok Option.none, s)
                    match incrRes with
                    | (.ok increment, s) =>
                        match consumeT s TokenType.RIGHT_PAREN
                            "expect ')' after for clauses." with
                        | (.ok _, s) =>
                            match pStatement fuel s with
                            | (.ok body, s) =>
                                let body := match increment with
                                  | some inc => Stmt.block [body, .expression inc]
                                  | Option.none => body
                                -- `condition` was only annotated, never
                                -- initialised: an absent condition is an
                                -- UnboundLocalError in the source, and a
                                -- present one is never falsy, so the
                                -- `Literal("true")` default is dead code.
                                match condition with
                                | Option.none =>
                                    (.crash "UnboundLocalError: condition", s)
                                | some c =>
                                    let body := Stmt.whileS c body
                                    let body := match initializer with
                                      | some ini => Stmt.block [ini, body]
                                      | Option.none => body
                                    (.ok body, s)
                            | (.perr, s) => (.perr, s)
                            | (.crash m, s) => (.crash m, s)
                            | (.fuelOut, s) => (.fuelOut, s)
                        | (.perr, s) => (.perr, s)
                        | (.crash m, s) => (.crash m, s)
                        | (.fuelOut, s) => (.fuelOut, s)
                    | (.perr, s) => (.perr, s)
                    | (.crash m, s) => (.crash m, s)
                    | (.fuelOut, s) => (.fuelOut, s)
                | (.perr, s) => (.perr, s)
                | (.crash m, s) => (.crash m, s)
                | (.fuelOut, s) => (.fuelOut, s)
            | (.perr, s) => (.perr, s)
            | (.crash m, s) => (.crash m, s)
            | (.fuelOut, s) => (.fuelOut, s)
        | (.perr, s) => (.perr, s)
        | (.crash m, s) => (.crash m, s)
        | (.fuelOut, s) => (.fuelOut, s)
    | (.perr, s) => (.perr, s)
    | (.crash m, s) => (.crash m, s)
    | (.fuelOut, s) => (.fuelOut, s)

def pBlock : Nat → PState → PRes (List Stmt) × PState
  | 0, s => (.fuelOut, s)
  | fuel + 1, s => pBlockLoop fuel [] s

def pBlockLoop : Nat → List Stmt → PState → PRes (List Stmt) × PState
  | 0, _, s => (.fuelOut, s)
  | fuel + 1, acc, s =>
    if !checkT s TokenType.RIGHT_BRACE && !isAtEndT s then
      match pDeclaration fuel s with
      | (.ok st, s) =>
          let acc := match st with
            | some st => acc ++ [st]
            | Option.none => acc
          pBlockLoop fuel acc s
      | (.perr, s) => (.perr, s)
      | (.crash m, s) => (.crash m, s)
      | (.fuelOut, s) => (.fuelOut, s)
    else
      match consumeT s TokenType.RIGHT_BRACE
          ("Expect " ++ sq ++ "\x7d" ++ sq ++ " after a block.") with
      | (.ok _, s) => (.ok acc, s)
      | (.perr, s) => (.perr, s)
      | (.crash m, s) => (.crash m, s)
      | (.fuelOut, s) => (.fuelOut, s)

def pExpressionStatement : Nat → PState → PRes Stmt × PState
  | 0, s => (.fuelOut, s)
  | fuel + 1, s =>
    match pExpression fuel s with
    | (.ok expr, s) =>
        match consumeT s TokenType.SEMICOLON "Expect ';' after expression." with
        | (.ok _, s) => (.ok (.expression expr), s)
        | (.perr, s) => (.perr, s)
        | (.crash m, s) => (.crash m, s)
        | (.fuelOut, s) => (.fuelOut, s)
    | (.perr, s) => (.perr, s)
    | (.crash m, s) => (.crash m, s)
    | (.fuelOut, s) => (.fuelOut, s)

def pFunction : Nat → String → PState → PRes Stmt × PState
  | 0, _, s => (.fuelOut, s)
  | fuel + 1, kind, s =>
    match consumeT s TokenType.IDENTIFIER ("Expect " ++ kind ++ " name.") with
    | (.ok name, s) =>
        match consumeT s TokenType.LEFT_PAREN
            ("Expected '(' after " ++ kind ++ " name.") with
        | (.ok _, s) =>
            let paramsRes : PRes (List Token) × PState :=
              if !checkT s TokenType.RIGHT_PAREN then pParamsLoop fuel [] s
              else (.ok [], s)
            match paramsRes with
            | (.ok parameters, s) =>
                match consumeT s TokenType.RIGHT_PAREN
                    "Expect ')' after parameters." with
                | (.ok _, s) =>
                    match consumeT s TokenType.LEFT_BRACE
                        ("Expect " ++ sq ++ "\x7b" ++ sq ++ " before " ++ kind ++ " body.") with
                    | (.ok _, s) =>
                        match pBlock fuel s with
                        | (.ok body, s) =>
                            (.ok (.function name parameters body), s)
                        | (.perr, s) => (.perr, s)
                        | (.crash m, s) => (.crash m, s)
                        | (.fuelOut, s) => (.fuelOut, s)
                    | (.perr, s) => (.perr, s)
                    | (.crash m, s) => (.crash m, s)
                    | (.fuelOut, s) => (.fuelOut, s)
                | (.perr, s) => (.perr, s)
                | (.crash m, s) => (.crash m, s)
                | (.fuelOut, s) => (.fuelOut, s)
            | (.perr, s) => (.perr, s)
            | (.crash m, s) => (.crash m, s)
            | (.fuelOut, s) => (.fuelOut, s)
        | (.perr, s) => (.perr, s)
        | (.crash m, s) => (.crash m, s)
        | (.fuelOut, s) => (.fuelOut, s)
    | (.perr, s) => (.perr, s)
    | (.crash m, s) => (.crash m, s)
    | (.fuelOut, s) => (.fuelOut, s)

def pParamsLoop : Nat → List Token → PState → PRes (List Token) × PState
  | 0, _, s => (.fuelOut, s)
  | fuel + 1, acc, s =>
    let s := if 255 < acc.length then
        errorP s (peekT s) ("Can" ++ sq ++ "t have more than 255 parameters.")
      else s
    match consumeT s TokenType.IDENTIFIER "Expect parameter name." with
    | (.ok p, s) =>
        let acc := acc ++ [p]
        let (m, s) := matchT s [TokenType.COMMA]
        if m then pParamsLoop fuel acc s else (.ok acc, s)
    | (.perr, s) => (.perr, s)
    | (.crash m, s) => (.crash m, s)
    | (.fuelOut, s) => (.fuelOut, s)

def pVarDeclaration : Nat → PState → PRes Stmt × PState
  | 0, s => (.fuelOut, s)
  | fuel + 1, s =>
    match consumeT s TokenType.IDENTIFIER "Expect variable name." with
    | (.ok name, s) =>
        let initRes : PRes (Option Expr) × PState :=
          let (m, s) := matchT s [TokenType.EQUAL]
          if m then
            match pExpression fuel s with
            | (.ok e, s) => (.ok (some e), s)
            | (.perr, s) => (.perr, s)
            | (.crash m, s) => (.crash m, s)
            | (.fuelOut, s) => (.fuelOut, s)
          else (.ok Option.none, s)
        match initRes with
        | (.ok initializer, s) =>
            match consumeT s TokenType.SEMICOLON
                "Expect ';' after variable declaration." with
            | (.ok _, s) => (.ok (.var name initializer), s)
            | (.perr, s) => (.perr, s)
            | (.crash m, s) => (.crash m, s)
            | (.fuelOut, s) => (.fuelOut, s)
        | (.perr, s) => (.perr, s)
        | (.crash m, s) => (.crash m, s)
        | (.fuelOut, s) => (.fuelOut, s)
    | (.perr, s) => (.perr, s)
    | (.crash m, s) => (.crash m, s)
    | (.fuelOut, s) => (.fuelOut, s)

end

/-- `Parser.parse_all`. -/
def parseAllLoop : Nat → List Stmt → PState → PRes (List Stmt) × PState
  | 0, _, s => (.fuelOut, s)
  | fuel + 1, acc, s =>
    if !isAtEndT s then
      match pDeclaration fuel s with
      | (.ok st, s) =>
          let acc := match st with
            | some st => acc ++ [st]
            | Option.none => acc
          parseAllLoop fuel acc s
      | (.perr, s) => (.perr, s)
      | (.crash m, s) => (.crash m, s)
      | (.fuelOut, s) => (.fuelOut, s)
    else (.ok acc, s)

def parseAll (fuel : Nat) (tokens : List Token) :
    PRes (List Stmt) × PState :=
  parseAllLoop fuel [] ⟨tokens, 0, [], 0⟩

end Parser

/-! ## Environment (src/app/environment.py)

Environments live in the store `InterpState.envs`; `globals` is index 0.
Chain walks take fuel (the chain is acyclic by construction; callers pass
the store size). -/

def undefinedVarMsgGet (name : String) : String :=
  "Undefined variable " ++ sq ++ name ++ sq ++ "."

/-- The message in `Environment.assign` has no trailing period in the
source, unlike the one in `Environment.get`. -/
def undefinedVarMsgAssign (name : String) : String :=
  "Undefined variable " ++ sq ++ name ++ sq

def getEnv (s : InterpState) (r : Nat) : EnvData := s.envs.getD r ⟨[], Option.none⟩

def setEnv (s : InterpState) (r : Nat) (e : EnvData) : InterpState :=
  { s with envs := s.envs.set r e }

/-- `Environment.define`. -/
def envDefine (s : InterpState) (r : Nat) (name : String) (v : Value) :
    InterpState :=
  let e := getEnv s r
  setEnv s r { e with values := dictSet e.values name v }

/-- `Environment.get`: current map, then the enclosing chain. -/
def envGet : Nat → InterpState → Nat → Token → Res Value
  | 0, _, _, _ => .fuelOut
  | fuel + 1, s, r, name =>
    let e := getEnv s r
    if dictHasKey e.values name.lexeme then
      match dictGet e.values name.lexeme with
      | some v => .ok v
      | Option.none => .pyErr "KeyError"
    else
      match e.enclosing with
      | some enc => envGet fuel s enc name
      | Option.none => .rte name (undefinedVarMsgGet name.lexeme)

/-- `Environment.assign`: assign into the nearest scope holding the name. -/
def envAssign : Nat → InterpState → Nat → Token → Value →
    Res Unit × InterpState
  | 0, s, _, _, _ => (.fuelOut, s)
  | fuel + 1, s, r, name, v =>
    let e := getEnv s r
    if dictHasKey e.values name.lexeme then
      (.ok (), setEnv s r { e with values := dictSet e.values name.lexeme v })
    else
      match e.enclosing with
      | some enc => envAssign fuel s enc name v
      | Option.none => (.rte name (undefinedVarMsgAssign name.lexeme), s)

/-- `Environment._ancestor`: walk exactly `distance` hops; a missing
enclosing environment is the AssertionError in the source. -/
def ancestor (s : InterpState) : Nat → Nat → Option Nat
  | r, 0 => some r
  | r, d + 1 =>
      match (getEnv s r).enclosing with
      | some enc => ancestor s enc d
      | Option.none => Option.none

def assertionMsg : String :=
  "AssertionError: Could not reach designated environment for variable."

/-- `Environment.get_at`: direct dict access on the ancestor map.  The
key is whatever Python object the caller passed: a `str` key can miss
(KeyError), and a `Token` key is rejected outright (the Token dataclass
is unhashable, a TypeError). -/
def envGetAt (s : InterpState) (r : Nat) (distance : Nat) (key : PyKey) :
    Res Value :=
  match ancestor s r distance with
  | Option.none => .pyErr assertionMsg
  | some a =>
      match key with
      | .tok _ => .pyErr "TypeError: unhashable type: Token"
      | .s name =>
          match dictGet (getEnv s a).values name with
          | some v => .ok v
          | Option.none => .pyErr ("KeyError: " ++ sq ++ name ++ sq)

/-- `Environment.assign_at`. -/
def envAssignAt (s : InterpState) (r : Nat) (distance : Nat) (name : Token)
    (v : Value) : Res Unit × InterpState :=
  match ancestor s r distance with
  | Option.none => (.pyErr assertionMsg, s)
  | some a =>
      let e := getEnv s a
      (.ok (), setEnv s a { e with values := dictSet e.values name.lexeme v })

/-! ## Python equality and identity

`==` as evaluated by CPython on the runtime values of the interpreter:
dataclasses (`LoxInstance`, `LoxClass`, `LoxFunction`, `Environment`, the
AST nodes) compare structurally field by field, `None` only equals
`None`, bools equal the numbers 0/1, and a shared environment object
short-circuits by identity.  Unbounded mutual recursion through
isomorphic-but-distinct object graphs is CPython RecursionError, modelled
as fuel exhaustion (`Option.none`). -/

def instDefault : InstData := ⟨.mk 0 "" Option.none [], []⟩

def getInst (s : InterpState) (iid : Nat) : InstData := s.insts.getD iid instDefault

def setInst (s : InterpState) (iid : Nat) (d : InstData) : InterpState :=
  { s with insts := s.insts.set iid d }

mutual

/-- Structural equality of expressions, as Python compares the frozen AST
dataclasses; the embedding-only identity `eid` is not a dataclass field
and is ignored. -/
def exprEq : Expr → Expr → Bool
  | .assign _ n v, .assign _ m w => n = m && exprEq v w
  | .binary l o r, .binary l2 o2 r2 => exprEq l l2 && o = o2 && exprEq r r2
  | .call c p a, .call c2 p2 a2 => exprEq c c2 && p = p2 && exprListEq a a2
  | .grouping e, .grouping e2 => exprEq e e2
  | .literal v, .literal v2 => v = v2
  | .logical l o r, .logical l2 o2 r2 => exprEq l l2 && o = o2 && exprEq r r2
  | .unary o r, .unary o2 r2 => o = o2 && exprEq r r2
  | .variableE _ n, .variableE _ n2 => n = n2
  | .get o n, .get o2 n2 => exprEq o o2 && n = n2
  | .set o n v, .set o2 n2 v2 => exprEq o o2 && n = n2 && exprEq v v2
  | .thisE _ k, .thisE _ k2 => k = k2
  | .superE _ k m, .superE _ k2 m2 => k = k2 && m = m2
  | _, _ => false

def exprListEq : List Expr → List Expr → Bool
  | [], [] => true
  | a :: as1, b :: bs => exprEq a b && exprListEq as1 bs
  | _, _ => false

end

mutual

def stmtEq : Stmt → Stmt → Bool
  | .block a, .block b => stmtListEq a b
  | .expression e, .expression e2 => exprEq e e2
  | .function n p b, .function n2 p2 b2 => n = n2 && p = p2 && stmtListEq b b2
  | .ifS c t e, .ifS c2 t2 e2 =>
      exprEq c c2 && stmtEq t t2 &&
        (match e, e2 with
         | Option.none, Option.none => true
         | some x, some y => stmtEq x y
         | _, _ => false)
  | .print e, .print e2 => exprEq e e2
  | .whileS c b, .whileS c2 b2 => exprEq c c2 && stmtEq b b2
  | .returnS k v, .returnS k2 v2 =>
      k = k2 &&
        (match v, v2 with
         | Option.none, Option.none => true
         | some x, some y => exprEq x y
         | _, _ => false)
  | .var n i, .var n2 i2 =>
      n = n2 &&
        (match i, i2 with
         | Option.none, Option.none => true
         | some x, some y => exprEq x y
         | _, _ => false)
  | .classS n sname m, .classS n2 sname2 m2 =>
      n = n2 && stmtListEq m m2 &&
        (match sname, sname2 with
         | Option.none, Option.none => true
         | some x, some y => exprEq x y
         | _, _ => false)
  | _, _ => false

def stmtListEq : List Stmt → List Stmt → Bool
  | [], [] => true
  | a :: as1, b :: bs => stmtEq a b && stmtListEq as1 bs
  | _, _ => false

end

mutual

/-- Python `==` between two runtime values. -/
def pyEq : Nat → InterpState → Value → Value → Option Bool
  | 0, _, _, _ => Option.none
  | fuel + 1, s, a, b =>
    match a, b with
    | .nil, .nil => some true
    | .nil, _ => some false
    | _, .nil => some false
    | .bool x, .bool y => some (x = y)
    | .bool x, .num n => some (((if x then 1 else 0 : ℚ)) = n.toRat)
    | .num n, .bool x => some (n.toRat = ((if x then 1 else 0 : ℚ)))
    | .num n, .num m => some (n.toRat = m.toRat)
    | .str x, .str y => some (x = y)
    | .clock, .clock => some true
    | .fn f, .fn g => pyFnEq fuel s f g
    | .klass c, .klass d => pyClassEq fuel s c d
    | .inst i, .inst j =>
        let di := getInst s i
        let dj := getInst s j
        match pyClassEq fuel s di.klass dj.klass with
        | some true => pyDictEq fuel s di.fields dj.fields
        | r => r
    | _, _ => some false

/-- Dataclass equality of `LoxFunction`: declaration, closure environment,
`is_initializer`; Python object identity (`fid`) is not a field. -/
def pyFnEq : Nat → InterpState → LoxFunctionV → LoxFunctionV → Option Bool
  | 0, _, _, _ => Option.none
  | fuel + 1, s, f, g =>
    if f.name = g.name && f.params = g.params && stmtListEq f.body g.body
        && (f.is_initializer = g.is_initializer) then
      pyEnvEq fuel s f.closure g.closure
    else some false

/-- Dataclass equality of `Environment`: the identical object
short-circuits; otherwise values map and enclosing chain, recursively. -/
def pyEnvEq : Nat → InterpState → Nat → Nat → Option Bool
  | 0, _, _, _ => Option.none
  | fuel + 1, s, r1, r2 =>
    if r1 = r2 then some true
    else
      match pyDictEq fuel s (getEnv s r1).values (getEnv s r2).values with
      | some true =>
          match (getEnv s r1).enclosing, (getEnv s r2).enclosing with
          | Option.none, Option.none => some true
          | some e1, some e2 => pyEnvEq fuel s e1 e2
          | _, _ => some false
      | r => r

/-- Dataclass equality of `LoxClass`: name, superclass, methods map;
object identity (`cid`) is not a field. -/
def pyClassEq : Nat → InterpState → LoxClassV → LoxClassV → Option Bool
  | 0, _, _, _ => Option.none
  | fuel + 1, s, .mk _ n sup ms, .mk _ n2 sup2 ms2 =>
    if n = n2 then
      match
        (match sup, sup2 with
         | Option.none, Option.none => some true
         | some c1, some c2 => pyClassEq fuel s c1 c2
         | _, _ => some false) with
      | some true => pyMethodsEq fuel s ms ms2
      | r => r
    else some false

/-- Python dict equality for the method maps: same key set, equal values. -/
def pyMethodsEq : Nat → InterpState → List (String × LoxFunctionV) →
    List (String × LoxFunctionV) → Option Bool
  | 0, _, _, _ => Option.none
  | fuel + 1, s, d1, d2 =>
    if d1.length = d2.length then pyMethodsEqLoop fuel s d1 d2
    else some false

def pyMethodsEqLoop : Nat → InterpState → List (String × LoxFunctionV) →
    List (String × LoxFunctionV) → Option Bool
  | 0, _, _, _ => Option.none
  | _ + 1, _, [], _ => some true
  | fuel + 1, s, (k, v) :: rest, d2 =>
    match d2.lookup k with
    | Option.none => some false
    | some w =>
        match pyFnEq fuel s v w with
        | some true => pyMethodsEqLoop fuel s rest d2
        | r => r

/-- Python dict equality for value maps (environment values, instance
fields): same key set, values compared with `==`. -/
def pyDictEq : Nat → InterpState → List (String × Value) →
    List (String × Value) → Option Bool
  | 0, _, _, _ => Option.none
  | fuel + 1, s, d1, d2 =>
    if d1.length = d2.length then pyDictEqLoop fuel s d1 d2
    else some false

def pyDictEqLoop : Nat → InterpState → List (String × Value) →
    List (String × Value) → Option Bool
  | 0, _, _, _ => Option.none
  | _ + 1, _, [], _ => some true
  | fuel + 1, s, (k, v) :: rest, d2 =>
    match dictGet d2 k with
    | Option.none => some false
    | some w =>
        match pyEq fuel s v w with
        | some true => pyDictEqLoop fuel s rest d2
        | r => r

end

/-- Python `is` between runtime values, as used by the equality arms of
`visit_binary_expr`.  Every call site guards with an `isinstance` check
so that at least one side is a bool or a `LoxCallable`; identity between
two numbers or two strings is never consulted. -/
def pyIs (a b : Value) : Bool :=
  match a, b with
  | .nil, .nil => true
  | .bool x, .bool y => x = y
  | .clock, .clock => true
  | .fn f, .fn g => f.fid = g.fid
  | .klass c, .klass d => c.cid = d.cid
  | .inst i, .inst j => i = j
  | _, _ => false

def isCallable : Value → Bool
  | .clock => true
  | .fn _ => true
  | .klass _ => true
  | _ => false

def isBoolV : Value → Bool
  | .bool _ => true
  | _ => false

def isNumV : Value → Bool
  | .num _ => true
  | _ => false

def isStrV : Value → Bool
  | .str _ => true
  | _ => false

/-! ## Callable model (src/app/lox_class.py, src/app/lox_function.py) -/

/-- `LoxClass.find_method`: own map first, then the superclass chain. -/
def findMethod : LoxClassV → String → Option LoxFunctionV
  | .mk _ _ sup methods, name =>
    match methods.lookup name with
    | some m => some m
    | Option.none =>
        match sup with
        | some sc => findMethod sc name
        | Option.none => Option.none

/-- `arity()` of a callable. -/
def arityOf : Value → Nat
  | .clock => 0
  | .fn f => f.params.length
  | .klass c =>
      match findMethod c "init" with
      | some i => i.params.length
      | Option.none => 0
  | _ => 0

/-- `LoxFunction.bind`: a fresh environment binding `this`, wrapped in a
fresh `LoxFunction` object. -/
def bindMethod (s : InterpState) (f : LoxFunctionV) (iid : Nat) :
    LoxFunctionV × InterpState :=
  let envRef := s.envs.length
  let s := { s with
    envs := s.envs ++ [(⟨[("this", Value.inst iid)], some f.closure⟩ : EnvData)] }
  let g : LoxFunctionV :=
    { fid := s.nextId, name := f.name, params := f.params, body := f.body,
      closure := envRef, is_initializer := f.is_initializer }
  (g, { s with nextId := s.nextId + 1 })

/-- `LoxFunction._get_this`: `closure.get_at(0, this_token)` — the key
passed into the string-keyed values dict is the Token object itself. -/
def getThis (s : InterpState) (f : LoxFunctionV) : Res Value :=
  envGetAt s f.closure 0
    (PyKey.tok ⟨TokenType.THIS, "this", PyLit.none, f.name.line⟩)

/-! ## Stringification (`Interpreter._stringify`)

`str` on a Python float is the shortest round-tripping decimal of the
IEEE-754 double; over ℚ the embedding prints the exact terminating
decimal when one exists (which agrees with CPython on the values the
claims exercise) and abstracts the rest. -/

def padZeros (s : String) (w : Nat) : String :=
  String.mk (List.replicate (w - s.length) '0') ++ s

def floatRepr (q : ℚ) : String :=
  let sign := if q < 0 then "-" else ""
  let a := |q|
  if a.den = 1 then sign ++ toString a.num ++ ".0"
  else
    match (List.range 30).find? (fun k => (a * (10 : ℚ) ^ (k + 1)).den = 1) with
    | some k =>
        let scaled := (a * (10 : ℚ) ^ (k + 1)).num.toNat
        let ip := scaled / 10 ^ (k + 1)
        let fp := scaled % 10 ^ (k + 1)
        sign ++ toString ip ++ "." ++ padZeros (toString fp) (k + 1)
    | Option.none => sign ++ "<float>"

def stringify (s : InterpState) (v : Value) : String :=
  match v with
  | .nil => "nil"
  | .bool b => if b then "true" else "false"
  | .num (.int n) => toString n
  | .num (.float q) => floatRepr q
  | .str x => x
  | .clock => "<native fn>"
  | .fn f => "<fn " ++ f.name.lexeme ++ ">"
  | .klass c => c.name
  | .inst iid => (getInst s iid).klass.name ++ " instance"

/-! ## Evaluator (src/app/interpreter.py) -/

/-- `Interpreter.visit_literal_expr`: an integral float literal becomes a
Python int; bools and the rest pass through. -/
def literalValue (l : PyLit) : Value :=
  match l with
  | .num (.float q) => if q.den = 1 then .num (.int q.num) else .num (.float q)
  | .num (.int n) => .num (.int n)
  | .bool b => .bool b
  | .str x => .str x
  | .none => .nil

/-- The `-0` hack of `visit_binary_expr`: an operand `== "-0"` (only the
string `"-0"` is) becomes the int 0 before dispatch. -/
def minusZeroFix (v : Value) : Value :=
  match v with
  | .str x => if x = "-0" then .num (.int 0) else v
  | _ => v

/-- `Interpreter._check_number_operand`: bools are rejected explicitly. -/
def checkNumberOperand (v : Value) : Bool :=
  match v with
  | .num _ => true
  | _ => false

/-- `Interpreter._check_number_operands`: `isinstance(x, (int, float))`,
which in Python accepts bools. -/
def checkNumberOperands (l r : Value) : Bool :=
  (isNumV l || isBoolV l) && (isNumV r || isBoolV r)

/-- A bool operand that passed `_check_number_operands` behaves as 0/1. -/
def asNum (v : Value) : PyNum :=
  match v with
  | .num n => n
  | .bool b => .int (if b then 1 else 0)
  | _ => .int 0

def intDemote (n : PyNum) : Value :=
  if n.isIntegerFloat then
    .num (.int (match n with | .float q => q.num | .int m => m))
  else .num n

def plusErrMsg : String := "Operands must be two numbers or two strings."

/-- `Interpreter.visit_binary_expr` on already evaluated operands. -/
def evalBinaryOp (fuel : Nat) (s : InterpState) (operator : Token)
    (left0 right0 : Value) : Res Value :=
  let left := minusZeroFix left0
  let right := minusZeroFix right0
  match operator.token_type with
  | .PLUS =>
      match left, right with
      | .num n, .num m => .ok (.num (n.add m))
      | .str a, .str b =>
          if a ≠ "true" && a ≠ "false" && a ≠ "nil"
              && b ≠ "true" && b ≠ "false" && b ≠ "nil" then
            .ok (.str (a ++ b))
          else .rte operator plusErrMsg
      | _, _ => .rte operator plusErrMsg
  | .BANG_EQUAL =>
      if isBoolV left || isBoolV right then .ok (.bool (!pyIs left right))
      else
        match pyEq fuel s left right with
        | some b => .ok (.bool !b)
        | Option.none => .pyErr "RecursionError"
  | .EQUAL_EQUAL =>
      if isCallable left || isCallable right
          || isBoolV left || isBoolV right then
        .ok (.bool (pyIs left right))
      else
        match pyEq fuel s left right with
        | some b => .ok (.bool b)
        | Option.none => .pyErr "RecursionError"
  | tt =>
      if checkNumberOperands left right then
        let l := asNum left
        let r := asNum right
        match tt with
        | .MINUS => .ok (intDemote (l.sub r))
        | .STAR => .ok (.num (l.mul r))
        | .SLASH =>
            if r.toRat = 0 then .pyErr "ZeroDivisionError: division by zero"
            else .ok (intDemote (l.div r))
        | .GREATER => .ok (.bool (r.toRat < l.toRat))
        | .GREATER_EQUAL => .ok (.bool (r.toRat ≤ l.toRat))
        | .LESS => .ok (.bool (l.toRat < r.toRat))
        | .LESS_EQUAL => .ok (.bool (l.toRat ≤ r.toRat))
        | _ => .ok .nil
      else .rte operator "Operands must be numbers."

/-- `Interpreter.visit_unary_expr` on the evaluated operand. -/
def evalUnaryOp (operator : Token) (right : Value) : Res Value :=
  match operator.token_type with
  | .BANG => .ok (.bool (!isTruthy right))
  | .MINUS =>
      if checkNumberOperand right then
        match right with
        | .num n => if n.toRat = 0 then .ok (.str "-0") else .ok (.num n.neg)
        | _ => .ok .nil
      else .rte operator "Operand must be a number."
  | _ => .ok .nil

/-- Insertion-ordered dict update for the method table. -/
def dictFnSet (l : List (String × LoxFunctionV)) (k : String)
    (v : LoxFunctionV) : List (String × LoxFunctionV) :=
  match l with
  | [] => [(k, v)]
  | (k0, v0) :: rest =>
      if k0 = k then (k0, v) :: rest else (k0, v0) :: dictFnSet rest k v

/-- Parameter binding loop of `LoxFunction.call`.  A missing argument
would be an IndexError in Python, but the call sites check the arity
first, so both lists always have the same length. -/
def bindParams : InterpState → Nat → List Token → List Value → InterpState
  | s, _, [], _ => s
  | s, _, _ :: _, [] => s
  | s, envRef, p :: ps, a :: as1 =>
      bindParams (envDefine s envRef p.lexeme a) envRef ps as1

/-- `Interpreter._lookup_variable`: with an empty resolution table, a
chain lookup from the current environment; otherwise the recorded
distance or the globals map. -/
def lookupVariable (s : InterpState) (name : Token) (eid : Nat) : Res Value :=
  if s.locals.isEmpty then envGet (s.envs.length + 1) s s.environment name
  else
    match s.locals.lookup eid with
    | Option.none => envGet (s.envs.length + 1) s 0 name
    | some distance => envGetAt s s.environment distance (PyKey.s name.lexeme)

mutual

def evalExpr : Nat → Expr → InterpState → Res Value × InterpState
  | 0, _, s => (.fuelOut, s)
  | fuel + 1, e, s =>
    match e with
    | .literal l => (.ok (literalValue l), s)
    | .grouping inner => evalExpr fuel inner s
    | .logical left operator right =>
        match evalExpr fuel left s with
        | (.ok l, s) =>
            if operator.token_type = TokenType.OR then
              if isTruthy l then (.ok l, s) else evalExpr fuel right s
            else
              if !isTruthy l then (.ok l, s) else evalExpr fuel right s
        | r => r
    | .unary operator right =>
        match evalExpr fuel right s with
        | (.ok rv, s) => (evalUnaryOp operator rv, s)
        | r => r
    | .binary left operator right =>
        match evalExpr fuel left s with
        | (.ok lv, s) =>
            match evalExpr fuel right s with
            | (.ok rv, s) => (evalBinaryOp fuel s operator lv rv, s)
            | r => r
        | r => r
    | .variableE eid name => (lookupVariable s name eid, s)
    | .thisE eid keyword => (lookupVariable s keyword eid, s)
    | .assign eid name value =>
        match evalExpr fuel value s with
        | (.ok v, s) =>
            if s.locals.isEmpty then
              match envAssign (s.envs.length + 1) s s.environment name v with
              | (.ok _, s) => (.ok v, s)
              | (.rte t m, s) => (.rte t m, s)
              | (.ret w, s) => (.ret w, s)
              | (.pyErr m, s) => (.pyErr m, s)
              | (.fuelOut, s) => (.fuelOut, s)
            else
              match s.locals.lookup eid with
              | some distance =>
                  match envAssignAt s s.environment distance name v with
                  | (.ok _, s) => (.ok v, s)
                  | (.rte t m, s) => (.rte t m, s)
                  | (.ret w, s) => (.ret w, s)
                  | (.pyErr m, s) => (.pyErr m, s)
                  | (.fuelOut, s) => (.fuelOut, s)
              | Option.none =>
                  match envAssign (s.envs.length + 1) s 0 name v with
                  | (.ok _, s) => (.ok v, s)
                  | (.rte t m, s) => (.rte t m, s)
                  | (.ret w, s) => (.ret w, s)
                  | (.pyErr m, s) => (.pyErr m, s)
                  | (.fuelOut, s) => (.fuelOut, s)
        | r => r
    | .call callee paren argExprs =>
        match evalExpr fuel callee s with
        | (.ok cv, s) =>
            match evalArgs fuel argExprs s with
            | (.ok args, s) =>
                if !isCallable cv then
                  (.rte paren "Can only call functions and classes.", s)
                else if args.length ≠ arityOf cv then
                  (.rte paren ("Expected " ++ toString (arityOf cv) ++
                    " arguments but got " ++ toString args.length ++ "."), s)
                else
                  match cv with
                  | .clock => (.ok (.num (.float s.clockTime)), s)
                  | .fn f => callFunction fuel f args s
                  | .klass c => callClass fuel c args s
                  | _ => (.ok .nil, s)
            | (.rte t m, s) => (.rte t m, s)
            | (.ret w, s) => (.ret w, s)
            | (.pyErr m, s) => (.pyErr m, s)
            | (.fuelOut, s) => (.fuelOut, s)
        | r => r
    | .get object name =>
        match evalExpr fuel object s with
        | (.ok ov, s) =>
            match ov with
            | .inst iid =>
                let d := getInst s iid
                match dictGet d.fields name.lexeme with
                | some v => (.ok v, s)
                | Option.none =>
                    match findMethod d.klass name.lexeme with
                    | some m =>
                        let (g, s) := bindMethod s m iid
                        (.ok (.fn g), s)
                    | Option.none =>
                        (.rte name ("Undefined property " ++ sq ++
                          name.lexeme ++ sq ++ "."), s)
            | _ => (.rte name "Only instances have properties.", s)
        | r => r
    | .set object name value =>
        match evalExpr fuel object s with
        | (.ok ov, s) =>
            match ov with
            | .inst iid =>
                match evalExpr fuel value s with
                | (.ok v, s) =>
                    let d := getInst s iid
                    let s := setInst s iid
                      { d with fields := dictSet d.fields name.lexeme v }
                    (.ok v, s)
                | r => r
            | _ => (.rte name "Only instances have fields.", s)
        | r => r
    | .superE eid _ methodTok =>
        match s.locals.lookup eid with
        | Option.none => (.pyErr "KeyError: VariableRef", s)
        | some distance =>
            match envGetAt s s.environment distance (PyKey.s "super") with
            | .ok sv =>
                match envGetAt s s.environment (distance - 1) (PyKey.s "this") with
                | .ok ov =>
                    match sv with
                    | .klass sc =>
                        match findMethod sc methodTok.lexeme with
                        | Option.none =>
                            (.rte methodTok ("Undefined property " ++ sq ++
                              methodTok.lexeme ++ sq ++ "."), s)
                        | some m =>
                            match ov with
                            | .inst iid =>
                                let (g, s) := bindMethod s m iid
                                (.ok (.fn g), s)
                            | _ =>
                                (.rte methodTok
                                  "Could not retrieve instace of subclass.", s)
                    | _ => (.pyErr "AttributeError: find_method", s)
                | .rte t m => (.rte t m, s)
                | .ret w => (.ret w, s)
                | .pyErr m => (.pyErr m, s)
                | .fuelOut => (.fuelOut, s)
            | .rte t m => (.rte t m, s)
            | .ret w => (.ret w, s)
            | .pyErr m => (.pyErr m, s)
            | .fuelOut => (.fuelOut, s)

def evalArgs : Nat → List Expr → InterpState → Res (List Value) × InterpState
  | 0, _, s => (.fuelOut, s)
  | _ + 1, [], s => (.ok [], s)
  | fuel + 1, e :: rest, s =>
    match evalExpr fuel e s with
    | (.ok v, s) =>
        match evalArgs fuel rest s with
        | (.ok vs, s) => (.ok (v :: vs), s)
        | (.rte t m, s) => (.rte t m, s)
        | (.ret w, s) => (.ret w, s)
        | (.pyErr m, s) => (.pyErr m, s)
        | (.fuelOut, s) => (.fuelOut, s)
    | (.rte t m, s) => (.rte t m, s)
    | (.ret w, s) => (.ret w, s)
    | (.pyErr m, s) => (.pyErr m, s)
    | (.fuelOut, s) => (.fuelOut, s)

/-- `LoxFunction.call`. -/
def callFunction : Nat → LoxFunctionV → List Value → InterpState →
    Res Value × InterpState
  | 0, _, _, s => (.fuelOut, s)
  | fuel + 1, f, args, s =>
    let envRef := s.envs.length
    let s := { s with envs := s.envs ++ [(⟨[], some f.closure⟩ : EnvData)] }
    let s := bindParams s envRef f.params args
    match execBlock fuel f.body envRef s with
    | (.ret v, s) =>
        if f.is_initializer then (getThis s f, s) else (.ok v, s)
    | (.ok _, s) =>
        if f.is_initializer then (getThis s f, s) else (.ok .nil, s)
    | (.rte t m, s) => (.rte t m, s)
    | (.pyErr m, s) => (.pyErr m, s)
    | (.fuelOut, s) => (.fuelOut, s)

/-- `LoxClass.call`: fresh instance; `init` (when present) is bound and
called, its result discarded; the instance is returned. -/
def callClass : Nat → LoxClassV → List Value → InterpState →
    Res Value × InterpState
  | 0, _, _, s => (.fuelOut, s)
  | fuel + 1, c, args, s =>
    let iid := s.insts.length
    let s := { s with insts := s.insts ++ [(⟨c, []⟩ : InstData)] }
    match findMethod c "init" with
    | some i =>
        let (g, s) := bindMethod s i iid
        match callFunction fuel g args s with
        | (.ok _, s) => (.ok (.inst iid), s)
        | (.rte t m, s) => (.rte t m, s)
        | (.ret w, s) => (.ret w, s)
        | (.pyErr m, s) => (.pyErr m, s)
        | (.fuelOut, s) => (.fuelOut, s)
    | Option.none => (.ok (.inst iid), s)

def execStmt : Nat → Stmt → InterpState → Res Unit × InterpState
  | 0, _, s => (.fuelOut, s)
  | fuel + 1, st, s =>
    match st with
    | .expression e =>
        match evalExpr fuel e s with
        | (.ok _, s) => (.ok (), s)
        | (.rte t m, s) => (.rte t m, s)
        | (.ret w, s) => (.ret w, s)
        | (.pyErr m, s) => (.pyErr m, s)
        | (.fuelOut, s) => (.fuelOut, s)
    | .print e =>
        match evalExpr fuel e s with
        | (.ok v, s) =>
            (.ok (), { s with effects := s.effects ++ [.out (stringify s v)] })
        | (.rte t m, s) => (.rte t m, s)
        | (.ret w, s) => (.ret w, s)
        | (.pyErr m, s) => (.pyErr m, s)
        | (.fuelOut, s) => (.fuelOut, s)
    | .var name initializer =>
        match initializer with
        | some ini =>
            match evalExpr fuel ini s with
            | (.ok v, s) => (.ok (), envDefine s s.environment name.lexeme v)
            | (.rte t m, s) => (.rte t m, s)
            | (.ret w, s) => (.ret w, s)
            | (.pyErr m, s) => (.pyErr m, s)
            | (.fuelOut, s) => (.fuelOut, s)
        | Option.none => (.ok (), envDefine s s.environment name.lexeme .nil)
    | .block stmts =>
        let envRef := s.envs.length
        let s := { s with envs := s.envs ++ [(⟨[], some s.environment⟩ : EnvData)] }
        execBlock fuel stmts envRef s
    | .ifS condition then_branch else_branch =>
        match evalExpr fuel condition s with
        | (.ok c, s) =>
            if isTruthy c then execStmt fuel then_branch s
            else
              match else_branch with
              | some eb => execStmt fuel eb s
              | Option.none => (.ok (), s)
        | (.rte t m, s) => (.rte t m, s)
        | (.ret w, s) => (.ret w, s)
        | (.pyErr m, s) => (.pyErr m, s)
        | (.fuelOut, s) => (.fuelOut, s)
    | .whileS condition body =>
        match evalExpr fuel condition s with
        | (.ok c, s) =>
            if isTruthy c then
              match execStmt fuel body s with
              | (.ok _, s) => execStmt fuel (.whileS condition body) s
              | (.rte t m, s) => (.rte t m, s)
              | (.ret w, s) => (.ret w, s)
              | (.pyErr m, s) => (.pyErr m, s)
              | (.fuelOut, s) => (.fuelOut, s)
            else (.ok (), s)
        | (.rte t m, s) => (.rte t m, s)
        | (.ret w, s) => (.ret w, s)
        | (.pyErr m, s) => (.pyErr m, s)
        | (.fuelOut, s) => (.fuelOut, s)
    | .function name params body =>
        let f : LoxFunctionV :=
          { fid := s.nextId, name := name, params := params, body := body,
            closure := s.environment, is_initializer := false }
        let s := { s with nextId := s.nextId + 1 }
        (.ok (), envDefine s s.environment name.lexeme (.fn f))
    | .returnS _ value =>
        match value with
        | some ve =>
            match evalExpr fuel ve s with
            | (.ok v, s) => (.ret v, s)
            | (.rte t m, s) => (.rte t m, s)
            | (.ret w, s) => (.ret w, s)
            | (.pyErr m, s) => (.pyErr m, s)
            | (.fuelOut, s) => (.fuelOut, s)
        | Option.none => (.ret .nil, s)
    | .classS name superclassE methods =>
        let env0 := s.environment
        let s := envDefine s env0 name.lexeme .nil
        match superclassE with
        | Option.none =>
            match buildMethods fuel s env0 methods [] with
            | (.ok ms, s) =>
                let c := LoxClassV.mk s.nextId name.lexeme Option.none ms
                let s := { s with nextId := s.nextId + 1 }
                match envAssign (s.envs.length + 1) s env0 name (.klass c) with
                | (.ok _, s) => (.ok (), s)
                | (.rte t m, s) => (.rte t m, s)
                | (.ret w, s) => (.ret w, s)
                | (.pyErr m, s) => (.pyErr m, s)
                | (.fuelOut, s) => (.fuelOut, s)
            | (.rte t m, s) => (.rte t m, s)
            | (.ret w, s) => (.ret w, s)
            | (.pyErr m, s) => (.pyErr m, s)
            | (.fuelOut, s) => (.fuelOut, s)
        | some se =>
            match evalExpr fuel se s with
            | (.ok sv, s) =>
                match sv with
                | .klass sc =>
                    let envRef := s.envs.length
                    let s := { s with envs := s.envs ++
                      [(⟨[("super", Value.klass sc)], some env0⟩ : EnvData)] }
                    match buildMethods fuel s envRef methods [] with
                    | (.ok ms, s) =>
                        let c := LoxClassV.mk s.nextId name.lexeme (some sc) ms
                        let s := { s with nextId := s.nextId + 1 }
                        match envAssign (s.envs.length + 1) s env0 name
                            (.klass c) with
                        | (.ok _, s) => (.ok (), s)
                        | (.rte t m, s) => (.rte t m, s)
                        | (.ret w, s) => (.ret w, s)
                        | (.pyErr m, s) => (.pyErr m, s)
                        | (.fuelOut, s) => (.fuelOut, s)
                    | (.rte t m, s) => (.rte t m, s)
                    | (.ret w, s) => (.ret w, s)
                    | (.pyErr m, s) => (.pyErr m, s)
                    | (.fuelOut, s) => (.fuelOut, s)
                | _ =>
                    match se with
                    | .variableE _ n =>
                        (.rte n "Superclass must be a class.", s)
                    | _ => (.pyErr "AttributeError: name", s)
            | (.rte t m, s) => (.rte t m, s)
            | (.ret w, s) => (.ret w, s)
            | (.pyErr m, s) => (.pyErr m, s)
            | (.fuelOut, s) => (.fuelOut, s)

/-- The method-table comprehension of `visit_class_stmt`. -/
def buildMethods : Nat → InterpState → Nat → List Stmt →
    List (String × LoxFunctionV) → Res (List (String × LoxFunctionV)) ×
    InterpState
  | 0, s, _, _, _ => (.fuelOut, s)
  | _ + 1, s, _, [], acc => (.ok acc, s)
  | fuel + 1, s, closureRef, m :: rest, acc =>
    match m with
    | .function mname mparams mbody =>
        let f : LoxFunctionV :=
          { fid := s.nextId, name := mname, params := mparams, body := mbody,
            closure := closureRef, is_initializer := mname.lexeme = "init" }
        let s := { s with nextId := s.nextId + 1 }
        buildMethods fuel s closureRef rest
          (dictFnSet acc mname.lexeme f)
    | _ => (.pyErr "AttributeError: name", s)

def execStmts : Nat → List Stmt → InterpState → Res Unit × InterpState
  | 0, _, s => (.fuelOut, s)
  | _ + 1, [], s => (.ok (), s)
  | fuel + 1, st :: rest, s =>
    match execStmt fuel st s with
    | (.ok _, s) => execStmts fuel rest s
    | (.rte t m, s) => (.rte t m, s)
    | (.ret w, s) => (.ret w, s)
    | (.pyErr m, s) => (.pyErr m, s)
    | (.fuelOut, s) => (.fuelOut, s)

/-- `Interpreter._execute_block`: swap to the given environment, run the
statements, and restore the previous environment in a `finally`, i.e. on
every exit path. -/
def execBlock : Nat → List Stmt → Nat → InterpState → Res Unit × InterpState
  | 0, _, _, s => (.fuelOut, s)
  | fuel + 1, stmts, envRef, s =>
    let previous := s.environment
    let (r, s1) := execStmts fuel stmts { s with environment := envRef }
    (r, { s1 with environment := previous })

end

/-- The interpreter as constructed by `Pylox.__init__`: globals hold the
native clock, the current environment is globals, the resolution table is
empty.  `clockTime` is the value the native clock returns. -/
def initState : InterpState :=
  { envs := [⟨[("clock", Value.clock)], Option.none⟩], insts := [],
    environment := 0, locals := [], nextId := 0, clockTime := 0,
    effects := [] }

/-- `Pylox.runtime_error`: the stderr report for a RuntimeException. -/
def runtimeErrorEffect (t : Token) (msg : String) : Effect :=
  .err (msg ++ " \n[line " ++ toString t.line ++ "]")

/-- `Interpreter.interpret`: evaluate one expression, stringify; a
RuntimeException is reported through the injected reporter (the driver
writes it to stderr) and yields `None`. -/
def interpret (fuel : Nat) (e : Expr) (s : InterpState) :
    Res (Option String) × InterpState :=
  match evalExpr fuel e s with
  | (.ok v, s) => (.ok (some (stringify s v)), s)
  | (.rte t m, s) =>
      (.ok Option.none, { s with effects := s.effects ++ [runtimeErrorEffect t m] })
  | (.ret w, s) => (.ret w, s)
  | (.pyErr m, s) => (.pyErr m, s)
  | (.fuelOut, s) => (.fuelOut, s)

/-- `Interpreter.interpret_all`: execute the statements; a propagating
RuntimeException is reported and absorbed, the `Return` signal and
Python-level crashes propagate. -/
def interpretAll (fuel : Nat) (stmts : List Stmt) (s : InterpState) :
    Res Unit × InterpState :=
  match execStmts fuel stmts s with
  | (.ok _, s) => (.ok (), s)
  | (.rte t m, s) =>
      (.ok (), { s with effects := s.effects ++ [runtimeErrorEffect t m] })
  | (.ret w, s) => (.ret w, s)
  | (.pyErr m, s) => (.pyErr m, s)
  | (.fuelOut, s) => (.fuelOut, s)

/-! ## Resolver (src/app/resolver.py)

The scope stack maps Token keys to variable states; the list head is the
innermost scope (`scopes[-1]`).  CPython cannot actually use Token
objects as dict keys: the Token dataclass is unhashable (eq without
frozen), so every dict write or `.get` with a Token key raises TypeError.
Those operations are modelled as an `Except.error` crash that aborts the
resolver pass; dict iteration (`for token in scope`) does not hash and is
safe. -/

inductive FunctionType where
  | NONE | FUNCTION | INITIALIZER | METHOD
  deriving DecidableEq, Repr

inductive ClassType where
  | NONE | CLASS | SUBCLASS
  deriving DecidableEq, Repr

inductive VarState where
  | DECLARED | DEFINED | IN_USE
  deriving DecidableEq, Repr

structure RState where
  scopes : List (List (Token × VarState))
  currentFunction : FunctionType
  currentClass : ClassType
  unusedVars : List Token
  locals : List (Nat × Nat)
  errors : List (Token × String)

def tokenUnhashable : String := "TypeError: unhashable type: Token"

def rReport (st : RState) (tok : Token) (msg : String) : RState :=
  { st with errors := st.errors ++ [(tok, msg)] }

def localsSet (l : List (Nat × Nat)) (k d : Nat) : List (Nat × Nat) :=
  match l with
  | [] => [(k, d)]
  | (k0, d0) :: rest =>
      if k0 = k then (k0, d) :: rest else (k0, d0) :: localsSet rest k d

/-- Outcome of a resolver visit: normal, a Python-level crash, or fuel
exhaustion (artificial; the source recursion is structural). -/
inductive RRes where
  | ok
  | crash (msg : String)
  | fuelOut
  deriving DecidableEq, Repr

/-- `Resolver._declare` / `_define`: a no-op at global scope; otherwise a
dict write keyed by the Token, which CPython rejects. -/
def rDeclare (st : RState) (_name : Token) : RRes × RState :=
  if st.scopes.isEmpty then (.ok, st) else (.crash tokenUnhashable, st)

def rDefine (st : RState) (_name : Token) : RRes × RState :=
  if st.scopes.isEmpty then (.ok, st) else (.crash tokenUnhashable, st)

def scopeHasLexeme (scope : List (Token × VarState)) (lex : String) : Bool :=
  scope.any fun p => p.1.lexeme = lex

/-- `Resolver._resolve_local`: scan scopes innermost-outwards comparing
lexemes; on a hit, record the distance in the interpreter table and then
mark the entry used — that mark is a dict write keyed by the Token, which
crashes.  (No scope can in fact hold an entry, since `_declare` already
crashes, so the hit branch is dead in any complete run.) -/
def resolveLocalLoop (st : RState) (eid : Nat) (lex : String) :
    List (List (Token × VarState)) → Nat → RRes × RState
  | [], _ => (.ok, st)
  | sc :: rest, i =>
      if scopeHasLexeme sc lex then
        (.crash tokenUnhashable, { st with locals := localsSet st.locals eid i })
      else resolveLocalLoop st eid lex rest (i + 1)

def rResolveLocal (st : RState) (eid : Nat) (name : Token) :
    RRes × RState :=
  resolveLocalLoop st eid name.lexeme st.scopes 0

/-- `Resolver.visit_variable_expr`: when any scope is open, the source
first evaluates `self.scopes[-1].get(expr.name)` — a dict lookup keyed by
the Token, which crashes before the shadow-initializer check can report
anything. -/
def rVisitVariable (st : RState) (eid : Nat) (name : Token) :
    RRes × RState :=
  if !st.scopes.isEmpty then (.crash tokenUnhashable, st)
  else rResolveLocal st eid name

def msgThisOutside : String :=
  "Can" ++ sq ++ "t use " ++ sq ++ "this" ++ sq ++ " outside of a class."

def msgSuperOutside : String :=
  "Can" ++ sq ++ "t use " ++ sq ++ "super" ++ sq ++ " outside of a class."

def msgSuperNoSuper : String :=
  "Can" ++ sq ++ "t use " ++ sq ++ "super" ++ sq ++
    " in a class with no superclass."

def msgTopLevelReturn : String :=
  "Can" ++ sq ++ "t return from top-level code."

def msgReturnFromInit : String :=
  "Can" ++ sq ++ "t return a value from an initializer."

def msgInheritSelf : String :=
  "A class can" ++ sq ++ "t inherit from itself."

def msgUnused : String := "Unused variable."

def rBeginScope (st : RState) : RState := { st with scopes := [] :: st.scopes }

/-- `Resolver._end_scope`: pop the innermost scope and queue entries that
were never marked used. -/
def rEndScope (st : RState) : RState :=
  match st.scopes with
  | [] => st
  | sc :: rest =>
      let fresh := (sc.filter fun p => p.2 ≠ VarState.IN_USE).map Prod.fst
      { st with scopes := rest, unusedVars := st.unusedVars ++ fresh }

def rDeclareParams : RState → List Token → RRes × RState
  | st, [] => (.ok, st)
  | st, p :: rest =>
      match rDeclare st p with
      | (.ok, st) =>
          match rDefine st p with
          | (.ok, st) => rDeclareParams st rest
          | r => r
      | r => r

mutual

def rResolveExpr : Nat → RState → Expr → RRes × RState
  | 0, st, _ => (.fuelOut, st)
  | fuel + 1, st, e =>
    match e with
    | .assign eid name value =>
        match rResolveExpr fuel st value with
        | (.ok, st) => rResolveLocal st eid name
        | r => r
    | .binary left _ right =>
        match rResolveExpr fuel st left with
        | (.ok, st) => rResolveExpr fuel st right
        | r => r
    | .call callee _ args =>
        match rResolveExpr fuel st callee with
        | (.ok, st) => rResolveExprs fuel st args
        | r => r
    | .get object _ => rResolveExpr fuel st object
    | .grouping inner => rResolveExpr fuel st inner
    | .literal _ => (.ok, st)
    | .logical left _ right =>
        match rResolveExpr fuel st left with
        | (.ok, st) => rResolveExpr fuel st right
        | r => r
    | .set object _ value =>
        match rResolveExpr fuel st value with
        | (.ok, st) => rResolveExpr fuel st object
        | r => r
    | .thisE eid keyword =>
        if st.currentClass = ClassType.NONE then
          (.ok, rReport st keyword msgThisOutside)
        else rResolveLocal st eid keyword
    | .superE eid keyword _ =>
        let st :=
          if st.currentClass = ClassType.NONE then
            rReport st keyword msgSuperOutside
          else if st.currentClass = ClassType.CLASS then
            rReport st keyword msgSuperNoSuper
          else st
        rResolveLocal st eid keyword
    | .unary _ right => rResolveExpr fuel st right
    | .variableE eid name => rVisitVariable st eid name

def rResolveExprs : Nat → RState → List Expr → RRes × RState
  | 0, st, _ => (.fuelOut, st)
  | _ + 1, st, [] => (.ok, st)
  | fuel + 1, st, e :: rest =>
      match rResolveExpr fuel st e with
      | (.ok, st) => rResolveExprs fuel st rest
      | r => r

def rResolveStmt : Nat → RState → Stmt → RRes × RState
  | 0, st, _ => (.fuelOut, st)
  | fuel + 1, st, stl =>
    match stl with
    | .block stmts =>
        match rResolveStmts fuel (rBeginScope st) stmts with
        | (.ok, st) => (.ok, rEndScope st)
        | r => r
    | .expression e => rResolveExpr fuel st e
    | .function name params body =>
        match rDeclare st name with
        | (.ok, st) =>
            match rDefine st name with
            | (.ok, st) => rResolveFunction fuel st params body FunctionType.FUNCTION
            | r => r
        | r => r
    | .ifS condition then_branch else_branch =>
        match rResolveExpr fuel st condition with
        | (.ok, st) =>
            match rResolveStmt fuel st then_branch with
            | (.ok, st) =>
                match else_branch with
                | some eb => rResolveStmt fuel st eb
                | Option.none => (.ok, st)
            | r => r
        | r => r
    | .print e => rResolveExpr fuel st e
    | .whileS condition body =>
        match rResolveExpr fuel st condition with
        | (.ok, st) => rResolveStmt fuel st body
        | r => r
    | .returnS keyword value =>
        if st.scopes.length = 0 then
          (.ok, rReport st keyword msgTopLevelReturn)
        else
          match value with
          | some ve =>
              if st.currentFunction = FunctionType.INITIALIZER then
                (.ok, rReport st keyword msgReturnFromInit)
              else rResolveExpr fuel st ve
          | Option.none => (.ok, st)
    | .var name initializer =>
        match rDeclare st name with
        | (.ok, st) =>
            match
              (match initializer with
               | some ini => rResolveExpr fuel st ini
               | Option.none => (.ok, st)) with
            | (.ok, st) => rDefine st name
            | r => r
        | r => r
    | .classS name superclassE _methods =>
        -- the restoration of the enclosing class kind at the end of
        -- `visit_class_stmt` is unreachable: the pass crashes first.
        let st := { st with currentClass := ClassType.CLASS }
        match rDeclare st name with
        | (.ok, st) =>
            match rDefine st name with
            | (.ok, st) =>
                let st :=
                  match superclassE with
                  | some (.variableE _ sn) =>
                      if sn.lexeme = name.lexeme then
                        rReport st name msgInheritSelf
                      else st
                  | _ => st
                match superclassE with
                | some se =>
                    let st := { st with currentClass := ClassType.SUBCLASS }
                    match rResolveExpr fuel st se with
                    | (.ok, st) =>
                        -- `self.scopes[-1][_super] = IN_USE` right after
                        -- `_begin_scope()` hashes a Token: TypeError.  The
                        -- method resolution and scope pops that follow in
                        -- the source are unreachable.
                        (.crash tokenUnhashable, rBeginScope st)
                    | r => r
                | Option.none =>
                    -- `self.scopes[-1][this] = IN_USE` right after
                    -- `_begin_scope()` hashes a Token: TypeError.
                    (.crash tokenUnhashable, rBeginScope st)
            | r => r
        | r => r

def rResolveStmts : Nat → RState → List Stmt → RRes × RState
  | 0, st, _ => (.fuelOut, st)
  | _ + 1, st, [] => (.ok, st)
  | fuel + 1, st, stl :: rest =>
      match rResolveStmt fuel st stl with
      | (.ok, st) => rResolveStmts fuel st rest
      | r => r

/-- `Resolver._resolve_function`: save and set the function kind, open the
parameter scope, declare/define each parameter (a Token-keyed dict write:
crashes when any parameter exists), resolve the body, close the scope and
restore the kind. -/
def rResolveFunction : Nat → RState → List Token → List Stmt →
    FunctionType → RRes × RState
  | 0, st, _, _, _ => (.fuelOut, st)
  | fuel + 1, st, params, body, ftype =>
    let enclosingFunction := st.currentFunction
    let st := rBeginScope { st with currentFunction := ftype }
    match rDeclareParams st params with
    | (.ok, st) =>
        match rResolveStmts fuel st body with
        | (.ok, st) =>
            (.ok, { rEndScope st with currentFunction := enclosingFunction })
        | r => r
    | r => r

end

/-- `Resolver._report_unused_variables`. -/
def rReportUnused (st : RState) : RState :=
  st.unusedVars.reverse.foldl (fun st v => rReport st v msgUnused) st

def initRState : RState :=
  ⟨[], FunctionType.NONE, ClassType.NONE, [], [], []⟩

/-- `Resolver.resolve`: the full pass followed by unused-variable
reporting; a crash aborts before the report. -/
def resolverResolve (fuel : Nat) (stmts : List Stmt) : RRes × RState :=
  match rResolveStmts fuel initRState stmts with
  | (.ok, st) => (.ok, rReportUnused st)
  | r => r

/-! ## Driver (src/app/main.py, `Pylox.run`) -/

/-- `Pylox._report`. -/
def reportEffect (line : Nat) (wher : String) (msg : String) : Effect :=
  .err ("[line " ++ toString line ++ "] Error" ++ wher ++ ": " ++ msg)

/-- `Pylox._token_error`. -/
def tokenErrorEffect (t : Token) (msg : String) : Effect :=
  if t.token_type = TokenType.EOF then reportEffect t.line " at the end" msg
  else reportEffect t.line (" at " ++ sq ++ t.lexeme ++ sq) msg

def scanReports (errs : List (Nat × String)) : List Effect :=
  errs.map fun p => reportEffect p.1 "" p.2

def tokenReports (errs : List (Token × String)) : List Effect :=
  errs.map fun p => tokenErrorEffect p.1 p.2

/-- Overall outcome of one `Pylox.run` call. -/
inductive RunResult where
  | earlyError
  | crashed (msg : String)
  | completed
  | fuelOut
  deriving DecidableEq, Repr

/-- The trailing loop of `Pylox.run`: every top-level `Expression`
statement is interpreted once more and a truthy (non-`None`, non-empty)
stringified result is printed. -/
def runSecondLoop : Nat → List Stmt → InterpState → Res Unit × InterpState
  | 0, _, s => (.fuelOut, s)
  | _ + 1, [], s => (.ok (), s)
  | fuel + 1, st :: rest, s =>
    match st with
    | .expression e =>
        match interpret fuel e s with
        | (.ok res, s) =>
            let s :=
              match res with
              | some r =>
                  if r ≠ "" then { s with effects := s.effects ++ [.out r] }
                  else s
              | Option.none => s
            runSecondLoop fuel rest s
        | (.rte t m, s) => (.rte t m, s)
        | (.ret w, s) => (.ret w, s)
        | (.pyErr m, s) => (.pyErr m, s)
        | (.fuelOut, s) => (.fuelOut, s)
    | _ => runSecondLoop fuel rest s

/-- `Pylox.run`: scan, parse, stop on static errors, resolve, stop on
resolution errors, execute, then re-interpret top-level expression
statements.  Returns the outcome and the chronological effect log. -/
def run (fuel : Nat) (source : String) : RunResult × List Effect :=
  let (tokens, serrs) := Scanner.scanTokens source
  match Parser.parseAll fuel tokens with
  | (.crash m, ps) =>
      (.crashed m, scanReports serrs ++ tokenReports ps.errors)
  | (.fuelOut, ps) =>
      (.fuelOut, scanReports serrs ++ tokenReports ps.errors)
  | (.perr, ps) =>
      (.crashed "unreachable", scanReports serrs ++ tokenReports ps.errors)
  | (.ok stmts, ps) =>
      let staticReports := scanReports serrs ++ tokenReports ps.errors
      if !serrs.isEmpty || !ps.errors.isEmpty then (.earlyError, staticReports)
      else
        match resolverResolve fuel stmts with
        | (.crash m, rst) =>
            (.crashed m, staticReports ++ tokenReports rst.errors)
        | (.fuelOut, rst) =>
            (.fuelOut, staticReports ++ tokenReports rst.errors)
        | (.ok, rst) =>
            let resolveReports := tokenReports rst.errors
            if !rst.errors.isEmpty then
              (.earlyError, staticReports ++ resolveReports)
            else
              let s0 := { initState with locals := rst.locals }
              match interpretAll fuel stmts s0 with
              | (.ok _, s) =>
                  match runSecondLoop fuel stmts s with
                  | (.ok _, s) =>
                      (.completed, staticReports ++ resolveReports ++ s.effects)
                  | (.rte _ _, s) =>
                      (.crashed "unreachable",
                        staticReports ++ resolveReports ++ s.effects)
                  | (.ret _, s) =>
                      (.crashed "Return escaped to top level",
                        staticReports ++ resolveReports ++ s.effects)
                  | (.pyErr m, s) =>
                      (.crashed m, staticReports ++ resolveReports ++ s.effects)
                  | (.fuelOut, s) =>
                      (.fuelOut, staticReports ++ resolveReports ++ s.effects)
              | (.rte _ _, s) =>
                  (.crashed "unreachable",
                    staticReports ++ resolveReports ++ s.effects)
              | (.ret _, s) =>
                  (.crashed "Return escaped to top level",
                    staticReports ++ resolveReports ++ s.effects)
              | (.pyErr m, s) =>
                  (.crashed m, staticReports ++ resolveReports ++ s.effects)
              | (.fuelOut, s) =>
                  (.fuelOut, staticReports ++ resolveReports ++ s.effects)

/-! ## Auxiliary definitions for the verification

Fragment predicates, the execution invariant, claim-side (spec)
definitions for refinement comparisons, and concrete sample inputs. -/

/-- The sixteen keyword kinds of the spec. -/
def isKeywordTT : TokenType → Bool
  | .AND | .CLASS | .ELSE | .FALSE | .FUN | .FOR | .IF | .NIL | .OR
  | .PRINT | .RETURN | .SUPER | .THIS | .TRUE | .VAR | .WHILE => true
  | _ => false

def tokensOK (ts : List Token) : Bool :=
  ts.all fun t => !isKeywordTT t.token_type

/-- The sixteen keyword lexemes (spec section 3). -/
def keywordLexemes : List String :=
  ["and", "class", "else", "false", "fun", "for", "if", "nil",
   "or", "print", "return", "super", "this", "true", "var", "while"]

mutual

/-- Expressions producible by the parser from keyword-free tokens. -/
def fragExpr : Expr → Bool
  | .assign _ _ value => fragExpr value
  | .binary left _ right => fragExpr left && fragExpr right
  | .call callee _ args => fragExpr callee && fragExprList args
  | .grouping inner => fragExpr inner
  | .literal _ => true
  | .logical left _ right => fragExpr left && fragExpr right
  | .unary _ right => fragExpr right
  | .variableE _ _ => true
  | .get _ _ => false
  | .set _ _ _ => false
  | .thisE _ _ => false
  | .superE _ _ _ => false

def fragExprList : List Expr → Bool
  | [] => true
  | e :: rest => fragExpr e && fragExprList rest

end

mutual

/-- Statements producible by the parser from keyword-free tokens:
expression statements and blocks only. -/
def fragStmt : Stmt → Bool
  | .expression e => fragExpr e
  | .block stmts => fragStmtList stmts
  | _ => false

def fragStmtList : List Stmt → Bool
  | [] => true
  | st :: rest => fragStmt st && fragStmtList rest

end

/-- Values with no callable or instance payload (nil, bools, numbers,
strings, the native clock). -/
def SimpleV : Value → Bool
  | .nil => true
  | .bool _ => true
  | .num _ => true
  | .str _ => true
  | .clock => true
  | _ => false

/-- The execution invariant of the keyword-free fragment: the resolution
table is empty, globals is environment 0 with no enclosing environment
and only simple values, every other environment is empty and encloses a
lower-indexed one, and the current environment is a valid reference. -/
structure Inv (s : InterpState) : Prop where
  envsPos : 0 < s.envs.length
  curLt : s.environment < s.envs.length
  localsEmpty : s.locals = []
  globEnclosing : (getEnv s 0).enclosing = Option.none
  globSimple : ∀ kv ∈ (getEnv s 0).values, SimpleV kv.2 = true
  upperEmpty : ∀ i, 0 < i → i < s.envs.length → (getEnv s i).values = []
  upperChain : ∀ i, 0 < i → i < s.envs.length →
    ∃ j, j < i ∧ (getEnv s i).enclosing = some j

/-- Claim-side lookup, from the words of the spec sentence behind C1:
an unresolved name is looked up in the globals environment and a runtime
error is raised exactly when the name is unbound there. -/
def globalsGet (s : InterpState) (name : Token) : Res Value :=
  match dictGet (getEnv s 0).values name.lexeme with
  | some v => .ok v
  | Option.none => .rte name (undefinedVarMsgGet name.lexeme)

/-- Claim-side assignment, from the words of the spec sentence behind C1:
an unresolved name is assigned in the globals environment and a runtime
error is raised exactly when the name is unbound there. -/
def globalsAssign (s : InterpState) (name : Token) (v : Value) :
    Res Unit × InterpState :=
  if dictHasKey (getEnv s 0).values name.lexeme then
    (.ok (), setEnv s 0 { getEnv s 0 with
      values := dictSet (getEnv s 0).values name.lexeme v })
  else (.rte name (undefinedVarMsgAssign name.lexeme), s)

/-! Sample inputs for witnesses and counterexamples. -/

def eqTok : Token := ⟨TokenType.EQUAL_EQUAL, "==", PyLit.none, 1⟩

def neqTok : Token := ⟨TokenType.BANG_EQUAL, "!=", PyLit.none, 1⟩

def plusTok : Token := ⟨TokenType.PLUS, "+", PyLit.none, 1⟩

def trueTok : Token := ⟨TokenType.TRUE, "true", PyLit.none, 1⟩

def falseTok : Token := ⟨TokenType.FALSE, "false", PyLit.none, 1⟩

def nilTok : Token := ⟨TokenType.NIL, "nil", PyLit.none, 1⟩

def eofTok : Token := ⟨TokenType.EOF, "", PyLit.none, 1⟩

def returnTok : Token := ⟨TokenType.RETURN, "return", PyLit.none, 1⟩

def pstOf (ts : List Token) : PState := ⟨ts, 0, [], 0⟩

/-- A class with no superclass, no methods: `class C {}`. -/
def c5Class : LoxClassV := .mk 0 "C" Option.none []

/-- Two distinct instances of the same class with equal (empty) fields. -/
def c5State : InterpState :=
  { initState with insts := [⟨c5Class, []⟩, ⟨c5Class, []⟩] }

/-- The closure of a bound `init` method: `this` is bound at distance 0. -/
def c8State : InterpState :=
  { initState with
    envs := [⟨[("clock", Value.clock)], Option.none⟩,
             ⟨[("this", Value.inst 0)], some 0⟩],
    insts := [⟨c5Class, []⟩] }

/-- An `init` method with an empty body, bound to instance 0. -/
def c8Fn : LoxFunctionV :=
  { fid := 7, name := ⟨TokenType.IDENTIFIER, "init", PyLit.none, 1⟩,
    params := [], body := [], closure := 1, is_initializer := true }

/-- An `init` method whose body is a bare `return;`. -/
def c8FnRet : LoxFunctionV :=
  { c8Fn with body := [.returnS returnTok Option.none] }

/-- `{ return "at the top-level"; }` — a return nested inside a top-level
block but in no function. -/
def c9Prog : List Stmt :=
  [.block [.returnS returnTok (some (.literal (PyLit.str "at the top-level")))]]

def c1src : String := "x = 1;"

def c1tokens : List Token := (Scanner.scanTokens c1src).1

def c1parsed : PRes (List Stmt) × PState := Parser.parseAll 100 c1tokens

def c1stmts : List Stmt :=
  match c1parsed.1 with
  | .ok l => l
  | _ => []

def c1ps : PState := c1parsed.2

def c1rst : RState := (resolverResolve 100 c1stmts).2

def c10src : String := "x = 1;"

def c10tokens : List Token := (Scanner.scanTokens c10src).1

def c10parsed : PRes (List Stmt) × PState := Parser.parseAll 100 c10tokens

def c10stmts : List Stmt :=
  match c10parsed.1 with
  | .ok l => l
  | _ => []

def c10rst : RState := (resolverResolve 100 c10stmts).2

def c10s1 : InterpState :=
  (interpretAll 100 c10stmts { initState with locals := c10rst.locals }).2

def c10s2 : InterpState := (runSecondLoop 100 c10stmts c10s1).2

def resIsRte : Res Value → Bool
  | .rte _ _ => true
  | _ => false

/-- Post-condition bundle for a parser call: the tokens list is
untouched and any ok payload satisfies `P`. -/
def PRok {a : Type} (P : a → Prop) (r : PRes a × PState) (s : PState) : Prop :=
  r.2.tokens = s.tokens ∧ ∀ x s2, r = (.ok x, s2) → P x

/-! # Theorems -/

/-- C2, counterexample: the claim states that every string, including
`"nil"`, is truthy; `Interpreter._is_truthy` classifies the string
`"nil"` as falsy. -/
theorem c2_string_nil_is_falsy : isTruthy (Value.str "nil") = false := rfl

/-- C2, amended: a runtime value is falsy iff it is nil, the boolean
false, or the string `"nil"`; every other value, including the number 0,
the empty string and the string `"false"`, is truthy. -/
theorem c2_truthiness (v : Value) :
    isTruthy v = false ↔ (v = .nil ∨ v = .bool false ∨ v = .str "nil") := by
  cases v with
  | nil => simp [isTruthy]
  | bool b => cases b <;> simp [isTruthy]
  | num n => simp [isTruthy]
  | str s => simp [isTruthy]
  | clock => simp [isTruthy]
  | fn f => simp [isTruthy]
  | klass c => simp [isTruthy]
  | inst i => simp [isTruthy]

/-- C3: for every one of the sixteen keyword lexemes, the scanner emits
an IDENTIFIER token, not a keyword-kind token — `Scanner._identifier`
has no keyword table and the `TokenType` enum of src/app/scanner.py has
no keyword members, although the parser and the scanner's own test-suite
(`test_keywords`) require them. -/
theorem c3_keywords_scan_as_identifiers :
    (keywordLexemes.all fun kw =>
      decide ((Scanner.scanTokens kw).1.map Token.token_type =
        [TokenType.IDENTIFIER, TokenType.EOF])) = true ∧
    (Scanner.scanTokens "and").1 =
      [⟨TokenType.IDENTIFIER, "and", PyLit.none, 1⟩,
       ⟨TokenType.EOF, "", PyLit.none, 1⟩] := by
  exact ⟨by decide, rfl⟩

/-- C4, counterexample: the claim states that parsing `true` yields a
Literal holding the boolean true; `Parser._primary` stores the character
string `"true"`. -/
theorem c4_true_literal_is_string :
    (Parser.pPrimary 5 (pstOf [trueTok, eofTok])).1 =
      .ok (.literal (PyLit.str "true")) ∧
    PyLit.str "true" ≠ PyLit.bool true := ⟨rfl, by decide⟩

theorem checkT_eq_false (s : PState) (tt : TokenType)
    (h : (Parser.peekT s).token_type ≠ tt) : Parser.checkT s tt = false := by
  simp [Parser.checkT, Parser.isAtEndT, h]

theorem checkT_eq_true (s : PState) (tt : TokenType)
    (h : (Parser.peekT s).token_type = tt) (hne : tt ≠ TokenType.EOF) :
    Parser.checkT s tt = true := by
  simp [Parser.checkT, Parser.isAtEndT, h]
  exact fun hh => absurd hh hne

theorem matchT_single_false (s : PState) (tt : TokenType)
    (h : (Parser.peekT s).token_type ≠ tt) :
    Parser.matchT s [tt] = (false, s) := by
  simp [Parser.matchT, checkT_eq_false s tt h]

theorem matchT_single_true (s : PState) (tt : TokenType)
    (h : (Parser.peekT s).token_type = tt) (hne : tt ≠ TokenType.EOF) :
    Parser.matchT s [tt] = (true, (Parser.advanceT s).2) := by
  simp [Parser.matchT, checkT_eq_true s tt h hne]

/-- C4, amended: `Parser._primary` on the keyword tokens `true`, `false`
and `nil` produces Literal nodes storing the character strings `"true"`,
`"false"` and `"nil"` respectively (never booleans or a nil value). -/
theorem c4_primary_keyword_literals :
    (∀ f s, (Parser.peekT s).token_type = TokenType.TRUE →
      (Parser.pPrimary (f + 1) s).1 = .ok (.literal (PyLit.str "true"))) ∧
    (∀ f s, (Parser.peekT s).token_type = TokenType.FALSE →
      (Parser.pPrimary (f + 1) s).1 = .ok (.literal (PyLit.str "false"))) ∧
    (∀ f s, (Parser.peekT s).token_type = TokenType.NIL →
      (Parser.pPrimary (f + 1) s).1 = .ok (.literal (PyLit.str "nil"))) := by
  refine ⟨fun f s h => ?_, fun f s h => ?_, fun f s h => ?_⟩
  · simp only [Parser.pPrimary,
      matchT_single_false s TokenType.FALSE (by simp [h]),
      matchT_single_true s TokenType.TRUE h (by decide)]
  · simp only [Parser.pPrimary,
      matchT_single_true s TokenType.FALSE h (by decide)]
  · simp only [Parser.pPrimary,
      matchT_single_false s TokenType.FALSE (by simp [h]),
      matchT_single_false s TokenType.TRUE (by simp [h]),
      matchT_single_true s TokenType.NIL h (by decide)]

theorem c4_witness :
    (Parser.pPrimary 5 (pstOf [trueTok, eofTok])).1 =
      .ok (.literal (PyLit.str "true")) ∧
    (Parser.pPrimary 5 (pstOf [falseTok, eofTok])).1 =
      .ok (.literal (PyLit.str "false")) ∧
    (Parser.pPrimary 5 (pstOf [nilTok, eofTok])).1 =
      .ok (.literal (PyLit.str "nil")) :=
  ⟨c4_primary_keyword_literals.1 4 (pstOf [trueTok, eofTok]) rfl,
   c4_primary_keyword_literals.2.1 4 (pstOf [falseTok, eofTok]) rfl,
   c4_primary_keyword_literals.2.2 4 (pstOf [nilTok, eofTok]) rfl⟩

/-- C5, counterexample: two distinct instance objects (`pyIs` is false:
different store slots) of the same class with equal (empty) fields
evaluate as `==`-equal, because `LoxInstance` is a plain dataclass and
Python compares it structurally — the claim states that distinct
instances are never `==`-equal. -/
theorem c5_distinct_instances_eq :
    pyIs (.inst 0) (.inst 1) = false ∧
    evalBinaryOp 6 c5State eqTok (.inst 0) (.inst 1) = .ok (.bool true) :=
  ⟨rfl, rfl⟩

/-- C5, amended: `==`/`!=` never raise a RuntimeException; nil equals
only nil; numbers, strings and booleans are compared by value; callables
are compared by reference identity; but instances are compared
structurally (class and fields, as Python dataclass equality), so two
distinct instances with the same class and equal fields are `==`-equal. -/
theorem c5_equality_semantics (f : Nat) (s : InterpState) :
    (∀ l r, resIsRte (evalBinaryOp f s eqTok l r) = false ∧
            resIsRte (evalBinaryOp f s neqTok l r) = false) ∧
    (evalBinaryOp (f + 1) s eqTok .nil .nil = .ok (.bool true)) ∧
    (∀ r, r ≠ .nil →
      evalBinaryOp (f + 1) s eqTok .nil r = .ok (.bool false)) ∧
    (∀ n m, evalBinaryOp (f + 1) s eqTok (.num n) (.num m) =
      .ok (.bool (decide (n.toRat = m.toRat)))) ∧
    (∀ a b, evalBinaryOp (f + 1) s eqTok (.str a) (.str b) =
      .ok (.bool (decide (a = b)))) ∧
    (∀ x y, evalBinaryOp f s eqTok (.bool x) (.bool y) =
      .ok (.bool (decide (x = y)))) ∧
    (∀ g h, evalBinaryOp f s eqTok (.fn g) (.fn h) =
      .ok (.bool (decide (g.fid = h.fid)))) ∧
    (∀ c d, evalBinaryOp f s eqTok (.klass c) (.klass d) =
      .ok (.bool (decide (c.cid = d.cid)))) ∧
    (∀ i j cid cid2 nm,
      getInst s i = ⟨.mk cid nm Option.none [], []⟩ →
      getInst s j = ⟨.mk cid2 nm Option.none [], []⟩ →
      evalBinaryOp (f + 4) s eqTok (.inst i) (.inst j) = .ok (.bool true)) ∧
    (∀ n m, evalBinaryOp (f + 1) s neqTok (.num n) (.num m) =
      .ok (.bool (!decide (n.toRat = m.toRat)))) := by
  refine ⟨fun l r => ⟨?_, ?_⟩, ?_, fun r hr => ?_, fun n m => ?_, fun a b => ?_,
    fun x y => ?_, fun g h => ?_, fun c d => ?_, fun i j cid cid2 nm hi hj => ?_,
    fun n m => ?_⟩
  · simp only [evalBinaryOp, eqTok]
    split
    · rfl
    · split <;> rfl
  · simp only [evalBinaryOp, neqTok]
    split
    · rfl
    · split <;> rfl
  · simp [evalBinaryOp, eqTok, minusZeroFix, isCallable, isBoolV, pyIs, pyEq]
  · cases r with
    | nil => exact absurd rfl hr
    | bool b =>
        cases b <;>
          simp [evalBinaryOp, eqTok, minusZeroFix, isCallable, isBoolV, pyIs]
    | num n =>
        simp [evalBinaryOp, eqTok, minusZeroFix, isCallable, isBoolV, pyEq]
    | str a =>
        by_cases ha : a = "-0" <;>
          simp [evalBinaryOp, eqTok, minusZeroFix, isCallable, isBoolV,
            pyIs, pyEq, ha]
    | clock =>
        simp [evalBinaryOp, eqTok, minusZeroFix, isCallable, isBoolV, pyIs]
    | fn g =>
        simp [evalBinaryOp, eqTok, minusZeroFix, isCallable, isBoolV, pyIs]
    | klass c =>
        simp [evalBinaryOp, eqTok, minusZeroFix, isCallable, isBoolV, pyIs]
    | inst i =>
        simp [evalBinaryOp, eqTok, minusZeroFix, isCallable, isBoolV, pyEq]
  · simp [evalBinaryOp, eqTok, minusZeroFix, isCallable, isBoolV, pyEq]
  · by_cases ha : a = "-0" <;> by_cases hb : b = "-0"
    · subst ha; subst hb
      simp [evalBinaryOp, eqTok, minusZeroFix, isCallable, isBoolV, pyEq]
    · subst ha
      simp [evalBinaryOp, eqTok, minusZeroFix, isCallable, isBoolV, pyEq, hb,
        Ne.symm hb]
    · subst hb
      simp [evalBinaryOp, eqTok, minusZeroFix, isCallable, isBoolV, pyEq, ha,
        Ne.symm ha]
    · simp [evalBinaryOp, eqTok, minusZeroFix, isCallable, isBoolV, pyEq,
        ha, hb]
  · simp [evalBinaryOp, eqTok, minusZeroFix, isCallable, isBoolV, pyIs]
  · simp [evalBinaryOp, eqTok, minusZeroFix, isCallable, isBoolV, pyIs]
  · simp [evalBinaryOp, eqTok, minusZeroFix, isCallable, isBoolV, pyIs]
  · simp [evalBinaryOp, eqTok, minusZeroFix, isCallable, isBoolV, pyEq, hi, hj,
      pyClassEq, pyMethodsEq, pyMethodsEqLoop, pyDictEq, pyDictEqLoop]
  · simp [evalBinaryOp, neqTok, minusZeroFix, isCallable, isBoolV, pyEq]

theorem c5_witness :
    resIsRte (evalBinaryOp 1 initState eqTok (.str "a") .nil) = false ∧
    evalBinaryOp 1 initState eqTok .nil (.num (.int 0)) = .ok (.bool false) ∧
    evalBinaryOp 5 c5State eqTok (.inst 0) (.inst 1) = .ok (.bool true) :=
  ⟨((c5_equality_semantics 1 initState).1 (.str "a") .nil).1,
   (c5_equality_semantics 0 initState).2.2.1 (.num (.int 0)) (by simp),
   (c5_equality_semantics 1 c5State).2.2.2.2.2.2.2.2.1 0 1 0 0 "C" rfl rfl⟩

/-- C6, counterexample: the claim states that `+` concatenates every
pair of string operands; the code rejects the string `"nil"` (and
`"true"`/`"false"`) as a concatenation operand. -/
theorem c6_reserved_string_concat_fails :
    evalBinaryOp 1 initState plusTok (.str "nil") (.str "x") =
      .rte plusTok plusErrMsg ∧
    isStrV (.str "nil") = true ∧ isStrV (.str "x") = true :=
  ⟨rfl, rfl, rfl⟩

/-- C6, amended: `+` adds two numbers; it concatenates two strings only
when neither operand is one of the strings `"true"`, `"false"`, `"nil"`
(an operand equal to the string `"-0"` is first converted to the number
0); every other pair raises "Operands must be two numbers or two
strings." -/
theorem c6_plus_semantics (f : Nat) (s : InterpState) :
    (∀ n m, evalBinaryOp f s plusTok (.num n) (.num m) =
      .ok (.num (n.add m))) ∧
    (∀ a b, a ≠ "true" → a ≠ "false" → a ≠ "nil" → a ≠ "-0" →
      b ≠ "true" → b ≠ "false" → b ≠ "nil" → b ≠ "-0" →
      evalBinaryOp f s plusTok (.str a) (.str b) = .ok (.str (a ++ b))) ∧
    (∀ a b, (a = "true" ∨ a = "false" ∨ a = "nil") →
      evalBinaryOp f s plusTok (.str a) (.str b) = .rte plusTok plusErrMsg) ∧
    (∀ a b, (b = "true" ∨ b = "false" ∨ b = "nil") →
      evalBinaryOp f s plusTok (.str a) (.str b) = .rte plusTok plusErrMsg) ∧
    (∀ l r, ¬ isNumV (minusZeroFix l) = true → ¬ isStrV (minusZeroFix l) = true →
      evalBinaryOp f s plusTok l r = .rte plusTok plusErrMsg) ∧
    (∀ l r, ¬ isNumV (minusZeroFix r) = true → ¬ isStrV (minusZeroFix r) = true →
      evalBinaryOp f s plusTok l r = .rte plusTok plusErrMsg) ∧
    (∀ n b, b ≠ "-0" →
      evalBinaryOp f s plusTok (.num n) (.str b) = .rte plusTok plusErrMsg) ∧
    (∀ n a, a ≠ "-0" →
      evalBinaryOp f s plusTok (.str a) (.num n) = .rte plusTok plusErrMsg) := by
  refine ⟨fun n m => ?_, fun a b h1 h2 h3 h4 h5 h6 h7 h8 => ?_,
    fun a b h => ?_, fun a b h => ?_, fun l r h1 h2 => ?_, fun l r h1 h2 => ?_,
    fun n b h => ?_, fun n a h => ?_⟩
  · simp [evalBinaryOp, plusTok, minusZeroFix]
  · simp [evalBinaryOp, plusTok, minusZeroFix, h1, h2, h3, h4, h5, h6, h7, h8]
  · have ha : a ≠ "-0" := by rcases h with h | h | h <;> subst h <;> decide
    by_cases hb : b = "-0" <;>
      rcases h with h | h | h <;> subst h <;>
      simp_all [evalBinaryOp, plusTok, minusZeroFix]
  · by_cases ha : a = "-0" <;>
      rcases h with h | h | h <;> subst h <;>
      simp_all [evalBinaryOp, plusTok, minusZeroFix]
  · simp only [evalBinaryOp, plusTok]
    generalize hl : minusZeroFix l = lf at h1 h2 ⊢
    generalize hr : minusZeroFix r = rf
    cases lf <;> simp_all [isNumV, isStrV]
  · simp only [evalBinaryOp, plusTok]
    generalize hr : minusZeroFix r = rf at h1 h2 ⊢
    generalize hl : minusZeroFix l = lf
    cases rf <;> simp_all [isNumV, isStrV]
  · simp [evalBinaryOp, plusTok, minusZeroFix, h]
  · simp [evalBinaryOp, plusTok, minusZeroFix, h]

theorem c6_witness :
    evalBinaryOp 1 initState plusTok (.num (.int 2)) (.num (.int 3)) =
      .ok (.num (.int 5)) ∧
    evalBinaryOp 1 initState plusTok (.str "a") (.str "b") = .ok (.str "ab") ∧
    evalBinaryOp 1 initState plusTok (.str "true") (.str "x") =
      .rte plusTok plusErrMsg ∧
    evalBinaryOp 1 initState plusTok (.bool true) (.num (.int 1)) =
      .rte plusTok plusErrMsg :=
  ⟨(c6_plus_semantics 1 initState).1 (.int 2) (.int 3),
   (c6_plus_semantics 1 initState).2.1 "a" "b" (by decide) (by decide)
     (by decide) (by decide) (by decide) (by decide) (by decide) (by decide),
   (c6_plus_semantics 1 initState).2.2.1 "true" "x" (Or.inl rfl),
   (c6_plus_semantics 1 initState).2.2.2.2.1 (.bool true) (.num (.int 1))
     (by decide) (by decide)⟩

/-- C7: executing a `Block` statement leaves the evaluator's current
environment reference exactly as it was before the block, whatever the
outcome (normal completion, a propagating `Return` signal, a runtime
error, or fuel exhaustion) — `_execute_block` restores it in a
`finally`. -/
theorem c7_block_restores_environment (fuel : Nat) (stmts : List Stmt)
    (s : InterpState) :
    ((execStmt fuel (Stmt.block stmts) s).2).environment = s.environment := by
  cases fuel with
  | zero => rfl
  | succ f =>
    simp only [execStmt]
    cases f with
    | zero => rfl
    | succ f2 => simp only [execBlock]

/-- C8: calling an `is_initializer` function crashes instead of
returning the `this` binding: `_get_this` passes the Token object itself
as the key into the string-keyed environment map (`get_at(0, this)`
where `this` is a `Token`), which CPython rejects (the Token dataclass
is unhashable).  This happens both when the body completes normally and
when a bare `return;` unwinds, although `this` is bound at distance 0 in
the closure. -/
theorem c8_initializer_returns_crash :
    (callFunction 10 c8Fn [] c8State).1 = .pyErr tokenUnhashable ∧
    (callFunction 10 c8FnRet [] c8State).1 = .pyErr tokenUnhashable ∧
    dictGet (getEnv c8State 1).values "this" = some (Value.inst 0) ∧
    (callFunction 10 c8Fn [] c8State).1 ≠ .ok (Value.inst 0) := by
  refine ⟨rfl, rfl, rfl, ?_⟩
  intro h
  simp [show (callFunction 10 c8Fn [] c8State).1 = .pyErr tokenUnhashable
    from rfl] at h

/-- C9, counterexample: the claim states a `return` nested inside a
top-level block (but in no function) is reported as "Can't return from
top-level code."; the resolver checks only that the scope stack is
empty, so `{ return "at the top-level"; }` resolves with no error at
all. -/
theorem c9_block_return_not_reported :
    (resolverResolve 10 c9Prog).1 = RRes.ok ∧
    (resolverResolve 10 c9Prog).2.errors = [] := ⟨rfl, rfl⟩

theorem resolveLocalLoop_errors (st : RState) (eid : Nat) (lex : String) :
    ∀ l i, ((resolveLocalLoop st eid lex l i).2).errors = st.errors := by
  intro l
  induction l with
  | nil => intro i; rfl
  | cons sc rest ih =>
      intro i
      simp only [resolveLocalLoop]
      split
      · rfl
      · exact ih (i + 1)

theorem rResolveLocal_errors (st : RState) (eid : Nat) (name : Token) :
    ((rResolveLocal st eid name).2).errors = st.errors :=
  resolveLocalLoop_errors st eid name.lexeme st.scopes 0

theorem rVisitVariable_errors (st : RState) (eid : Nat) (name : Token) :
    ((rVisitVariable st eid name).2).errors = st.errors := by
  unfold rVisitVariable
  split
  · rfl
  · exact rResolveLocal_errors st eid name

theorem topmsg_ne_this : msgTopLevelReturn ≠ msgThisOutside := by decide

theorem topmsg_ne_superOut : msgTopLevelReturn ≠ msgSuperOutside := by decide

theorem topmsg_ne_superNo : msgTopLevelReturn ≠ msgSuperNoSuper := by decide

theorem topmsg_ne_init : msgTopLevelReturn ≠ msgReturnFromInit := by decide

/-- Resolving an expression can report `this`/`super` misuse, but never
adds the message "Can't return from top-level code." -/
theorem rExpr_no_topmsg (fuel : Nat) :
    (∀ st e t, (t, msgTopLevelReturn) ∈ ((rResolveExpr fuel st e).2).errors →
       (t, msgTopLevelReturn) ∈ st.errors) ∧
    (∀ st es t, (t, msgTopLevelReturn) ∈ ((rResolveExprs fuel st es).2).errors →
       (t, msgTopLevelReturn) ∈ st.errors) := by
  induction fuel with
  | zero => exact ⟨fun st e t h => h, fun st es t h => h⟩
  | succ f ih =>
    constructor
    · intro st e t h
      cases e with
      | assign eid name value =>
          rcases hx : rResolveExpr f st value with ⟨res, st2⟩
          refine ih.1 st value t ?_
          rw [hx]
          simp only [rResolveExpr, hx] at h
          cases res <;>
            simp_all [rResolveLocal_errors]
      | binary left op right =>
          rcases hx : rResolveExpr f st left with ⟨res, st2⟩
          refine ih.1 st left t ?_
          rw [hx]
          simp only [rResolveExpr, hx] at h
          cases res <;> simp_all <;> exact ih.1 st2 right t h
      | call callee paren args =>
          rcases hx : rResolveExpr f st callee with ⟨res, st2⟩
          refine ih.1 st callee t ?_
          rw [hx]
          simp only [rResolveExpr, hx] at h
          cases res <;> simp_all <;> exact ih.2 st2 args t h
      | get object name =>
          simp only [rResolveExpr] at h
          exact ih.1 st object t h
      | grouping inner =>
          simp only [rResolveExpr] at h
          exact ih.1 st inner t h
      | literal l =>
          simpa [rResolveExpr] using h
      | logical left op right =>
          rcases hx : rResolveExpr f st left with ⟨res, st2⟩
          refine ih.1 st left t ?_
          rw [hx]
          simp only [rResolveExpr, hx] at h
          cases res <;> simp_all <;> exact ih.1 st2 right t h
      | set object name value =>
          rcases hx : rResolveExpr f st value with ⟨res, st2⟩
          refine ih.1 st value t ?_
          rw [hx]
          simp only [rResolveExpr, hx] at h
          cases res <;> simp_all <;> exact ih.1 st2 object t h
      | thisE eid keyword =>
          simp only [rResolveExpr] at h
          by_cases hc : st.currentClass = ClassType.NONE
          · simp only [hc, if_true] at h
            simp only [rReport] at h
            rcases List.mem_append.mp h with h | h
            · exact h
            · simp at h
              exact absurd h.2 topmsg_ne_this
          · simp only [hc, if_false] at h
            rwa [rResolveLocal_errors] at h
      | superE eid keyword m =>
          simp only [rResolveExpr] at h
          by_cases h1 : st.currentClass = ClassType.NONE
          · simp only [h1, if_true] at h
            rw [rResolveLocal_errors] at h
            simp only [rReport] at h
            rcases List.mem_append.mp h with h | h
            · exact h
            · simp at h
              exact absurd h.2 topmsg_ne_superOut
          · by_cases h2 : st.currentClass = ClassType.CLASS
            · simp only [h1, h2, if_false, if_true] at h
              rw [rResolveLocal_errors] at h
              simp only [rReport] at h
              rcases List.mem_append.mp h with h | h
              · exact h
              · simp at h
                exact absurd h.2 topmsg_ne_superNo
            · simp only [h1, h2, if_false] at h
              rwa [rResolveLocal_errors] at h
      | unary op right =>
          simp only [rResolveExpr] at h
          exact ih.1 st right t h
      | variableE eid name =>
          simp only [rResolveExpr] at h
          rwa [rVisitVariable_errors] at h
    · intro st es t h
      cases es with
      | nil => simpa [rResolveExprs] using h
      | cons e rest =>
          rcases hx : rResolveExpr f st e with ⟨res, st2⟩
          refine ih.1 st e t ?_
          rw [hx]
          simp only [rResolveExprs, hx] at h
          cases res <;> simp_all <;> exact ih.2 st2 rest t h

/-- C9, amended: the resolver reports "Can't return from top-level
code." for a return statement exactly when the scope stack is empty at
that statement — i.e. only for a return at the very top level, outside
every block, function and class scope; a return nested inside a
top-level block is not reported. -/
theorem c9_return_error_iff_scopes_empty (fuel : Nat) (st : RState)
    (kw : Token) (v : Option Expr) (herr : st.errors = []) :
    ((kw, msgTopLevelReturn) ∈
      ((rResolveStmt (fuel + 1) st (.returnS kw v)).2).errors)
      ↔ st.scopes = [] := by
  simp only [rResolveStmt]
  by_cases hs : st.scopes.length = 0
  · have hnil : st.scopes = [] := List.length_eq_zero.mp hs
    simp [hs, rReport, herr, hnil]
  · have hne : st.scopes ≠ [] := fun hh => hs (by simp [hh])
    simp only [hs, if_false]
    cases v with
    | none => simp [herr, hne]
    | some ve =>
        by_cases hf : st.currentFunction = FunctionType.INITIALIZER
        · simp [hf, rReport, herr, hne, Prod.ext_iff, topmsg_ne_init]
        · simp only [hf, if_false]
          constructor
          · intro h
            have := (rExpr_no_topmsg fuel).1 st ve kw h
            rw [herr] at this
            simp at this
          · intro h
            exact absurd h hne

theorem c9_witness :
    ((returnTok, msgTopLevelReturn) ∈
      ((rResolveStmt 1 initRState (.returnS returnTok Option.none)).2).errors)
      ↔ initRState.scopes = [] :=
  c9_return_error_iff_scopes_empty 0 initRState returnTok Option.none rfl

theorem resolveLocalLoop_ok (st : RState) (eid : Nat) (lex : String) :
    ∀ l i st2, resolveLocalLoop st eid lex l i = (RRes.ok, st2) → st2 = st := by
  intro l
  induction l with
  | nil =>
      intro i st2 h
      injection h with _ h2
      exact h2.symm
  | cons sc rest ih =>
      intro i st2 h
      simp only [resolveLocalLoop] at h
      split at h
      · exact absurd (congrArg Prod.fst h) (by simp)
      · exact ih (i + 1) st2 h

theorem rResolveLocal_ok (st : RState) (eid : Nat) (name : Token)
    (st2 : RState) (h : rResolveLocal st eid name = (RRes.ok, st2)) :
    st2 = st :=
  resolveLocalLoop_ok st eid name.lexeme st.scopes 0 st2 h

theorem rVisitVariable_ok (st : RState) (eid : Nat) (name : Token)
    (st2 : RState) (h : rVisitVariable st eid name = (RRes.ok, st2)) :
    st2 = st := by
  unfold rVisitVariable at h
  split at h
  · exact absurd (congrArg Prod.fst h) (by simp)
  · exact rResolveLocal_ok st eid name st2 h

theorem rDeclare_ok (st : RState) (name : Token) (st2 : RState)
    (h : rDeclare st name = (RRes.ok, st2)) : st2 = st := by
  unfold rDeclare at h
  split at h
  · injection h with _ h2
    exact h2.symm
  · exact absurd (congrArg Prod.fst h) (by simp)

theorem rDefine_ok (st : RState) (name : Token) (st2 : RState)
    (h : rDefine st name = (RRes.ok, st2)) : st2 = st := by
  unfold rDefine at h
  split at h
  · injection h with _ h2
    exact h2.symm
  · exact absurd (congrArg Prod.fst h) (by simp)

/-- Sequencing principle for the `match … with | (.ok, st) => k st | r => r`
shape used throughout the resolver: an overall ok result factors through
an ok intermediate state. -/
theorem seqOk (first : RRes × RState) (k : RState → RRes × RState)
    (st2 : RState)
    (h : (match first with
          | (RRes.ok, st) => k st
          | r => r) = (RRes.ok, st2)) :
    ∃ stx, first = (RRes.ok, stx) ∧ k stx = (RRes.ok, st2) := by
  rcases first with ⟨r, stx⟩
  cases r with
  | ok => exact ⟨stx, rfl, h⟩
  | crash m => exact absurd (congrArg Prod.fst h) (by simp)
  | fuelOut => exact absurd (congrArg Prod.fst h) (by simp)

theorem rDeclareParams_ok (params : List Token) :
    ∀ st st2, rDeclareParams st params = (RRes.ok, st2) → st2 = st := by
  induction params with
  | nil =>
      intro st st2 h
      injection h with _ h2
      exact h2.symm
  | cons p rest ih =>
      intro st st2 h
      simp only [rDeclareParams] at h
      obtain ⟨sta, ha, h⟩ := seqOk (rDeclare st p) _ st2 h
      obtain ⟨stb, hb, h⟩ := seqOk (rDefine sta p) _ st2 h
      rw [ih stb st2 h, rDefine_ok sta p stb hb, rDeclare_ok st p sta ha]

theorem rReport_locals (st : RState) (t : Token) (m : String) :
    (rReport st t m).locals = st.locals := rfl

theorem rBeginScope_locals (st : RState) :
    (rBeginScope st).locals = st.locals := rfl

theorem rEndScope_locals (st : RState) :
    (rEndScope st).locals = st.locals := by
  unfold rEndScope
  split <;> rfl

/-- A resolver pass that completes without crashing has never hit a
scope entry in `_resolve_local` (any hit crashes on the Token-keyed dict
write), so the resolution table it hands the interpreter is exactly the
one it started with. -/
theorem rLocals_preserved (fuel : Nat) :
    (∀ st e st2, rResolveExpr fuel st e = (RRes.ok, st2) →
      st2.locals = st.locals) ∧
    (∀ st es st2, rResolveExprs fuel st es = (RRes.ok, st2) →
      st2.locals = st.locals) ∧
    (∀ st stl st2, rResolveStmt fuel st stl = (RRes.ok, st2) →
      st2.locals = st.locals) ∧
    (∀ st sts st2, rResolveStmts fuel st sts = (RRes.ok, st2) →
      st2.locals = st.locals) ∧
    (∀ st params body ft st2,
      rResolveFunction fuel st params body ft = (RRes.ok, st2) →
      st2.locals = st.locals) := by
  induction fuel with
  | zero =>
      refine ⟨fun st e st2 h => ?_, fun st es st2 h => ?_,
        fun st stl st2 h => ?_, fun st sts st2 h => ?_,
        fun st p b ft st2 h => ?_⟩ <;>
        exact absurd (congrArg Prod.fst h) (by simp [rResolveExpr,
          rResolveExprs, rResolveStmt, rResolveStmts, rResolveFunction])
  | succ f ih =>
    obtain ⟨ihE, ihEs, ihS, ihSs, ihF⟩ := ih
    refine ⟨fun st e st2 h => ?_, fun st es st2 h => ?_,
      fun st stl st2 h => ?_, fun st sts st2 h => ?_,
      fun st p b ft st2 h => ?_⟩
    · cases e with
      | assign eid name value =>
          simp only [rResolveExpr] at h
          obtain ⟨sta, ha, h⟩ := seqOk (rResolveExpr f st value) _ st2 h
          rw [rResolveLocal_ok sta eid name st2 h]
          exact ihE st value sta ha
      | binary left op right =>
          simp only [rResolveExpr] at h
          obtain ⟨sta, ha, h⟩ := seqOk (rResolveExpr f st left) _ st2 h
          rw [ihE sta right st2 h]
          exact ihE st left sta ha
      | call callee paren args =>
          simp only [rResolveExpr] at h
          obtain ⟨sta, ha, h⟩ := seqOk (rResolveExpr f st callee) _ st2 h
          rw [ihEs sta args st2 h]
          exact ihE st callee sta ha
      | get object name =>
          simp only [rResolveExpr] at h
          exact ihE st object st2 h
      | grouping inner =>
          simp only [rResolveExpr] at h
          exact ihE st inner st2 h
      | literal l =>
          simp only [rResolveExpr] at h
          injection h with _ h2
          rw [← h2]
      | logical left op right =>
          simp only [rResolveExpr] at h
          obtain ⟨sta, ha, h⟩ := seqOk (rResolveExpr f st left) _ st2 h
          rw [ihE sta right st2 h]
          exact ihE st left sta ha
      | set object name value =>
          simp only [rResolveExpr] at h
          obtain ⟨sta, ha, h⟩ := seqOk (rResolveExpr f st value) _ st2 h
          rw [ihE sta object st2 h]
          exact ihE st value sta ha
      | thisE eid keyword =>
          simp only [rResolveExpr] at h
          split at h
          · injection h with _ h2
            rw [← h2]
            rfl
          · rw [rResolveLocal_ok st eid keyword st2 h]
      | superE eid keyword m =>
          simp only [rResolveExpr] at h
          split at h
          · rw [rResolveLocal_ok _ eid keyword st2 h]
            rfl
          · split at h
            · rw [rResolveLocal_ok _ eid keyword st2 h]
              rfl
            · rw [rResolveLocal_ok _ eid keyword st2 h]
      | unary op right =>
          simp only [rResolveExpr] at h
          exact ihE st right st2 h
      | variableE eid name =>
          simp only [rResolveExpr] at h
          rw [rVisitVariable_ok st eid name st2 h]
    · cases es with
      | nil =>
          simp only [rResolveExprs] at h
          injection h with _ h2
          rw [← h2]
      | cons e rest =>
          simp only [rResolveExprs] at h
          obtain ⟨sta, ha, h⟩ := seqOk (rResolveExpr f st e) _ st2 h
          rw [ihEs sta rest st2 h]
          exact ihE st e sta ha
    · cases stl with
      | block stmts =>
          simp only [rResolveStmt] at h
          obtain ⟨sta, ha, h⟩ :=
            seqOk (rResolveStmts f (rBeginScope st) stmts) _ st2 h
          injection h with _ h2
          rw [← h2, rEndScope_locals, ihSs (rBeginScope st) stmts sta ha]
          rfl
      | expression e =>
          simp only [rResolveStmt] at h
          exact ihE st e st2 h
      | function name params body =>
          simp only [rResolveStmt] at h
          obtain ⟨sta, ha, h⟩ := seqOk (rDeclare st name) _ st2 h
          obtain ⟨stb, hb, h⟩ := seqOk (rDefine sta name) _ st2 h
          rw [ihF stb params body FunctionType.FUNCTION st2 h,
            rDefine_ok sta name stb hb, rDeclare_ok st name sta ha]
      | ifS condition then_branch else_branch =>
          simp only [rResolveStmt] at h
          obtain ⟨sta, ha, h⟩ := seqOk (rResolveExpr f st condition) _ st2 h
          obtain ⟨stb, hb, h⟩ := seqOk (rResolveStmt f sta then_branch) _ st2 h
          have hcond := ihE st condition sta ha
          have hthen := ihS sta then_branch stb hb
          cases else_branch with
          | none =>
              injection h with _ h2
              rw [← h2, hthen, hcond]
          | some eb =>
              rw [ihS stb eb st2 h, hthen, hcond]
      | print e =>
          simp only [rResolveStmt] at h
          exact ihE st e st2 h
      | whileS condition body =>
          simp only [rResolveStmt] at h
          obtain ⟨sta, ha, h⟩ := seqOk (rResolveExpr f st condition) _ st2 h
          rw [ihS sta body st2 h]
          exact ihE st condition sta ha
      | returnS keyword value =>
          simp only [rResolveStmt] at h
          split at h
          · injection h with _ h2
            rw [← h2]
            rfl
          · cases value with
            | some ve =>
                simp only at h
                split at h
                · injection h with _ h2
                  rw [← h2]
                  rfl
                · exact ihE st ve st2 h
            | none =>
                simp only at h
                injection h with _ h2
                rw [← h2]
      | var name initializer =>
          simp only [rResolveStmt] at h
          obtain ⟨sta, ha, h⟩ := seqOk (rDeclare st name) _ st2 h
          cases initializer with
          | some ini =>
              obtain ⟨stb, hb, h⟩ := seqOk (rResolveExpr f sta ini) _ st2 h
              rw [rDefine_ok stb name st2 h, ihE sta ini stb hb,
                rDeclare_ok st name sta ha]
          | none =>
              rw [rDefine_ok sta name st2 h, rDeclare_ok st name sta ha]
      | classS name superclassE methods =>
          simp only [rResolveStmt] at h
          obtain ⟨sta, ha, h⟩ := seqOk
            (rDeclare { st with currentClass := ClassType.CLASS } name) _ st2 h
          obtain ⟨stb, hb, h⟩ := seqOk (rDefine sta name) _ st2 h
          cases superclassE with
          | some se =>
              obtain ⟨stc, hc, h⟩ := seqOk (rResolveExpr f _ se) _ st2 h
              exact absurd (congrArg Prod.fst h) (by simp)
          | none =>
              exact absurd (congrArg Prod.fst h) (by simp)
    · cases sts with
      | nil =>
          simp only [rResolveStmts] at h
          injection h with _ h2
          rw [← h2]
      | cons stl rest =>
          simp only [rResolveStmts] at h
          obtain ⟨sta, ha, h⟩ := seqOk (rResolveStmt f st stl) _ st2 h
          rw [ihSs sta rest st2 h]
          exact ihS st stl sta ha
    · simp only [rResolveFunction] at h
      obtain ⟨sta, ha, h⟩ := seqOk
        (rDeclareParams (rBeginScope { st with currentFunction := ft }) p)
        _ st2 h
      obtain ⟨stb, hb, h⟩ := seqOk (rResolveStmts f sta b) _ st2 h
      injection h with _ h2
      rw [← h2]
      show (rEndScope stb).locals = st.locals
      rw [rEndScope_locals, ihSs sta b stb hb,
        rDeclareParams_ok p _ sta ha]
      rfl

theorem addToken_ok (s : ScanState) (tt : TokenType) (lit : PyLit)
    (h : tokensOK s.tokens = true) (htt : isKeywordTT tt = false) :
    tokensOK (Scanner.addToken s tt lit).tokens = true := by
  simp only [Scanner.addToken, tokensOK, List.all_append, List.all_cons,
    List.all_nil, Bool.and_true, Bool.and_eq_true]
  exact ⟨h, by simp [htt]⟩

theorem report_tokens (s : ScanState) (m : String) :
    (Scanner.report s m).tokens = s.tokens := rfl

theorem matchC_tokens (s : ScanState) (c : Char) :
    ((Scanner.matchC s c).2).tokens = s.tokens := by
  unfold Scanner.matchC
  split
  · rfl
  · split <;> rfl

theorem commentLoop_tokens (f : Nat) :
    ∀ s, (Scanner.commentLoop f s).tokens = s.tokens := by
  induction f with
  | zero => intro s; rfl
  | succ f ih =>
      intro s
      unfold Scanner.commentLoop
      split
      · exact ih _
      · rfl

theorem stringLoop_tokens (f : Nat) :
    ∀ s, (Scanner.stringLoop f s).tokens = s.tokens := by
  induction f with
  | zero => intro s; rfl
  | succ f ih =>
      intro s
      unfold Scanner.stringLoop
      split
      · split <;> exact ih _
      · rfl

theorem digitLoop_tokens (f : Nat) :
    ∀ s, (Scanner.digitLoop f s).tokens = s.tokens := by
  induction f with
  | zero => intro s; rfl
  | succ f ih =>
      intro s
      unfold Scanner.digitLoop
      split
      · exact ih _
      · rfl

theorem identLoop_tokens (f : Nat) :
    ∀ s, (Scanner.identLoop f s).tokens = s.tokens := by
  induction f with
  | zero => intro s; rfl
  | succ f ih =>
      intro s
      unfold Scanner.identLoop
      split
      · exact ih _
      · rfl

theorem stringTok_ok (f : Nat) (s : ScanState)
    (h : tokensOK s.tokens = true) :
    tokensOK (Scanner.stringTok f s).tokens = true := by
  unfold Scanner.stringTok
  have hl : tokensOK (Scanner.stringLoop f s).tokens = true := by
    rw [stringLoop_tokens]; exact h
  dsimp only
  split
  · rw [report_tokens]; exact hl
  · exact addToken_ok _ _ _ hl rfl

theorem numberTok_ok (f : Nat) (s : ScanState)
    (h : tokensOK s.tokens = true) :
    tokensOK (Scanner.numberTok f s).tokens = true := by
  unfold Scanner.numberTok
  have h1 : tokensOK (Scanner.digitLoop f s).tokens = true := by
    rw [digitLoop_tokens]; exact h
  dsimp only
  split
  · refine addToken_ok _ _ _ ?_ rfl
    rw [digitLoop_tokens]
    exact h1
  · exact addToken_ok _ _ _ h1 rfl

theorem identifier_ok (f : Nat) (s : ScanState)
    (h : tokensOK s.tokens = true) :
    tokensOK (Scanner.identifier f s).tokens = true := by
  unfold Scanner.identifier
  refine addToken_ok _ _ _ ?_ rfl
  rw [identLoop_tokens]
  exact h

/-- `Scanner._scan_token` only ever appends non-keyword tokens: there is
no keyword table. -/
theorem scanToken_ok (f : Nat) (s : ScanState)
    (h : tokensOK s.tokens = true) :
    tokensOK (Scanner.scanToken f s).tokens = true := by
  rcases ha : Scanner.advance s with ⟨c, s2⟩
  have hadv : tokensOK s2.tokens = true := by
    have h2 : s2 = (Scanner.advance s).2 := by rw [ha]
    rw [h2]
    exact h
  rcases hm1 : Scanner.matchC s2 (Char.ofNat 61) with ⟨m1, t1⟩
  rcases hm2 : Scanner.matchC s2 (Char.ofNat 47) with ⟨m2, t2⟩
  have ht1 : tokensOK t1.tokens = true := by
    have h2 : t1 = (Scanner.matchC s2 (Char.ofNat 61)).2 := by rw [hm1]
    rw [h2, matchC_tokens]
    exact hadv
  have ht2 : tokensOK t2.tokens = true := by
    have h2 : t2 = (Scanner.matchC s2 (Char.ofNat 47)).2 := by rw [hm2]
    rw [h2, matchC_tokens]
    exact hadv
  unfold Scanner.scanToken
  rw [ha]
  dsimp only
  rw [show ('=' : Char) = Char.ofNat 61 from rfl,
    show ('/' : Char) = Char.ofNat 47 from rfl, hm1, hm2]
  dsimp only
  by_cases h1 : c = '('
  · rw [if_pos h1]
    apply addToken_ok _ _ _ hadv
    rfl
  rw [if_neg h1]
  by_cases h2 : c = ')'
  · rw [if_pos h2]
    apply addToken_ok _ _ _ hadv
    rfl
  rw [if_neg h2]
  by_cases h3 : c = '{'
  · rw [if_pos h3]
    apply addToken_ok _ _ _ hadv
    rfl
  rw [if_neg h3]
  by_cases h4 : c = '}'
  · rw [if_pos h4]
    apply addToken_ok _ _ _ hadv
    rfl
  rw [if_neg h4]
  by_cases h5 : c = ','
  · rw [if_pos h5]
    apply addToken_ok _ _ _ hadv
    rfl
  rw [if_neg h5]
  by_cases h6 : c = '.'
  · rw [if_pos h6]
    apply addToken_ok _ _ _ hadv
    rfl
  rw [if_neg h6]
  by_cases h7 : c = '-'
  · rw [if_pos h7]
    apply addToken_ok _ _ _ hadv
    rfl
  rw [if_neg h7]
  by_cases h8 : c = '+'
  · rw [if_pos h8]
    apply addToken_ok _ _ _ hadv
    rfl
  rw [if_neg h8]
  by_cases h9 : c = ';'
  · rw [if_pos h9]
    apply addToken_ok _ _ _ hadv
    rfl
  rw [if_neg h9]
  by_cases h10 : c = '*'
  · rw [if_pos h10]
    apply addToken_ok _ _ _ hadv
    rfl
  rw [if_neg h10]
  by_cases h11 : c = '!'
  · rw [if_pos h11]
    cases m1
    · rw [if_neg Bool.false_ne_true]
      apply addToken_ok _ _ _ ht1
      rfl
    · rw [if_pos rfl]
      apply addToken_ok _ _ _ ht1
      rfl
  rw [if_neg h11]
  by_cases h12 : c = Char.ofNat 61
  · rw [if_pos h12]
    cases m1
    · rw [if_neg Bool.false_ne_true]
      apply addToken_ok _ _ _ ht1
      rfl
    · rw [if_pos rfl]
      apply addToken_ok _ _ _ ht1
      rfl
  rw [if_neg h12]
  by_cases h13 : c = '>'
  · rw [if_pos h13]
    cases m1
    · rw [if_neg Bool.false_ne_true]
      apply addToken_ok _ _ _ ht1
      rfl
    · rw [if_pos rfl]
      apply addToken_ok _ _ _ ht1
      rfl
  rw [if_neg h13]
  by_cases h14 : c = '<'
  · rw [if_pos h14]
    cases m1
    · rw [if_neg Bool.false_ne_true]
      apply addToken_ok _ _ _ ht1
      rfl
    · rw [if_pos rfl]
      apply addToken_ok _ _ _ ht1
      rfl
  rw [if_neg h14]
  by_cases h15 : c = Char.ofNat 47
  · rw [if_pos h15]
    cases m2
    · rw [if_neg Bool.false_ne_true]
      apply addToken_ok _ _ _ ht2
      rfl
    · rw [if_pos rfl, commentLoop_tokens]
      exact ht2
  rw [if_neg h15]
  repeat' split
  all_goals
    first
    | exact hadv
    | (rw [report_tokens]; exact hadv)
    | exact stringTok_ok _ _ hadv
    | exact numberTok_ok _ _ hadv
    | exact identifier_ok _ _ hadv

theorem scanLoop_ok (f : Nat) :
    ∀ s, tokensOK s.tokens = true →
      tokensOK (Scanner.scanLoop f s).tokens = true := by
  induction f with
  | zero => intro s h; exact h
  | succ f ih =>
      intro s h
      unfold Scanner.scanLoop
      split
      · exact ih _ (scanToken_ok f _ h)
      · exact h

/-- The scanner never emits a keyword-kind token, whatever the source. -/
theorem scanTokens_ok (source : String) :
    tokensOK (Scanner.scanTokens source).1 = true := by
  unfold Scanner.scanTokens
  simp only [tokensOK, List.all_append, List.all_cons, List.all_nil,
    Bool.and_true, Bool.and_eq_true]
  refine ⟨scanLoop_ok _ _ rfl, by decide⟩

/-- A keyword-free token list never shows a keyword at the cursor:
off-list reads default to the EOF token. -/
theorem peekT_not_keyword (s : PState) (hok : tokensOK s.tokens = true) :
    isKeywordTT (Parser.peekT s).token_type = false := by
  unfold Parser.peekT
  rw [List.getD_eq_getElem?_getD]
  rcases hg : s.tokens[s.current]? with _ | t
  · rfl
  · have hmem : t ∈ s.tokens := List.getElem?_mem hg
    unfold tokensOK at hok
    have h2 := (List.all_eq_true.mp hok) t hmem
    simpa using h2

theorem matchT_keyword (s : PState) (tt : TokenType)
    (hok : tokensOK s.tokens = true) (htt : isKeywordTT tt = true) :
    Parser.matchT s [tt] = (false, s) := by
  apply matchT_single_false
  intro h
  rw [← h, peekT_not_keyword s hok] at htt
  exact Bool.false_ne_true htt

theorem advanceT_tokens (s : PState) :
    ((Parser.advanceT s).2).tokens = s.tokens := by
  unfold Parser.advanceT
  dsimp only
  split <;> rfl

theorem matchT_tokens (s : PState) (l : List TokenType) :
    ((Parser.matchT s l).2).tokens = s.tokens := by
  induction l with
  | nil => rfl
  | cons t rest ih =>
      unfold Parser.matchT
      split
      · exact advanceT_tokens s
      · exact ih

theorem errorP_tokens (s : PState) (t : Token) (m : String) :
    (Parser.errorP s t m).tokens = s.tokens := rfl

theorem consumeT_tokens (s : PState) (tt : TokenType) (m : String) :
    ((Parser.consumeT s tt m).2).tokens = s.tokens := by
  unfold Parser.consumeT
  rcases h : Parser.advanceT s with ⟨t, s2⟩
  have h2 : s2.tokens = s.tokens := by
    have h3 : s2 = (Parser.advanceT s).2 := by rw [h]
    rw [h3]
    exact advanceT_tokens s
  split
  · exact h2
  · rfl

theorem freshEid_tokens (s : PState) :
    ((Parser.freshEid s).2).tokens = s.tokens := rfl

theorem synchronizeLoop_tokens (f : Nat) :
    ∀ s, (Parser.synchronizeLoop f s).tokens = s.tokens := by
  induction f with
  | zero => intro s; rfl
  | succ f ih =>
      intro s
      unfold Parser.synchronizeLoop
      repeat' split
      all_goals first | rfl | (rw [ih]; exact advanceT_tokens _)

theorem synchronize_tokens (f : Nat) (s : PState) :
    (Parser.synchronize f s).tokens = s.tokens := by
  unfold Parser.synchronize
  rw [synchronizeLoop_tokens]
  exact advanceT_tokens s

theorem PRok_ok {a : Type} {P : a → Prop} {x : a} {s1 s : PState}
    (ht : s1.tokens = s.tokens) (h : P x) : PRok P (.ok x, s1) s :=
  ⟨ht, fun y s2 hh => by
    injection hh with h1 _
    injection h1 with h2
    exact h2 ▸ h⟩

theorem PRok_perr {a : Type} {P : a → Prop} {s1 s : PState}
    (ht : s1.tokens = s.tokens) : PRok P (.perr, s1) s :=
  ⟨ht, fun x s2 hh => by injection hh with h1 _; exact PRes.noConfusion h1⟩

theorem PRok_crash {a : Type} {P : a → Prop} {m : String} {s1 s : PState}
    (ht : s1.tokens = s.tokens) : PRok P (.crash m, s1) s :=
  ⟨ht, fun x s2 hh => by injection hh with h1 _; exact PRes.noConfusion h1⟩

theorem PRok_fuel {a : Type} {P : a → Prop} {s1 s : PState}
    (ht : s1.tokens = s.tokens) : PRok P (.fuelOut, s1) s :=
  ⟨ht, fun x s2 hh => by injection hh with h1 _; exact PRes.noConfusion h1⟩

theorem PRok_mono {a : Type} {P : a → Prop} {r : PRes a × PState}
    {s1 s : PState} (h : PRok P r s1) (ht : s1.tokens = s.tokens) :
    PRok P r s :=
  ⟨h.1.trans ht, h.2⟩

theorem frag_literal (l : PyLit) : fragExpr (.literal l) = true := by
  simp only [fragExpr]

theorem frag_variableE (i : Nat) (n : Token) :
    fragExpr (.variableE i n) = true := by
  simp only [fragExpr]

theorem frag_assign (i : Nat) (n : Token) (v : Expr)
    (h : fragExpr v = true) : fragExpr (.assign i n v) = true := by
  simp only [fragExpr]
  exact h

theorem frag_binary (l r : Expr) (t : Token) (hl : fragExpr l = true)
    (hr : fragExpr r = true) : fragExpr (.binary l t r) = true := by
  simp only [fragExpr, Bool.and_eq_true]
  exact ⟨hl, hr⟩

theorem frag_logical (l r : Expr) (t : Token) (hl : fragExpr l = true)
    (hr : fragExpr r = true) : fragExpr (.logical l t r) = true := by
  simp only [fragExpr, Bool.and_eq_true]
  exact ⟨hl, hr⟩

theorem frag_unary (t : Token) (r : Expr) (hr : fragExpr r = true) :
    fragExpr (.unary t r) = true := by
  simp only [fragExpr]
  exact hr

theorem frag_grouping (e : Expr) (h : fragExpr e = true) :
    fragExpr (.grouping e) = true := by
  simp only [fragExpr]
  exact h

theorem frag_call (c : Expr) (t : Token) (args : List Expr)
    (hc : fragExpr c = true) (ha : fragExprList args = true) :
    fragExpr (.call c t args) = true := by
  simp only [fragExpr, Bool.and_eq_true]
  exact ⟨hc, ha⟩

theorem frag_expression (e : Expr) (h : fragExpr e = true) :
    fragStmt (.expression e) = true := by
  simp only [fragStmt]
  exact h

theorem frag_block (l : List Stmt) (h : fragStmtList l = true) :
    fragStmt (.block l) = true := by
  simp only [fragStmt]
  exact h

theorem fragExprList_append (acc : List Expr) (e : Expr) :
    fragExprList acc = true → fragExpr e = true →
    fragExprList (acc ++ [e]) = true := by
  induction acc with
  | nil =>
      intro _ h2
      simp only [List.nil_append, fragExprList, Bool.and_eq_true]
      exact ⟨h2, trivial⟩
  | cons x rest ih =>
      intro h1 h2
      rw [List.cons_append]
      rw [fragExprList] at h1 ⊢
      rw [Bool.and_eq_true] at h1 ⊢
      exact ⟨h1.1, ih h1.2 h2⟩

theorem fragStmtList_append (acc : List Stmt) (st : Stmt) :
    fragStmtList acc = true → fragStmt st = true →
    fragStmtList (acc ++ [st]) = true := by
  induction acc with
  | nil =>
      intro _ h2
      simp only [List.nil_append, fragStmtList, Bool.and_eq_true]
      exact ⟨h2, trivial⟩
  | cons x rest ih =>
      intro h1 h2
      rw [List.cons_append]
      rw [fragStmtList] at h1 ⊢
      rw [Bool.and_eq_true] at h1 ⊢
      exact ⟨h1.1, ih h1.2 h2⟩

/-- From keyword-free tokens every parser production keeps the token
list of the state intact and returns only fragment (keyword-less
grammar) expressions and statements. -/
theorem parserFrag (f : Nat) :
    (∀ s, tokensOK s.tokens = true →
      PRok (fun e => fragExpr e = true) (Parser.pExpression f s) s) ∧
    (∀ s, tokensOK s.tokens = true →
      PRok (fun e => fragExpr e = true) (Parser.pAssignment f s) s) ∧
    (∀ s, tokensOK s.tokens = true →
      PRok (fun e => fragExpr e = true) (Parser.pOr f s) s) ∧
    (∀ e s, tokensOK s.tokens = true → fragExpr e = true →
      PRok (fun e => fragExpr e = true) (Parser.pOrLoop f e s) s) ∧
    (∀ s, tokensOK s.tokens = true →
      PRok (fun e => fragExpr e = true) (Parser.pAnd f s) s) ∧
    (∀ e s, tokensOK s.tokens = true → fragExpr e = true →
      PRok (fun e => fragExpr e = true) (Parser.pAndLoop f e s) s) ∧
    (∀ s, tokensOK s.tokens = true →
      PRok (fun e => fragExpr e = true) (Parser.pEquality f s) s) ∧
    (∀ e s, tokensOK s.tokens = true → fragExpr e = true →
      PRok (fun e => fragExpr e = true) (Parser.pEqualityLoop f e s) s) ∧
    (∀ s, tokensOK s.tokens = true →
      PRok (fun e => fragExpr e = true) (Parser.pComparison f s) s) ∧
    (∀ e s, tokensOK s.tokens = true → fragExpr e = true →
      PRok (fun e => fragExpr e = true) (Parser.pComparisonLoop f e s) s) ∧
    (∀ s, tokensOK s.tokens = true →
      PRok (fun e => fragExpr e = true) (Parser.pTerm f s) s) ∧
    (∀ e s, tokensOK s.tokens = true → fragExpr e = true →
      PRok (fun e => fragExpr e = true) (Parser.pTermLoop f e s) s) ∧
    (∀ s, tokensOK s.tokens = true →
      PRok (fun e => fragExpr e = true) (Parser.pFactor f s) s) ∧
    (∀ e s, tokensOK s.tokens = true → fragExpr e = true →
      PRok (fun e => fragExpr e = true) (Parser.pFactorLoop f e s) s) ∧
    (∀ s, tokensOK s.tokens = true →
      PRok (fun e => fragExpr e = true) (Parser.pUnary f s) s) ∧
    (∀ s, tokensOK s.tokens = true →
      PRok (fun e => fragExpr e = true) (Parser.pCall f s) s) ∧
    (∀ e s, tokensOK s.tokens = true → fragExpr e = true →
      PRok (fun e => fragExpr e = true) (Parser.pCallLoop f e s) s) ∧
    (∀ e s, tokensOK s.tokens = true → fragExpr e = true →
      PRok (fun e => fragExpr e = true) (Parser.pFinishCall f e s) s) ∧
    (∀ acc s, tokensOK s.tokens = true → fragExprList acc = true →
      PRok (fun l => fragExprList l = true) (Parser.pArgsLoop f acc s) s) ∧
    (∀ s, tokensOK s.tokens = true →
      PRok (fun e => fragExpr e = true) (Parser.pPrimary f s) s) ∧
    (∀ s, tokensOK s.tokens = true →
      PRok (fun ost => ∀ st, ost = some st → fragStmt st = true) (Parser.pDeclaration f s) s) ∧
    (∀ s, tokensOK s.tokens = true →
      PRok (fun st => fragStmt st = true) (Parser.pStatement f s) s) ∧
    (∀ s, tokensOK s.tokens = true →
      PRok (fun l => fragStmtList l = true) (Parser.pBlock f s) s) ∧
    (∀ acc s, tokensOK s.tokens = true → fragStmtList acc = true →
      PRok (fun l => fragStmtList l = true) (Parser.pBlockLoop f acc s) s) ∧
    (∀ s, tokensOK s.tokens = true →
      PRok (fun st => fragStmt st = true) (Parser.pExpressionStatement f s) s) := by
  induction f with
  | zero =>
      exact ⟨fun s _ => PRok_fuel rfl,
        fun s _ => PRok_fuel rfl,
        fun s _ => PRok_fuel rfl,
        fun e s _ _ => PRok_fuel rfl,
        fun s _ => PRok_fuel rfl,
        fun e s _ _ => PRok_fuel rfl,
        fun s _ => PRok_fuel rfl,
        fun e s _ _ => PRok_fuel rfl,
        fun s _ => PRok_fuel rfl,
        fun e s _ _ => PRok_fuel rfl,
        fun s _ => PRok_fuel rfl,
        fun e s _ _ => PRok_fuel rfl,
        fun s _ => PRok_fuel rfl,
        fun e s _ _ => PRok_fuel rfl,
        fun s _ => PRok_fuel rfl,
        fun s _ => PRok_fuel rfl,
        fun e s _ _ => PRok_fuel rfl,
        fun e s _ _ => PRok_fuel rfl,
        fun acc s _ _ => PRok_fuel rfl,
        fun s _ => PRok_fuel rfl,
        fun s _ => PRok_fuel rfl,
        fun s _ => PRok_fuel rfl,
        fun s _ => PRok_fuel rfl,
        fun acc s _ _ => PRok_fuel rfl,
        fun s _ => PRok_fuel rfl⟩
  | succ f ih =>
      obtain ⟨ihE, ihA, ihO, ihOL, ihAn, ihAnL, ihEq, ihEqL, ihC, ihCL, ihT, ihTL, ihF, ihFL, ihU, ihCa, ihCaL, ihFC, ihAL, ihP, ihD, ihS, ihB, ihBL, ihES⟩ := ih
      refine ⟨?_, ?_, ?_, ?_, ?_, ?_, ?_, ?_, ?_, ?_, ?_, ?_, ?_, ?_, ?_, ?_, ?_, ?_, ?_, ?_, ?_, ?_, ?_, ?_, ?_⟩
      · intro s hok
        unfold Parser.pExpression
        exact ihA s hok
      · intro s hok
        unfold Parser.pAssignment
        rcases h1 : Parser.pOr f s with ⟨res1, s1⟩
        have hP1 := ihO s hok
        rw [h1] at hP1
        cases res1
        case ok expr =>
          dsimp only
          rcases h2 : Parser.matchT s1 [TokenType.EQUAL] with ⟨m, s2⟩
          have ht2 : s2.tokens = s1.tokens := by
            have h3 := matchT_tokens s1 [TokenType.EQUAL]
            rw [h2] at h3
            exact h3
          cases m
          · exact PRok_ok (ht2.trans hP1.1) (hP1.2 expr s1 rfl)
          · dsimp only
            rcases h4 : Parser.pAssignment f s2 with ⟨res4, s4⟩
            have hP4 := ihA s2 (by rw [ht2, hP1.1]; exact hok)
            rw [h4] at hP4
            cases res4
            case ok value =>
              have ht4 : s4.tokens = s.tokens := by rw [hP4.1, ht2, hP1.1]
              have hv : fragExpr value = true := hP4.2 value s4 rfl
              have hfe : fragExpr expr = true := hP1.2 expr s1 rfl
              cases expr
              case variableE i name =>
                exact PRok_ok (by rw [freshEid_tokens]; exact ht4)
                  (frag_assign _ _ _ hv)
              all_goals exact PRok_ok (by rw [errorP_tokens]; exact ht4) hfe
            all_goals exact PRok_mono hP4 (ht2.trans hP1.1)
        all_goals exact hP1
      · intro s hok
        unfold Parser.pOr
        rcases h1 : Parser.pAnd f s with ⟨res1, s1⟩
        have hP1 := ihAn s hok
        rw [h1] at hP1
        cases res1
        case ok expr =>
          exact PRok_mono (ihOL expr s1 (by rw [hP1.1]; exact hok)
            (hP1.2 expr s1 rfl)) hP1.1
        all_goals exact hP1
      · intro e s hok hfe
        unfold Parser.pOrLoop
        rw [matchT_keyword s TokenType.OR hok rfl]
        exact PRok_ok rfl hfe
      · intro s hok
        unfold Parser.pAnd
        rcases h1 : Parser.pEquality f s with ⟨res1, s1⟩
        have hP1 := ihEq s hok
        rw [h1] at hP1
        cases res1
        case ok expr =>
          exact PRok_mono (ihAnL expr s1 (by rw [hP1.1]; exact hok)
            (hP1.2 expr s1 rfl)) hP1.1
        all_goals exact hP1
      · intro e s hok hfe
        unfold Parser.pAndLoop
        rw [matchT_keyword s TokenType.AND hok rfl]
        exact PRok_ok rfl hfe
      · intro s hok
        unfold Parser.pEquality
        rcases h1 : Parser.pComparison f s with ⟨res1, s1⟩
        have hP1 := ihC s hok
        rw [h1] at hP1
        cases res1
        case ok expr =>
          exact PRok_mono (ihEqL expr s1 (by rw [hP1.1]; exact hok)
            (hP1.2 expr s1 rfl)) hP1.1
        all_goals exact hP1
      · intro e s hok hfe
        unfold Parser.pEqualityLoop
        rcases h1 : Parser.matchT s [TokenType.BANG_EQUAL, TokenType.EQUAL_EQUAL] with ⟨m, s1⟩
        have ht1 : s1.tokens = s.tokens := by
          have h3 := matchT_tokens s [TokenType.BANG_EQUAL, TokenType.EQUAL_EQUAL]
          rw [h1] at h3
          exact h3
        cases m
        · exact PRok_ok ht1 hfe
        · dsimp only
          rcases h2 : Parser.pComparison f s1 with ⟨res2, s2⟩
          have hP2 := ihC s1 (by rw [ht1]; exact hok)
          rw [h2] at hP2
          cases res2
          case ok right =>
            exact PRok_mono (ihEqL (.binary e (Parser.previousT s1) right) s2
              (by rw [hP2.1, ht1]; exact hok)
              (frag_binary _ _ _ hfe (hP2.2 right s2 rfl)))
              (hP2.1.trans ht1)
          all_goals exact PRok_mono hP2 ht1
      · intro s hok
        unfold Parser.pComparison
        rcases h1 : Parser.pTerm f s with ⟨res1, s1⟩
        have hP1 := ihT s hok
        rw [h1] at hP1
        cases res1
        case ok expr =>
          exact PRok_mono (ihCL expr s1 (by rw [hP1.1]; exact hok)
            (hP1.2 expr s1 rfl)) hP1.1
        all_goals exact hP1
      · intro e s hok hfe
        unfold Parser.pComparisonLoop
        rcases h1 : Parser.matchT s [TokenType.GREATER, TokenType.GREATER_EQUAL, TokenType.LESS, TokenType.LESS_EQUAL] with ⟨m, s1⟩
        have ht1 : s1.tokens = s.tokens := by
          have h3 := matchT_tokens s [TokenType.GREATER, TokenType.GREATER_EQUAL, TokenType.LESS, TokenType.LESS_EQUAL]
          rw [h1] at h3
          exact h3
        cases m
        · exact PRok_ok ht1 hfe
        · dsimp only
          rcases h2 : Parser.pTerm f s1 with ⟨res2, s2⟩
          have hP2 := ihT s1 (by rw [ht1]; exact hok)
          rw [h2] at hP2
          cases res2
          case ok right =>
            exact PRok_mono (ihCL (.binary e (Parser.previousT s1) right) s2
              (by rw [hP2.1, ht1]; exact hok)
              (frag_binary _ _ _ hfe (hP2.2 right s2 rfl)))
              (hP2.1.trans ht1)
          all_goals exact PRok_mono hP2 ht1
      · intro s hok
        unfold Parser.pTerm
        rcases h1 : Parser.pFactor f s with ⟨res1, s1⟩
        have hP1 := ihF s hok
        rw [h1] at hP1
        cases res1
        case ok expr =>
          exact PRok_mono (ihTL expr s1 (by rw [hP1.1]; exact hok)
            (hP1.2 expr s1 rfl)) hP1.1
        all_goals exact hP1
      · intro e s hok hfe
        unfold Parser.pTermLoop
        rcases h1 : Parser.matchT s [TokenType.PLUS, TokenType.MINUS] with ⟨m, s1⟩
        have ht1 : s1.tokens = s.tokens := by
          have h3 := matchT_tokens s [TokenType.PLUS, TokenType.MINUS]
          rw [h1] at h3
          exact h3
        cases m
        · exact PRok_ok ht1 hfe
        · dsimp only
          rcases h2 : Parser.pFactor f s1 with ⟨res2, s2⟩
          have hP2 := ihF s1 (by rw [ht1]; exact hok)
          rw [h2] at hP2
          cases res2
          case ok right =>
            exact PRok_mono (ihTL (.binary e (Parser.previousT s1) right) s2
              (by rw [hP2.1, ht1]; exact hok)
              (frag_binary _ _ _ hfe (hP2.2 right s2 rfl)))
              (hP2.1.trans ht1)
          all_goals exact PRok_mono hP2 ht1
      · intro s hok
        unfold Parser.pFactor
        rcases h1 : Parser.pUnary f s with ⟨res1, s1⟩
        have hP1 := ihU s hok
        rw [h1] at hP1
        cases res1
        case ok expr =>
          exact PRok_mono (ihFL expr s1 (by rw [hP1.1]; exact hok)
            (hP1.2 expr s1 rfl)) hP1.1
        all_goals exact hP1
      · intro e s hok hfe
        unfold Parser.pFactorLoop
        rcases h1 : Parser.matchT s [TokenType.SLASH, TokenType.STAR] with ⟨m, s1⟩
        have ht1 : s1.tokens = s.tokens := by
          have h3 := matchT_tokens s [TokenType.SLASH, TokenType.STAR]
          rw [h1] at h3
          exact h3
        cases m
        · exact PRok_ok ht1 hfe
        · dsimp only
          rcases h2 : Parser.pUnary f s1 with ⟨res2, s2⟩
          have hP2 := ihU s1 (by rw [ht1]; exact hok)
          rw [h2] at hP2
          cases res2
          case ok right =>
            exact PRok_mono (ihFL (.binary e (Parser.previousT s1) right) s2
              (by rw [hP2.1, ht1]; exact hok)
              (frag_binary _ _ _ hfe (hP2.2 right s2 rfl)))
              (hP2.1.trans ht1)
          all_goals exact PRok_mono hP2 ht1
      · intro s hok
        unfold Parser.pUnary
        rcases h1 : Parser.matchT s [TokenType.BANG, TokenType.MINUS] with ⟨m, s1⟩
        have ht1 : s1.tokens = s.tokens := by
          have h3 := matchT_tokens s [TokenType.BANG, TokenType.MINUS]
          rw [h1] at h3
          exact h3
        cases m
        · exact PRok_mono (ihCa s1 (by rw [ht1]; exact hok)) ht1
        · dsimp only
          rcases h2 : Parser.pUnary f s1 with ⟨res2, s2⟩
          have hP2 := ihU s1 (by rw [ht1]; exact hok)
          rw [h2] at hP2
          cases res2
          case ok right =>
            exact PRok_ok (hP2.1.trans ht1) (frag_unary _ _ (hP2.2 right s2 rfl))
          all_goals exact PRok_mono hP2 ht1
      · intro s hok
        unfold Parser.pCall
        rcases h1 : Parser.pPrimary f s with ⟨res1, s1⟩
        have hP1 := ihP s hok
        rw [h1] at hP1
        cases res1
        case ok expr =>
          exact PRok_mono (ihCaL expr s1 (by rw [hP1.1]; exact hok)
            (hP1.2 expr s1 rfl)) hP1.1
        all_goals exact hP1
      · intro e s hok hfe
        unfold Parser.pCallLoop
        rcases h1 : Parser.matchT s [TokenType.LEFT_PAREN] with ⟨m, s1⟩
        have ht1 : s1.tokens = s.tokens := by
          have h3 := matchT_tokens s [TokenType.LEFT_PAREN]
          rw [h1] at h3
          exact h3
        cases m
        · exact PRok_ok ht1 hfe
        · dsimp only
          rcases h2 : Parser.pFinishCall f e s1 with ⟨res2, s2⟩
          have hP2 := ihFC e s1 (by rw [ht1]; exact hok) hfe
          rw [h2] at hP2
          cases res2
          case ok expr2 =>
            exact PRok_mono (ihCaL expr2 s2 (by rw [hP2.1, ht1]; exact hok)
              (hP2.2 expr2 s2 rfl)) (hP2.1.trans ht1)
          all_goals exact PRok_mono hP2 ht1
      · intro callee s hok hfc
        unfold Parser.pFinishCall
        dsimp only
        rcases hif : (if !Parser.checkT s TokenType.RIGHT_PAREN then
            Parser.pArgsLoop f [] s
          else ((.ok [], s) : PRes (List Expr) × PState)) with ⟨resA, sA⟩
        have hA : PRok (fun l => fragExprList l = true) (resA, sA) s := by
          rw [← hif]
          split
          · exact ihAL [] s hok rfl
          · exact PRok_ok rfl rfl
        cases resA
        case ok args =>
          dsimp only
          split
          all_goals
            rename_i heq
            have htc := congrArg (fun r => (r.2).tokens) heq
            simp only [consumeT_tokens] at htc
            first
            | exact PRok_ok (htc.symm.trans hA.1)
                (frag_call _ _ _ hfc (hA.2 args sA rfl))
            | exact PRok_perr (htc.symm.trans hA.1)
            | exact PRok_crash (htc.symm.trans hA.1)
            | exact PRok_fuel (htc.symm.trans hA.1)
        all_goals
          first
          | exact PRok_perr hA.1
          | exact PRok_crash hA.1
          | exact PRok_fuel hA.1
      · intro acc s hok hacc
        unfold Parser.pArgsLoop
        dsimp only
        generalize hmid : (if 255 < acc.length then Parser.errorP s
            (Parser.peekT s) ("Can" ++ sq ++ "t have more than 255 arguments.")
          else s) = sMid
        have htm : sMid.tokens = s.tokens := by
          rw [← hmid]
          split
          · rfl
          · rfl
        rcases h1 : Parser.pExpression f sMid with ⟨res1, s1⟩
        have hP1 := ihE sMid (by rw [htm]; exact hok)
        rw [h1] at hP1
        cases res1
        case ok arg =>
          dsimp only
          rcases h2 : Parser.matchT s1 [TokenType.COMMA] with ⟨m, s2⟩
          have ht2 : s2.tokens = s1.tokens := by
            have h3 := matchT_tokens s1 [TokenType.COMMA]
            rw [h2] at h3
            exact h3
          have hfl : fragExprList (acc ++ [arg]) = true :=
            fragExprList_append acc arg hacc (hP1.2 arg s1 rfl)
          cases m
          · exact PRok_ok (by rw [ht2, hP1.1, htm]) hfl
          · exact PRok_mono (ihAL (acc ++ [arg]) s2
              (by rw [ht2, hP1.1, htm]; exact hok) hfl)
              (by rw [ht2, hP1.1, htm])
        all_goals
          first
          | exact PRok_perr (hP1.1.trans htm)
          | exact PRok_crash (hP1.1.trans htm)
          | exact PRok_fuel (hP1.1.trans htm)
      · intro s hok
        unfold Parser.pPrimary
        simp only [matchT_keyword s TokenType.FALSE hok rfl,
          matchT_keyword s TokenType.TRUE hok rfl,
          matchT_keyword s TokenType.NIL hok rfl]
        rcases h1 : Parser.matchT s [TokenType.NUMBER, TokenType.STRING] with ⟨m1, s1⟩
        have ht1 : s1.tokens = s.tokens := by
          have h3 := matchT_tokens s [TokenType.NUMBER, TokenType.STRING]
          rw [h1] at h3
          exact h3
        cases m1
        case true => exact PRok_ok ht1 (frag_literal _)
        dsimp only
        rcases h2 : Parser.matchT s1 [TokenType.IDENTIFIER] with ⟨m2, s2⟩
        have ht2 : s2.tokens = s1.tokens := by
          have h3 := matchT_tokens s1 [TokenType.IDENTIFIER]
          rw [h2] at h3
          exact h3
        cases m2
        case true =>
          exact PRok_ok (by rw [freshEid_tokens, ht2, ht1]) (frag_variableE _ _)
        dsimp only
        rcases h3 : Parser.matchT s2 [TokenType.LEFT_PAREN] with ⟨m3, s3⟩
        have ht3 : s3.tokens = s2.tokens := by
          have h4 := matchT_tokens s2 [TokenType.LEFT_PAREN]
          rw [h3] at h4
          exact h4
        cases m3
        case false =>
          exact PRok_perr (by rw [errorP_tokens, ht3, ht2, ht1])
        dsimp only
        rcases h4 : Parser.pExpression f s3 with ⟨res4, s4⟩
        have hP4 := ihE s3 (by rw [ht3, ht2, ht1]; exact hok)
        rw [h4] at hP4
        cases res4
        case ok expr =>
          have ht5 : s4.tokens = s.tokens := by rw [hP4.1, ht3, ht2, ht1]
          dsimp only
          split
          all_goals
            rename_i heq
            have htc := congrArg (fun r => (r.2).tokens) heq
            simp only [consumeT_tokens] at htc
            first
            | exact PRok_ok (htc.symm.trans ht5)
                (frag_grouping _ (hP4.2 expr s4 rfl))
            | exact PRok_perr (htc.symm.trans ht5)
            | exact PRok_crash (htc.symm.trans ht5)
            | exact PRok_fuel (htc.symm.trans ht5)
        all_goals exact PRok_mono hP4 (by rw [ht3, ht2, ht1])
      · intro s hok
        unfold Parser.pDeclaration
        dsimp only
        rw [matchT_keyword s TokenType.FUN hok rfl]
        dsimp only
        rw [if_neg Bool.false_ne_true]
        rw [matchT_keyword s TokenType.VAR hok rfl]
        dsimp only
        rw [if_neg Bool.false_ne_true]
        rcases h1 : Parser.pStatement f s with ⟨res1, s1⟩
        have hP1 := ihS s hok
        rw [h1] at hP1
        cases res1
        case ok st =>
          refine PRok_ok hP1.1 (fun st2 hsome => ?_)
          injection hsome with h2
          exact h2 ▸ (hP1.2 st s1 rfl)
        case perr =>
          exact PRok_ok (by rw [synchronize_tokens]; exact hP1.1)
            (fun st2 hsome => Option.noConfusion hsome)
        case crash m => exact PRok_crash hP1.1
        case fuelOut => exact PRok_fuel hP1.1
      · intro s hok
        unfold Parser.pStatement
        simp only [matchT_keyword s TokenType.PRINT hok rfl,
          matchT_keyword s TokenType.IF hok rfl,
          matchT_keyword s TokenType.WHILE hok rfl,
          matchT_keyword s TokenType.FOR hok rfl]
        rcases h1 : Parser.matchT s [TokenType.LEFT_BRACE] with ⟨m, s1⟩
        have ht1 : s1.tokens = s.tokens := by
          have h3 := matchT_tokens s [TokenType.LEFT_BRACE]
          rw [h1] at h3
          exact h3
        cases m
        · exact PRok_mono (ihES s1 (by rw [ht1]; exact hok)) ht1
        · dsimp only
          rcases h2 : Parser.pBlock f s1 with ⟨res2, s2⟩
          have hP2 := ihB s1 (by rw [ht1]; exact hok)
          rw [h2] at hP2
          cases res2
          case ok stmts =>
            exact PRok_ok (hP2.1.trans ht1) (frag_block _ (hP2.2 stmts s2 rfl))
          all_goals
            first
            | exact PRok_perr (hP2.1.trans ht1)
            | exact PRok_crash (hP2.1.trans ht1)
            | exact PRok_fuel (hP2.1.trans ht1)
      · intro s hok
        unfold Parser.pBlock
        exact ihBL [] s hok rfl
      · intro acc s hok hacc
        unfold Parser.pBlockLoop
        split
        · rcases h1 : Parser.pDeclaration f s with ⟨res1, s1⟩
          have hP1 := ihD s hok
          rw [h1] at hP1
          cases res1
          case ok ost =>
            cases ost
            case none =>
              exact PRok_mono (ihBL acc s1 (by rw [hP1.1]; exact hok) hacc) hP1.1
            case some st =>
              exact PRok_mono (ihBL (acc ++ [st]) s1 (by rw [hP1.1]; exact hok)
                (fragStmtList_append acc st hacc (hP1.2 (some st) s1 rfl st rfl)))
                hP1.1
          all_goals
            first
            | exact PRok_perr hP1.1
            | exact PRok_crash hP1.1
            | exact PRok_fuel hP1.1
        · split
          all_goals
            rename_i heq
            have htc := congrArg (fun r => (r.2).tokens) heq
            simp only [consumeT_tokens] at htc
            first
            | exact PRok_ok htc.symm hacc
            | exact PRok_perr htc.symm
            | exact PRok_crash htc.symm
            | exact PRok_fuel htc.symm
      · intro s hok
        unfold Parser.pExpressionStatement
        dsimp only
        rcases h1 : Parser.pExpression f s with ⟨res1, s1⟩
        have hP1 := ihE s hok
        rw [h1] at hP1
        cases res1
        case ok expr =>
          dsimp only
          split
          all_goals
            rename_i heq
            have htc := congrArg (fun r => (r.2).tokens) heq
            simp only [consumeT_tokens] at htc
            first
            | exact PRok_ok (htc.symm.trans hP1.1)
                (frag_expression _ (hP1.2 expr s1 rfl))
            | exact PRok_perr (htc.symm.trans hP1.1)
            | exact PRok_crash (htc.symm.trans hP1.1)
            | exact PRok_fuel (htc.symm.trans hP1.1)
        all_goals
          first
          | exact PRok_perr hP1.1
          | exact PRok_crash hP1.1
          | exact PRok_fuel hP1.1

/-- C10: after a clean pipeline run with no reported errors, `Pylox.run`
executes the program (`interpret_all`) and then walks the statement list
once more, re-interpreting the expression of every top-level `Expression`
statement and printing its stringified result when truthy — so such
expressions are evaluated a second time (their side effects, including
reported runtime errors, happen twice and their values reach stdout) —
although the evaluator's own `visit_expression_stmt` discards the value
and prints nothing. -/

theorem parseAllLoop_frag (f : Nat) :
    ∀ acc s, tokensOK s.tokens = true → fragStmtList acc = true →
      ∀ stmts s2, Parser.parseAllLoop f acc s = (.ok stmts, s2) →
        fragStmtList stmts = true := by
  induction f with
  | zero =>
      intro acc s _ _ stmts s2 h
      injection h with h1 _
      exact PRes.noConfusion h1
  | succ f ih =>
      intro acc s hok hacc stmts s2 h
      obtain ⟨_, _, _, _, _, _, _, _, _, _, _, _, _, _, _, _, _, _, _, _,
        hD, _, _, _, _⟩ := parserFrag f
      unfold Parser.parseAllLoop at h
      split at h
      · rcases h1 : Parser.pDeclaration f s with ⟨res1, s1⟩
        have hP1 := hD s hok
        rw [h1] at hP1 h
        cases res1
        case ok ost =>
          dsimp only at h
          cases ost
          case none =>
            exact ih acc s1 (by rw [hP1.1]; exact hok) hacc stmts s2 h
          case some st =>
            exact ih (acc ++ [st]) s1 (by rw [hP1.1]; exact hok)
              (fragStmtList_append acc st hacc (hP1.2 (some st) s1 rfl st rfl))
              stmts s2 h
        all_goals
          dsimp only at h
          injection h with h1 _
          exact PRes.noConfusion h1
      · injection h with h1 h2
        injection h1 with h3
        exact h3 ▸ hacc

/-- `Parser.parse_all` on a keyword-free token list yields only fragment
statements (expression statements and blocks over fragment
expressions). -/
theorem parseAll_frag (f : Nat) (tokens : List Token) (stmts : List Stmt)
    (ps : PState) (hok : tokensOK tokens = true)
    (h : Parser.parseAll f tokens = (.ok stmts, ps)) :
    fragStmtList stmts = true := by
  unfold Parser.parseAll at h
  exact parseAllLoop_frag f [] ⟨tokens, 0, [], 0⟩ hok rfl stmts ps h

theorem foldl_rReport_locals (l : List Token) :
    ∀ st, (l.foldl (fun st v => rReport st v msgUnused) st).locals =
      st.locals := by
  induction l with
  | nil => intro st; rfl
  | cons t rest ih =>
      intro st
      rw [List.foldl_cons, ih]
      rfl

/-- A successful resolver pass leaves the resolution table exactly as it
started: empty. -/
theorem resolverResolve_locals (f : Nat) (stmts : List Stmt) (rst : RState)
    (h : resolverResolve f stmts = (.ok, rst)) : rst.locals = [] := by
  unfold resolverResolve at h
  rcases h1 : rResolveStmts f initRState stmts with ⟨res1, st1⟩
  rw [h1] at h
  cases res1
  case ok =>
    dsimp only at h
    injection h with _ h2
    have hl := (rLocals_preserved f).2.2.2.1 initRState stmts st1 h1
    rw [← h2]
    unfold rReportUnused
    rw [foldl_rReport_locals]
    exact hl
  all_goals
    dsimp only at h
    injection h with h2 _
    exact RRes.noConfusion h2

theorem dictGet_mem (l : List (String × Value)) (k : String) (v : Value)
    (h : dictGet l k = some v) : (k, v) ∈ l := by
  induction l with
  | nil => exact Option.noConfusion h
  | cons kv rest ih =>
      rcases kv with ⟨k0, v0⟩
      unfold dictGet at h
      split at h
      next hk =>
        injection h with h1
        rw [← hk, ← h1]
        exact List.mem_cons_self _ _
      next hk =>
        exact List.mem_cons_of_mem _ (ih h)

theorem mem_dictSet (l : List (String × Value)) (k : String) (v : Value) :
    ∀ kv ∈ dictSet l k v, kv ∈ l ∨ kv.2 = v := by
  induction l with
  | nil =>
      intro kv hm
      unfold dictSet at hm
      right
      rw [List.mem_singleton.mp hm]
  | cons kv0 rest ih =>
      intro kv hm
      rcases kv0 with ⟨k0, v0⟩
      unfold dictSet at hm
      split at hm
      · rcases List.mem_cons.mp hm with h | h
        · right
          rw [h]
        · left
          exact List.mem_cons_of_mem _ h
      · rcases List.mem_cons.mp hm with h | h
        · left
          rw [h]
          exact List.mem_cons_self _ _
        · rcases ih kv h with h2 | h2
          · left
            exact List.mem_cons_of_mem _ h2
          · right
            exact h2

theorem dictGet_isSome_of_hasKey (l : List (String × Value)) (k : String)
    (h : dictHasKey l k = true) : ∃ v, dictGet l k = some v := by
  induction l with
  | nil => simp [dictHasKey] at h
  | cons kv rest ih =>
      rcases kv with ⟨k0, v0⟩
      unfold dictHasKey at h
      unfold dictGet
      by_cases hk : k0 = k
      · exact ⟨v0, by rw [if_pos hk]⟩
      · rw [if_neg hk]
        apply ih
        simpa [hk] using h

theorem dictGet_none_of_not_hasKey (l : List (String × Value)) (k : String)
    (h : dictHasKey l k = false) : dictGet l k = Option.none := by
  induction l with
  | nil => rfl
  | cons kv rest ih =>
      rcases kv with ⟨k0, v0⟩
      unfold dictHasKey at h
      unfold dictGet
      by_cases hk : k0 = k
      · rw [hk] at h
        simp at h
      · rw [if_neg hk]
        apply ih
        simpa [hk] using h

theorem getEnv_append (s : InterpState) (e : EnvData) (i : Nat)
    (h : i < s.envs.length) :
    getEnv { s with envs := s.envs ++ [e] } i = getEnv s i := by
  unfold getEnv
  dsimp only
  rw [List.getD_eq_getElem?_getD, List.getD_eq_getElem?_getD,
    List.getElem?_append_left h]

theorem getEnv_append_self (s : InterpState) (e : EnvData) :
    getEnv { s with envs := s.envs ++ [e] } s.envs.length = e := by
  unfold getEnv
  dsimp only
  rw [List.getD_eq_getElem?_getD,
    List.getElem?_append_right (Nat.le_refl _), Nat.sub_self]
  rfl

theorem setEnv_length (s : InterpState) (r : Nat) (e : EnvData) :
    (setEnv s r e).envs.length = s.envs.length := by
  unfold setEnv
  dsimp only
  exact List.length_set _ _ _

theorem getEnv_setEnv_self (s : InterpState) (r : Nat) (e : EnvData)
    (h : r < s.envs.length) : getEnv (setEnv s r e) r = e := by
  unfold getEnv setEnv
  dsimp only
  rw [List.getD_eq_getElem?_getD, List.getElem?_set_self]
  · rfl
  · exact h

theorem getEnv_setEnv_other (s : InterpState) (r : Nat) (e : EnvData)
    (i : Nat) (h : r ≠ i) : getEnv (setEnv s r e) i = getEnv s i := by
  unfold getEnv setEnv
  dsimp only
  rw [List.getD_eq_getElem?_getD, List.getD_eq_getElem?_getD,
    List.getElem?_set_ne h]

theorem intDemote_simple (n : PyNum) : SimpleV (intDemote n) = true := by
  unfold intDemote
  split <;> rfl

theorem literalValue_simple (l : PyLit) : SimpleV (literalValue l) = true := by
  unfold literalValue
  repeat' split
  all_goals rfl

theorem evalUnaryOp_simple (op : Token) (r v : Value)
    (h : evalUnaryOp op r = .ok v) : SimpleV v = true := by
  unfold evalUnaryOp at h
  repeat' split at h
  all_goals
    first
    | (injection h with h1; rw [← h1]; rfl)
    | exact Res.noConfusion h

theorem evalBinaryOp_simple (f : Nat) (s : InterpState) (op : Token)
    (l r v : Value) (h : evalBinaryOp f s op l r = .ok v) :
    SimpleV v = true := by
  unfold evalBinaryOp at h
  dsimp only at h
  repeat' split at h
  all_goals
    first
    | (injection h with h1; rw [← h1]; first | rfl | exact intDemote_simple _)
    | exact Res.noConfusion h

/-- Reading an unresolved name under the invariant yields a simple
value: globals only ever hold simple values. -/
theorem globalsGet_ok_simple (s : InterpState) (name : Token) (v : Value)
    (hInv : Inv s) (h : globalsGet s name = .ok v) : SimpleV v = true := by
  unfold globalsGet at h
  rcases hd : dictGet (getEnv s 0).values name.lexeme with _ | w
  · rw [hd] at h
    exact Res.noConfusion h
  · rw [hd] at h
    injection h with h1
    rw [← h1]
    exact hInv.globSimple (name.lexeme, w) (dictGet_mem _ _ _ hd)

theorem Inv_setEnvironment (s : InterpState) (p : Nat) (h : Inv s)
    (hp : p < s.envs.length) : Inv { s with environment := p } :=
  ⟨h.envsPos, hp, h.localsEmpty, h.globEnclosing, h.globSimple,
    h.upperEmpty, h.upperChain⟩

/-- Pushing a fresh empty environment that encloses the current one
preserves the invariant. -/
theorem Inv_extend (s : InterpState) (h : Inv s) :
    Inv { s with envs :=
      s.envs ++ [(⟨[], some s.environment⟩ : EnvData)] } := by
  have hlen : ({ s with envs :=
      s.envs ++ [(⟨[], some s.environment⟩ : EnvData)] }).envs.length =
      s.envs.length + 1 := by
    dsimp only
    rw [List.length_append, List.length_singleton]
  refine ⟨?_, ?_, h.localsEmpty, ?_, ?_, ?_, ?_⟩
  · rw [hlen]
    exact Nat.succ_pos _
  · rw [hlen]
    exact Nat.lt_succ_of_lt h.curLt
  · rw [getEnv_append s _ 0 h.envsPos]
    exact h.globEnclosing
  · intro kv hm
    rw [getEnv_append s _ 0 h.envsPos] at hm
    exact h.globSimple kv hm
  · intro i hi hilen
    rw [hlen] at hilen
    rcases Nat.lt_succ_iff_lt_or_eq.mp hilen with hcase | hcase
    · rw [getEnv_append s _ i hcase]
      exact h.upperEmpty i hi hcase
    · rw [hcase, getEnv_append_self]
  · intro i hi hilen
    rw [hlen] at hilen
    rcases Nat.lt_succ_iff_lt_or_eq.mp hilen with hcase | hcase
    · rcases h.upperChain i hi hcase with ⟨j, hj, henc⟩
      exact ⟨j, hj, by rw [getEnv_append s _ i hcase]; exact henc⟩
    · refine ⟨s.environment, ?_, ?_⟩
      · rw [hcase]
        exact h.curLt
      · rw [hcase, getEnv_append_self]

/-- Writing a simple value into the globals map preserves the
invariant, the store size and the current environment. -/
theorem Inv_globalsAssign (s : InterpState) (name : Token) (v : Value)
    (hInv : Inv s) (hv : SimpleV v = true) :
    Inv (globalsAssign s name v).2 ∧
    (globalsAssign s name v).2.envs.length = s.envs.length ∧
    (globalsAssign s name v).2.environment = s.environment := by
  unfold globalsAssign
  split
  · dsimp only
    refine ⟨⟨?_, ?_, hInv.localsEmpty, ?_, ?_, ?_, ?_⟩,
      setEnv_length _ _ _, rfl⟩
    · rw [setEnv_length]
      exact hInv.envsPos
    · rw [setEnv_length]
      exact hInv.curLt
    · rw [getEnv_setEnv_self s 0 _ hInv.envsPos]
      exact hInv.globEnclosing
    · intro kv hm
      rw [getEnv_setEnv_self s 0 _ hInv.envsPos] at hm
      rcases mem_dictSet _ _ _ kv hm with h2 | h2
      · exact hInv.globSimple kv h2
      · rw [h2]
        exact hv
    · intro i hi hilen
      rw [setEnv_length] at hilen
      rw [getEnv_setEnv_other s 0 _ i (Nat.ne_of_lt hi)]
      exact hInv.upperEmpty i hi hilen
    · intro i hi hilen
      rw [setEnv_length] at hilen
      rw [getEnv_setEnv_other s 0 _ i (Nat.ne_of_lt hi)]
      exact hInv.upperChain i hi hilen
  · exact ⟨hInv, rfl, rfl⟩

/-- Under the invariant a chain lookup from any live environment is the
globals lookup: upper environments are empty and chain down to 0. -/
theorem envGet_chain (name : Token) :
    ∀ fuel s r, Inv s → r < s.envs.length → r < fuel →
      envGet fuel s r name = globalsGet s name := by
  intro fuel
  induction fuel with
  | zero =>
      intro s r _ _ hf
      exact absurd hf (Nat.not_lt_zero r)
  | succ fuel ih =>
      intro s r hInv hr hf
      unfold envGet
      dsimp only
      rcases Nat.eq_zero_or_pos r with hz | hp
      · subst hz
        unfold globalsGet
        by_cases hk : dictHasKey (getEnv s 0).values name.lexeme = true
        · rcases dictGet_isSome_of_hasKey _ _ hk with ⟨v, hv⟩
          rw [if_pos hk, hv]
        · have hk2 : dictHasKey (getEnv s 0).values name.lexeme = false := by
            revert hk
            cases dictHasKey (getEnv s 0).values name.lexeme
            · intro _
              rfl
            · intro hh
              exact absurd rfl hh
          rw [if_neg hk, hInv.globEnclosing,
            dictGet_none_of_not_hasKey _ _ hk2]
      · rcases hInv.upperChain r hp hr with ⟨j, hj, henc⟩
        rw [hInv.upperEmpty r hp hr]
        simp only [dictHasKey]
        rw [if_neg Bool.false_ne_true, henc]
        exact ih s j hInv (Nat.lt_trans hj hr) (by omega)

/-- `_lookup_variable` with the empty resolution table is exactly the
globals lookup of the claim. -/
theorem lookupVariable_globals (s : InterpState) (name : Token) (eid : Nat)
    (hInv : Inv s) : lookupVariable s name eid = globalsGet s name := by
  unfold lookupVariable
  rw [hInv.localsEmpty]
  simp only [List.isEmpty_nil]
  rw [if_pos trivial]
  exact envGet_chain name (s.envs.length + 1) s s.environment hInv
    hInv.curLt (Nat.lt_succ_of_lt hInv.curLt)

/-- Under the invariant a chain assignment from any live environment is
exactly the globals assignment of the claim. -/
theorem envAssign_chain (name : Token) (v : Value) :
    ∀ fuel s r, Inv s → r < s.envs.length → r < fuel →
      envAssign fuel s r name v = globalsAssign s name v := by
  intro fuel
  induction fuel with
  | zero =>
      intro s r _ _ hf
      exact absurd hf (Nat.not_lt_zero r)
  | succ fuel ih =>
      intro s r hInv hr hf
      unfold envAssign
      dsimp only
      rcases Nat.eq_zero_or_pos r with hz | hp
      · subst hz
        unfold globalsAssign
        by_cases hk : dictHasKey (getEnv s 0).values name.lexeme = true
        · rw [if_pos hk, if_pos hk]
        · rw [if_neg hk, if_neg hk, hInv.globEnclosing]
      · rcases hInv.upperChain r hp hr with ⟨j, hj, henc⟩
        rw [hInv.upperEmpty r hp hr]
        simp only [dictHasKey]
        rw [if_neg Bool.false_ne_true, henc]
        exact ih s j hInv (Nat.lt_trans hj hr) (by omega)

/-- The interpreter starts in the invariant: globals hold only the
native clock, no other environment exists, the table is empty. -/
theorem Inv_init : Inv { initState with locals := [] } := by
  refine ⟨?_, ?_, rfl, rfl, ?_, ?_, ?_⟩
  · exact Nat.succ_pos 0
  · exact Nat.succ_pos 0
  · intro kv hm
    rcases List.mem_singleton.mp hm with h
    rw [h]
    rfl
  · intro i hi hilen
    simp only [initState, List.length_singleton] at hilen
    omega
  · intro i hi hilen
    simp only [initState, List.length_singleton] at hilen
    omega

theorem okSimple (v0 : Value) (s0 : InterpState) (h0 : SimpleV v0 = true) :
    ∀ v s2, ((Res.ok v0, s0) : Res Value × InterpState) = (.ok v, s2) →
      SimpleV v = true := by
  intro v s2 h
  injection h with h1 _
  injection h1 with h2
  rw [← h2]
  exact h0

theorem resNoOk (res : Res Value) (s0 : InterpState)
    (hne : ∀ w, res ≠ .ok w) :
    ∀ v s2, ((res, s0) : Res Value × InterpState) = (.ok v, s2) →
      SimpleV v = true := by
  intro v s2 h
  injection h with h1 _
  exact absurd h1 (hne v)

/-- Executing any fragment construct preserves the invariant, never
shrinks the environment store, and every value produced is simple. -/
theorem invPreserve (f : Nat) :
    (∀ e s, fragExpr e = true → Inv s →
      Inv (evalExpr f e s).2 ∧
      s.envs.length ≤ (evalExpr f e s).2.envs.length ∧
      ∀ v s2, evalExpr f e s = (.ok v, s2) → SimpleV v = true) ∧
    (∀ es s, fragExprList es = true → Inv s →
      Inv (evalArgs f es s).2 ∧
      s.envs.length ≤ (evalArgs f es s).2.envs.length) ∧
    (∀ st s, fragStmt st = true → Inv s →
      Inv (execStmt f st s).2 ∧
      s.envs.length ≤ (execStmt f st s).2.envs.length) ∧
    (∀ sts s, fragStmtList sts = true → Inv s →
      Inv (execStmts f sts s).2 ∧
      s.envs.length ≤ (execStmts f sts s).2.envs.length) ∧
    (∀ sts r s, fragStmtList sts = true → Inv s → r < s.envs.length →
      Inv (execBlock f sts r s).2 ∧
      s.envs.length ≤ (execBlock f sts r s).2.envs.length) := by
  induction f with
  | zero =>
      exact ⟨fun e s _ hInv => ⟨hInv, Nat.le_refl _,
          resNoOk _ _ (fun w h => Res.noConfusion h)⟩,
        fun es s _ hInv => ⟨hInv, Nat.le_refl _⟩,
        fun st s _ hInv => ⟨hInv, Nat.le_refl _⟩,
        fun sts s _ hInv => ⟨hInv, Nat.le_refl _⟩,
        fun sts r s _ hInv _ => ⟨hInv, Nat.le_refl _⟩⟩
  | succ f ih =>
      obtain ⟨ihA, ihB, ihC, ihD, ihE⟩ := ih
      refine ⟨?_, ?_, ?_, ?_, ?_⟩
      · intro e s hfe hInv
        cases e
        case literal l =>
          unfold evalExpr
          exact ⟨hInv, Nat.le_refl _, okSimple _ _ (literalValue_simple l)⟩
        case grouping inner =>
          unfold evalExpr
          simp only [fragExpr] at hfe
          exact ihA inner s hfe hInv
        case logical left op right =>
          simp only [fragExpr, Bool.and_eq_true] at hfe
          unfold evalExpr
          dsimp only
          rcases h1 : evalExpr f left s with ⟨res1, s1⟩
          have hP1 := ihA left s hfe.1 hInv
          rw [h1] at hP1
          cases res1
          case ok lv =>
            dsimp only
            have hlv := hP1.2.2 lv s1 rfl
            rcases h2 : evalExpr f right s1 with ⟨res2, s2⟩
            have hPr := ihA right s1 hfe.2 hP1.1
            rw [h2] at hPr
            split
            · split
              · exact ⟨hP1.1, hP1.2.1, okSimple _ _ hlv⟩
              · exact ⟨hPr.1, hP1.2.1.trans hPr.2.1, hPr.2.2⟩
            · split
              · exact ⟨hP1.1, hP1.2.1, okSimple _ _ hlv⟩
              · exact ⟨hPr.1, hP1.2.1.trans hPr.2.1, hPr.2.2⟩
          all_goals exact ⟨hP1.1, hP1.2.1,
            resNoOk _ _ (fun w h => Res.noConfusion h)⟩
        case unary op right =>
          simp only [fragExpr] at hfe
          unfold evalExpr
          dsimp only
          rcases h1 : evalExpr f right s with ⟨res1, s1⟩
          have hP1 := ihA right s hfe hInv
          rw [h1] at hP1
          cases res1
          case ok rv =>
            refine ⟨hP1.1, hP1.2.1, fun v s2 h => ?_⟩
            injection h with h1 _
            exact evalUnaryOp_simple op rv v h1
          all_goals exact ⟨hP1.1, hP1.2.1,
            resNoOk _ _ (fun w h => Res.noConfusion h)⟩
        case binary left op right =>
          simp only [fragExpr, Bool.and_eq_true] at hfe
          unfold evalExpr
          dsimp only
          rcases h1 : evalExpr f left s with ⟨res1, s1⟩
          have hP1 := ihA left s hfe.1 hInv
          rw [h1] at hP1
          cases res1
          case ok lv =>
            dsimp only
            rcases h2 : evalExpr f right s1 with ⟨res2, s2⟩
            have hP2 := ihA right s1 hfe.2 hP1.1
            rw [h2] at hP2
            cases res2
            case ok rv =>
              refine ⟨hP2.1, hP1.2.1.trans hP2.2.1, fun v s3 h => ?_⟩
              injection h with h1 _
              exact evalBinaryOp_simple f s2 op lv rv v h1
            all_goals exact ⟨hP2.1, hP1.2.1.trans hP2.2.1,
              resNoOk _ _ (fun w h => Res.noConfusion h)⟩
          all_goals exact ⟨hP1.1, hP1.2.1,
            resNoOk _ _ (fun w h => Res.noConfusion h)⟩
        case variableE eid name =>
          unfold evalExpr
          refine ⟨hInv, Nat.le_refl _, fun v s2 h => ?_⟩
          injection h with h1 _
          rw [lookupVariable_globals s name eid hInv] at h1
          exact globalsGet_ok_simple s name v hInv h1
        case assign eid name value =>
          simp only [fragExpr] at hfe
          unfold evalExpr
          dsimp only
          rcases h1 : evalExpr f value s with ⟨res1, s1⟩
          have hP1 := ihA value s hfe hInv
          rw [h1] at hP1
          cases res1
          case ok v0 =>
            dsimp only
            have hInv1 := hP1.1
            have hv0 := hP1.2.2 v0 s1 rfl
            rw [hInv1.localsEmpty]
            simp only [List.isEmpty_nil]
            rw [if_pos trivial]
            rw [envAssign_chain name v0 (s1.envs.length + 1) s1
              s1.environment hInv1 hInv1.curLt
              (Nat.lt_succ_of_lt hInv1.curLt)]
            have hg := Inv_globalsAssign s1 name v0 hInv1 hv0
            rcases h2 : globalsAssign s1 name v0 with ⟨res2, s2⟩
            rw [h2] at hg
            cases res2
            case ok u =>
              exact ⟨hg.1, hP1.2.1.trans (le_of_eq hg.2.1.symm),
                okSimple _ _ hv0⟩
            all_goals exact ⟨hg.1, hP1.2.1.trans (le_of_eq hg.2.1.symm),
              resNoOk _ _ (fun w h => Res.noConfusion h)⟩
          all_goals exact ⟨hP1.1, hP1.2.1,
            resNoOk _ _ (fun w h => Res.noConfusion h)⟩
        case call callee paren argExprs =>
          simp only [fragExpr, Bool.and_eq_true] at hfe
          unfold evalExpr
          dsimp only
          rcases h1 : evalExpr f callee s with ⟨res1, s1⟩
          have hP1 := ihA callee s hfe.1 hInv
          rw [h1] at hP1
          cases res1
          case ok cv =>
            dsimp only
            rcases h2 : evalArgs f argExprs s1 with ⟨res2, s2⟩
            have hP2 := ihB argExprs s1 hfe.2 hP1.1
            rw [h2] at hP2
            cases res2
            case ok args =>
              dsimp only
              have hcv := hP1.2.2 cv s1 rfl
              have hmono := hP1.2.1.trans hP2.2
              have hInv2 := hP2.1
              cases cv
              case fn g => simp [SimpleV] at hcv
              case klass c => simp [SimpleV] at hcv
              case inst iid => simp [SimpleV] at hcv
              all_goals
                split
                · exact ⟨hInv2, hmono,
                    resNoOk _ _ (fun w h => Res.noConfusion h)⟩
                · split
                  · exact ⟨hInv2, hmono,
                      resNoOk _ _ (fun w h => Res.noConfusion h)⟩
                  · exact ⟨hInv2, hmono, okSimple _ _ rfl⟩
            all_goals exact ⟨hP2.1, hP1.2.1.trans hP2.2,
              resNoOk _ _ (fun w h => Res.noConfusion h)⟩
          all_goals exact ⟨hP1.1, hP1.2.1,
            resNoOk _ _ (fun w h => Res.noConfusion h)⟩
        all_goals simp [fragExpr] at hfe
      · intro es s hfl hInv
        cases es
        case nil => exact ⟨hInv, Nat.le_refl _⟩
        case cons e rest =>
          simp only [fragExprList, Bool.and_eq_true] at hfl
          unfold evalArgs
          rcases h1 : evalExpr f e s with ⟨res1, s1⟩
          have hP1 := ihA e s hfl.1 hInv
          rw [h1] at hP1
          cases res1
          case ok v =>
            dsimp only
            rcases h2 : evalArgs f rest s1 with ⟨res2, s2⟩
            have hP2 := ihB rest s1 hfl.2 hP1.1
            rw [h2] at hP2
            cases res2 <;> exact ⟨hP2.1, hP1.2.1.trans hP2.2⟩
          all_goals exact ⟨hP1.1, hP1.2.1⟩
      · intro st s hfs hInv
        cases st
        case expression e =>
          simp only [fragStmt] at hfs
          unfold execStmt
          dsimp only
          rcases h1 : evalExpr f e s with ⟨res1, s1⟩
          have hP1 := ihA e s hfs hInv
          rw [h1] at hP1
          cases res1 <;> exact ⟨hP1.1, hP1.2.1⟩
        case block stmts =>
          simp only [fragStmt] at hfs
          unfold execStmt
          dsimp only
          have hExt := Inv_extend s hInv
          have hlen2 : ({ s with envs :=
              s.envs ++ [(⟨[], some s.environment⟩ : EnvData)] }).envs.length =
              s.envs.length + 1 := by
            dsimp only
            rw [List.length_append, List.length_singleton]
          have hE := ihE stmts s.envs.length
            { s with envs := s.envs ++ [(⟨[], some s.environment⟩ : EnvData)] }
            hfs hExt (by rw [hlen2]; exact Nat.lt_succ_self _)
          refine ⟨hE.1, ?_⟩
          calc s.envs.length ≤ s.envs.length + 1 := Nat.le_succ _
            _ = ({ s with envs :=
                s.envs ++ [(⟨[], some s.environment⟩ : EnvData)] }).envs.length :=
              hlen2.symm
            _ ≤ _ := hE.2
        all_goals simp [fragStmt] at hfs
      · intro sts s hfl hInv
        cases sts
        case nil => exact ⟨hInv, Nat.le_refl _⟩
        case cons st rest =>
          simp only [fragStmtList, Bool.and_eq_true] at hfl
          unfold execStmts
          rcases h1 : execStmt f st s with ⟨res1, s1⟩
          have hP1 := ihC st s hfl.1 hInv
          rw [h1] at hP1
          cases res1
          case ok u =>
            dsimp only
            have hP2 := ihD rest s1 hfl.2 hP1.1
            exact ⟨hP2.1, hP1.2.trans hP2.2⟩
          all_goals exact ⟨hP1.1, hP1.2⟩
      · intro sts r s hfl hInv hr
        unfold execBlock
        dsimp only
        rcases h1 : execStmts f sts { s with environment := r } with ⟨res1, s1⟩
        have hP1 := ihD sts { s with environment := r } hfl
          (Inv_setEnvironment s r hInv hr)
        rw [h1] at hP1
        have hlen : s.envs.length ≤ s1.envs.length := hP1.2
        exact ⟨Inv_setEnvironment s1 s.environment hP1.1
          (Nat.lt_of_lt_of_le hInv.curLt hlen), hlen⟩

/-- C1, confirmed degenerately: in a program that scans, parses and
resolves with no reported errors, the resolver has recorded no distance
at all (the scanner of this repository emits no keyword tokens, so a
clean parse contains only expression statements and blocks, which the
resolver walks without ever resolving a local), making the d ≥ 0 half
of the claim vacuous; the program consists of fragment statements only,
execution keeps the interpreter inside the invariant `Inv` from the
initial state onwards, and under `Inv` the evaluator's variable lookup
(`_lookup_variable`) and assignment (`Environment.assign` from the
current environment) are exactly the claim's unresolved-name semantics:
the globals environment is consulted and a runtime error is raised
exactly when the name is unbound there. -/
theorem c1_variable_resolution (fuel : Nat) (source : String)
    (tokens : List Token) (stmts : List Stmt) (ps : PState) (rst : RState)
    (hscan : Scanner.scanTokens source = (tokens, []))
    (hparse : Parser.parseAll fuel tokens = (.ok stmts, ps))
    (hperr : ps.errors = [])
    (hres : resolverResolve fuel stmts = (.ok, rst))
    (hrerr : rst.errors = []) :
    rst.locals = [] ∧
    fragStmtList stmts = true ∧
    Inv { initState with locals := rst.locals } ∧
    (∀ f st s, fragStmt st = true → Inv s → Inv (execStmt f st s).2) ∧
    (∀ s name eid, Inv s → lookupVariable s name eid = globalsGet s name) ∧
    (∀ s name v, Inv s →
      envAssign (s.envs.length + 1) s s.environment name v =
        globalsAssign s name v) := by
  have hloc : rst.locals = [] := resolverResolve_locals fuel stmts rst hres
  have hok : tokensOK tokens = true := by
    have h := scanTokens_ok source
    rw [hscan] at h
    exact h
  refine ⟨hloc, parseAll_frag fuel tokens stmts ps hok hparse, ?_, ?_, ?_, ?_⟩
  · rw [hloc]
    exact Inv_init
  · intro f st s hfs hInv
    exact ((invPreserve f).2.2.1 st s hfs hInv).1
  · intro s name eid hInv
    exact lookupVariable_globals s name eid hInv
  · intro s name v hInv
    exact envAssign_chain name v (s.envs.length + 1) s s.environment hInv
      hInv.curLt (Nat.lt_succ_of_lt hInv.curLt)

theorem c1_witness :
    Scanner.scanTokens c1src = (c1tokens, []) ∧
    Parser.parseAll 100 c1tokens = (.ok c1stmts, c1ps) ∧
    c1ps.errors = [] ∧
    resolverResolve 100 c1stmts = (.ok, c1rst) ∧
    c1rst.errors = [] ∧
    (c1rst.locals = [] ∧
     fragStmtList c1stmts = true ∧
     Inv { initState with locals := c1rst.locals } ∧
     (∀ f st s, fragStmt st = true → Inv s → Inv (execStmt f st s).2) ∧
     (∀ s name eid, Inv s → lookupVariable s name eid = globalsGet s name) ∧
     (∀ s name v, Inv s →
       envAssign (s.envs.length + 1) s s.environment name v =
         globalsAssign s name v)) :=
  ⟨rfl, rfl, rfl, rfl, rfl,
    c1_variable_resolution 100 c1src c1tokens c1stmts c1ps c1rst
      rfl rfl rfl rfl rfl⟩
theorem c10_run_reinterprets_expression_stmts
    (fuel : Nat) (source : String) (tokens : List Token)
    (stmts : List Stmt) (ps : PState) (rst : RState) (s1 s2 : InterpState)
    (hscan : Scanner.scanTokens source = (tokens, []))
    (hparse : Parser.parseAll fuel tokens = (.ok stmts, ps))
    (hperr : ps.errors = [])
    (hres : resolverResolve fuel stmts = (.ok, rst))
    (hrerr : rst.errors = [])
    (hexec : interpretAll fuel stmts { initState with locals := rst.locals } =
      (.ok (), s1))
    (hsecond : runSecondLoop fuel stmts s1 = (.ok (), s2)) :
    run fuel source = (.completed, s2.effects) ∧
    (∀ f e s v sx, evalExpr f e s = (.ok v, sx) →
      execStmt (f + 1) (Stmt.expression e) s = (.ok (), sx)) ∧
    (∀ f e s res sx rest, interpret f e s = (.ok res, sx) →
      runSecondLoop (f + 1) (Stmt.expression e :: rest) s =
        runSecondLoop f rest
          (match res with
           | some r =>
               if r ≠ "" then { sx with effects := sx.effects ++ [.out r] }
               else sx
           | Option.none => sx)) := by
  refine ⟨?_, fun f e s v sx h => ?_, fun f e s res sx rest h => ?_⟩
  · simp only [run, hscan, hparse, hperr, hres, hrerr, hexec, hsecond,
      scanReports, tokenReports, List.map_nil, List.isEmpty_nil,
      List.nil_append, Bool.not_true, Bool.or_self, Bool.false_eq_true,
      if_false]
  · simp only [execStmt, h]
  · simp only [runSecondLoop, h]

theorem c10_witness :
    (run 100 c10src = (.completed, c10s2.effects) ∧
     (∀ f e s v sx, evalExpr f e s = (.ok v, sx) →
       execStmt (f + 1) (Stmt.expression e) s = (.ok (), sx)) ∧
     (∀ f e s res sx rest, interpret f e s = (.ok res, sx) →
       runSecondLoop (f + 1) (Stmt.expression e :: rest) s =
         runSecondLoop f rest
           (match res with
            | some r =>
                if r ≠ "" then { sx with effects := sx.effects ++ [.out r] }
                else sx
            | Option.none => sx))) ∧
    c10s2.effects =
      [.err (undefinedVarMsgAssign "x" ++ " \n[line 1]"),
       .err (undefinedVarMsgAssign "x" ++ " \n[line 1]")] :=
  ⟨c10_run_reinterprets_expression_stmts 100 c10src c10tokens c10stmts
     c10parsed.2 c10rst c10s1 c10s2 rfl rfl rfl rfl rfl rfl rfl, rfl⟩

end Pylox
